import Mathlib

/-!
# Garage adventure: navigation search and vehicle performance

A shallow embedding of the two shortest-path routines of
`advanced_garage_adventure_c23.c` (`dijkstra_shortest_path`,
`astar_pathfinding`) together with `heuristic_distance`, and of its six
performance functions (`calculate_terminal_velocity` to `calculate_lap_time`).

Conventions of the embedding.

* The search routines are written over any type `α` that carries the operations
  they use on a C `double` (`+`, `-`, `*`, `<`, `>=` and the constants), with the
  library function `sqrt` as a parameter.  The contracts are stated at `α = ℝ`
  with `Real.sqrt`, that is for exact arithmetic.  The type `Binary64` carries
  the rounded operations of IEEE 754 binary64, and what rounding does to the
  contracts is stated there.  Infinities and NaN are outside both.
* In the performance functions a C `double` is an element of a linearly ordered
  field, and their contracts are stated at `ℝ`.
* A C array is a total function on `Nat`, written with `Function.update`.
* `int` variables that hold a room index or `-1` are `Int`.
* `astar_pathfinding` loops with `while (true)`; the embedding takes a fuel
  argument and answers `none` when the fuel runs out, `some none` when the C
  function returns `false`, and `some (some p)` when it returns `true` having
  written the rooms `p` to `path[0 .. actual_path_length)`.  The parameter
  `path_length` is never read by the C function and is left out.
* `dijkstra_shortest_path` returns the table it fills through `state`.
* The library function `cbrt` is a parameter as well; the contracts take it to
  be the real cube root, that is any `cbrt` with `cbrt x ^ 3 = x` for all `x`.
-/

namespace GarageAdventure

/-! ## Constants and data -/

def MAX_ROOMS : Nat := 20

def MAX_PATH_LENGTH : Nat := 100

/-- Number of enumerators of `RoomID` before `ROOM_COUNT`. -/
def ROOM_COUNT : Nat := 10

/-- Number of enumerators of `Direction` before `DIR_COUNT`. -/
def DIR_COUNT : Nat := 4

abbrev RoomID := Nat

structure Point2D (α : Type) where
  x : α
  y : α

/-- The fields of `Room` read by the search routines. -/
structure Room (α : Type) where
  connections : Nat → RoomID
  coordinates : Point2D α

structure PathfindingState (α : Type) where
  parent : Nat → Int
  cost : Nat → α
  visited : Nat → Bool

/-- The five local arrays of `astar_pathfinding`. -/
structure AStarState (α : Type) where
  g_score : Nat → α
  f_score : Nat → α
  closed_set : Nat → Bool
  open_set : Nat → Bool
  came_from : Nat → Int

section Code

variable {α : Type} [Add α] [Sub α] [Mul α] [Zero α] [One α] [OfNat α 999999] [LT α] [LE α]
  [DecidableRel (fun a b : α => a < b)] [DecidableRel (fun a b : α => a ≤ b)]

def INFINITY_COST : α := 999999

def HEURISTIC_WEIGHT : α := 1

def heuristic_distance (sqrt : α → α) (a b : Point2D α) : α :=
  let dx := a.x - b.x
  let dy := a.y - b.y
  sqrt (dx * dx + dy * dy)

/-! ## Dijkstra -/

/-- The initialisation loop followed by `state->cost[start] = 0`. -/
def dijkstra_init (start : RoomID) : PathfindingState α :=
  { parent := fun _ => -1
    cost := Function.update (fun _ => INFINITY_COST) start 0
    visited := fun _ => false }

/-- The scan for the unvisited node of least cost: the pair
`(min_cost, min_node)` after the inner `for` loop. -/
def dijkstra_select (state : PathfindingState α) : α × Int :=
  (List.range ROOM_COUNT).foldl
    (fun (acc : α × Int) (i : Nat) =>
      if state.visited i = false ∧ state.cost i < acc.1 then (state.cost i, (i : Int))
      else acc)
    (INFINITY_COST, -1)

/-- One pass of the body of the `for (dir ...)` loop of Dijkstra. -/
def dijkstra_relax (sqrt : α → α) (rooms : Nat → Room α) (min_node : Nat)
    (state : PathfindingState α) (dir : Nat) : PathfindingState α :=
  let neighbor := (rooms min_node).connections dir
  if neighbor ≠ min_node ∧ state.visited neighbor = false then
    let edge_cost :=
      heuristic_distance sqrt (rooms min_node).coordinates (rooms neighbor).coordinates
    let new_cost := state.cost min_node + edge_cost
    if new_cost < state.cost neighbor then
      { state with
        cost := Function.update state.cost neighbor new_cost
        parent := Function.update state.parent neighbor (min_node : Int) }
    else state
  else state

/-- Marking `min_node` visited and updating its four neighbours. -/
def dijkstra_visit (sqrt : α → α) (rooms : Nat → Room α) (min_node : Nat)
    (state : PathfindingState α) : PathfindingState α :=
  (List.range DIR_COUNT).foldl (dijkstra_relax sqrt rooms min_node)
    { state with visited := Function.update state.visited min_node true }

/-- The main loop `for (count = 0; count < ROOM_COUNT; count++)`; the first
argument is the number of iterations still allowed. -/
def dijkstra_loop (sqrt : α → α) (rooms : Nat → Room α) (end_ : RoomID) :
    Nat → PathfindingState α → PathfindingState α
  | 0, state => state
  | n + 1, state =>
    let min_node := (dijkstra_select state).2
    if min_node = -1 ∨ min_node = (end_ : Int) then state
    else dijkstra_loop sqrt rooms end_ n (dijkstra_visit sqrt rooms min_node.toNat state)

def dijkstra_shortest_path (sqrt : α → α) (rooms : Nat → Room α) (start end_ : RoomID) :
    PathfindingState α :=
  dijkstra_loop sqrt rooms end_ ROOM_COUNT (dijkstra_init start)

/-! ## A* -/

def astar_init (sqrt : α → α) (rooms : Nat → Room α) (start end_ : RoomID) : AStarState α :=
  { g_score := Function.update (fun _ => INFINITY_COST) start 0
    f_score := Function.update (fun _ => INFINITY_COST) start
      (heuristic_distance sqrt (rooms start).coordinates (rooms end_).coordinates)
    closed_set := fun _ => false
    open_set := Function.update (fun _ => false) start true
    came_from := fun _ => -1 }

/-- The scan for the open node of least `f_score`: the pair `(min_f, current)`. -/
def astar_select (st : AStarState α) : α × Int :=
  (List.range ROOM_COUNT).foldl
    (fun (acc : α × Int) (i : Nat) =>
      if st.open_set i = true ∧ st.f_score i < acc.1 then (st.f_score i, (i : Int))
      else acc)
    (INFINITY_COST, -1)

/-- The three assignments that end the neighbour loop body. -/
def astar_record (sqrt : α → α) (rooms : Nat → Room α) (end_ : RoomID) (current neighbor : Nat)
    (tentative_g : α) (st : AStarState α) : AStarState α :=
  { st with
    came_from := Function.update st.came_from neighbor (current : Int)
    g_score := Function.update st.g_score neighbor tentative_g
    f_score := Function.update st.f_score neighbor
      (tentative_g + HEURISTIC_WEIGHT *
        heuristic_distance sqrt (rooms neighbor).coordinates (rooms end_).coordinates) }

/-- One pass of the body of the `for (dir ...)` loop of A*. -/
def astar_neighbor (sqrt : α → α) (rooms : Nat → Room α) (end_ : RoomID) (current : Nat)
    (st : AStarState α) (dir : Nat) : AStarState α :=
  let neighbor := (rooms current).connections dir
  if neighbor = current ∨ st.closed_set neighbor = true then st
  else
    let tentative_g := st.g_score current +
      heuristic_distance sqrt (rooms current).coordinates (rooms neighbor).coordinates
    if st.open_set neighbor = false then
      astar_record sqrt rooms end_ current neighbor tentative_g
        { st with open_set := Function.update st.open_set neighbor true }
    else if tentative_g ≥ st.g_score neighbor then st
    else astar_record sqrt rooms end_ current neighbor tentative_g st

/-- Moving `current` from the open to the closed set and checking its neighbours. -/
def astar_expand (sqrt : α → α) (rooms : Nat → Room α) (end_ : RoomID) (current : Nat)
    (st : AStarState α) : AStarState α :=
  (List.range DIR_COUNT).foldl (astar_neighbor sqrt rooms end_ current)
    { st with
      open_set := Function.update st.open_set current false
      closed_set := Function.update st.closed_set current true }

/-- The loop `while (node != -1 && actual_path_length < MAX_PATH_LENGTH)`.  The
first argument is `MAX_PATH_LENGTH - actual_path_length`; the result is the
buffer and `actual_path_length` at loop exit. -/
def astar_walk (came_from : Nat → Int) :
    Nat → Int → (Nat → RoomID) → Nat → (Nat → RoomID) × Nat
  | 0, _, path, actual_path_length => (path, actual_path_length)
  | k + 1, node, path, actual_path_length =>
    if node = -1 then (path, actual_path_length)
    else
      astar_walk came_from k (came_from node.toNat)
        (Function.update path actual_path_length node.toNat) (actual_path_length + 1)

/-- The in-place reversal loop `for (i = 0; i < actual_path_length / 2; i++)`. -/
def astar_reverse (path : Nat → RoomID) (actual_path_length : Nat) : Nat → RoomID :=
  (List.range (actual_path_length / 2)).foldl
    (fun (p : Nat → RoomID) (i : Nat) =>
      let temp := p i
      Function.update (Function.update p i (p (actual_path_length - 1 - i)))
        (actual_path_length - 1 - i) temp)
    path

/-- Path reconstruction: the walk back from `end`, the reversal, and the
entries `path[0 .. actual_path_length)` that result.  The caller's buffer is
taken to hold zeros; only entries written by the walk are read back. -/
def astar_reconstruct (came_from : Nat → Int) (end_ : RoomID) : List RoomID :=
  let w := astar_walk came_from MAX_PATH_LENGTH (end_ : Int) (fun _ => 0) 0
  (List.range w.2).map (astar_reverse w.1 w.2)

/-- The `while (true)` loop of `astar_pathfinding`, with fuel. -/
def astar_loop (sqrt : α → α) (rooms : Nat → Room α) (end_ : RoomID) :
    Nat → AStarState α → Option (Option (List RoomID))
  | 0, _ => none
  | fuel + 1, st =>
    let current := (astar_select st).2
    if current = -1 then some none
    else if current = (end_ : Int) then some (some (astar_reconstruct st.came_from end_))
    else astar_loop sqrt rooms end_ fuel (astar_expand sqrt rooms end_ current.toNat st)

def astar_pathfinding (fuel : Nat) (sqrt : α → α) (rooms : Nat → Room α)
    (start end_ : RoomID) : Option (Option (List RoomID)) :=
  astar_loop sqrt rooms end_ fuel (astar_init sqrt rooms start end_)

end Code

/-! ## Specification vocabulary -/

section Lengths

variable {α : Type} [Add α] [Sub α] [Mul α] [Zero α]

/-- Euclidean length of the step from `u` to `v`, as both routines compute it. -/
def edge_length (sqrt : α → α) (rooms : Nat → Room α) (u v : RoomID) : α :=
  heuristic_distance sqrt (rooms u).coordinates (rooms v).coordinates

/-- Sum of the edge lengths along a sequence of rooms. -/
def route_length (sqrt : α → α) (rooms : Nat → Room α) : List RoomID → α
  | [] => 0
  | [_] => 0
  | u :: v :: rest => edge_length sqrt rooms u v + route_length sqrt rooms (v :: rest)

end Lengths

section Spec

variable {α : Type} [LinearOrderedField α]

/-- Every connection of every room of the map is itself a room of the map. -/
def valid_connections (rooms : Nat → Room α) : Prop :=
  ∀ i, i < ROOM_COUNT → ∀ dir, dir < DIR_COUNT → (rooms i).connections dir < ROOM_COUNT

/-- Room `v` is entered from room `u` through one of the four directions, and
the connection is not the self-loop that stands for "no exit". -/
def passage (rooms : Nat → Room α) (u v : RoomID) : Prop :=
  v ≠ u ∧ ∃ dir, dir < DIR_COUNT ∧ (rooms u).connections dir = v

/-- The sequence `p` starts at `s`, ends at `g`, and each step is a passage. -/
def is_route (rooms : Nat → Room α) (s g : RoomID) (p : List RoomID) : Prop :=
  p.head? = some s ∧ p.getLast? = some g ∧ p.Chain' (passage rooms)

/-- The list starts at some room and follows `came_from` down to the room
whose entry is `-1`. -/
def back_chain (came_from : Nat → Int) : List RoomID → Prop
  | [] => False
  | [s] => came_from s = -1
  | v :: u :: rest => came_from v = (u : Int) ∧ back_chain came_from (u :: rest)

/-- Structural invariant of the A* loop: the open and closed sets are disjoint,
closed rooms are rooms of the map, and `came_from` leads from every open or
closed room back to `start` along passages whose lengths add up to `g_score`. -/
structure AStarChains (sqrt : α → α) (rooms : Nat → Room α) (start : RoomID)
    (st : AStarState α) : Prop where
  excl : ∀ v, st.closed_set v = true → st.open_set v = false
  closed_lt : ∀ v, st.closed_set v = true → v < ROOM_COUNT
  chain : ∀ v, st.open_set v = true ∨ st.closed_set v = true →
    ∃ l : List RoomID, back_chain st.came_from (v :: l) ∧ (∀ x ∈ l, st.closed_set x = true) ∧
      (v :: l).Nodup ∧ is_route rooms start v (v :: l).reverse ∧
      route_length sqrt rooms (v :: l).reverse = st.g_score v

/-- Number of rooms of the map not yet in the closed set: the quantity that
drops at every pass of the A* loop that does not return. -/
def astar_unclosed (st : AStarState α) : Nat :=
  ((Finset.range ROOM_COUNT).filter (fun i => st.closed_set i = false)).card

/-- Some sequence of passages leads from `s` to the room, with total length
the given number (summed in the order the search routines add it up). -/
inductive Attainable (sqrt : α → α) (rooms : Nat → Room α) (s : RoomID) : RoomID → α → Prop
  | start : Attainable sqrt rooms s s 0
  | step {u v : RoomID} {c : α} : Attainable sqrt rooms s u c → passage rooms u v →
      Attainable sqrt rooms s v (c + edge_length sqrt rooms u v)

/-- The facts about `heuristic_distance` that the optimality arguments use. -/
structure MetricLike (sqrt : α → α) : Prop where
  self_zero : ∀ a : Point2D α, heuristic_distance sqrt a a = 0
  nonneg : ∀ a b : Point2D α, 0 ≤ heuristic_distance sqrt a b
  triangle : ∀ a b c : Point2D α,
    heuristic_distance sqrt a c ≤ heuristic_distance sqrt a b + heuristic_distance sqrt b c

/-- Invariant of the A* neighbour loop while room `u` is being expanded.  At the
head of the main loop the same facts hold with `relaxed` for every closed room
(see `AStarOpt`). -/
structure AStarMid (sqrt : α → α) (rooms : Nat → Room α) (s e u : RoomID)
    (st : AStarState α) : Prop where
  chains : AStarChains sqrt rooms s st
  cur_closed : st.closed_set u = true
  goal_open : st.closed_set e = false
  start_seen : st.open_set s = true ∨ st.closed_set s = true
  open_lt : ∀ v, st.open_set v = true → v < ROOM_COUNT
  f_eq : ∀ v, st.open_set v = true ∨ st.closed_set v = true →
    st.f_score v = st.g_score v +
      heuristic_distance sqrt (rooms v).coordinates (rooms e).coordinates
  best : ∀ v, st.closed_set v = true → ∀ c, Attainable sqrt rooms s v c → st.g_score v ≤ c
  relaxed : ∀ y x, st.closed_set y = true → y ≠ u → passage rooms y x →
    (st.open_set x = true ∨ st.closed_set x = true) ∧
      st.g_score x ≤ st.g_score y + edge_length sqrt rooms y x

/-- Invariant of the main A* loop: on top of `AStarChains`, the goal is never
closed, `f_score` is `g_score` plus the heuristic, every neighbour of a closed
room is open or closed with a score no worse than through that room, and the
score of a closed room is the least length of any route to it. -/
structure AStarOpt (sqrt : α → α) (rooms : Nat → Room α) (s e : RoomID)
    (st : AStarState α) : Prop where
  chains : AStarChains sqrt rooms s st
  goal_open : st.closed_set e = false
  start_seen : st.open_set s = true ∨ st.closed_set s = true
  open_lt : ∀ v, st.open_set v = true → v < ROOM_COUNT
  f_eq : ∀ v, st.open_set v = true ∨ st.closed_set v = true →
    st.f_score v = st.g_score v +
      heuristic_distance sqrt (rooms v).coordinates (rooms e).coordinates
  best : ∀ v, st.closed_set v = true → ∀ c, Attainable sqrt rooms s v c → st.g_score v ≤ c
  relaxed : ∀ y x, st.closed_set y = true → passage rooms y x →
    (st.open_set x = true ∨ st.closed_set x = true) ∧
      st.g_score x ≤ st.g_score y + edge_length sqrt rooms y x

/-- Number of rooms of the map not yet marked visited by Dijkstra. -/
def dijkstra_unvisited (st : PathfindingState α) : Nat :=
  ((Finset.range ROOM_COUNT).filter (fun i => st.visited i = false)).card

/-- Invariant of Dijkstra.  With `cur = none` it is the invariant of the main
loop; with `cur = some u` it is the invariant of the neighbour loop while the
room `u` is being processed, whose own neighbours are not all updated yet. -/
structure DijkstraInv (sqrt : α → α) (rooms : Nat → Room α) (s e : RoomID)
    (cur : Option RoomID) (st : PathfindingState α) : Prop where
  cur_visited : ∀ u, cur = some u → st.visited u = true
  visited_lt : ∀ v, st.visited v = true → v < ROOM_COUNT
  goal_unvisited : st.visited e = false
  cost_le : ∀ v, st.cost v ≤ INFINITY_COST
  visited_fin : ∀ v, st.visited v = true → st.cost v < INFINITY_COST
  touched : ∀ v, (st.cost v = INFINITY_COST ∧ st.parent v = -1) ∨
    Attainable sqrt rooms s v (st.cost v)
  start_cost : st.cost s ≤ 0
  best : ∀ v, st.visited v = true → ∀ c, Attainable sqrt rooms s v c → st.cost v ≤ c
  relaxed : ∀ y x, st.visited y = true → cur ≠ some y → passage rooms y x →
    st.cost x ≤ st.cost y + edge_length sqrt rooms y x

/-- Shape of the A* arrays while and after the start room `a` is expanded, when
every connection of `a` is `a` itself or `b`. -/
structure TwoRoomAStar (a b : RoomID) (st : AStarState α) : Prop where
  closed_iff : ∀ v, st.closed_set v = true ↔ v = a
  open_only : ∀ v, st.open_set v = true → v = b
  from_start : st.came_from a = -1
  opened : st.open_set b = true → st.came_from b = (a : Int) ∧ st.f_score b < INFINITY_COST

/-- Shape of the Dijkstra table while and after the start room `a` is processed,
when every connection of `a` is `a` itself or `b`, at distance `d`. -/
structure TwoRoomDijkstra (a b : RoomID) (d : α) (st : PathfindingState α) : Prop where
  visited_iff : ∀ v, st.visited v = true ↔ v = a
  start_cost : st.cost a = 0
  others : ∀ v, v ≠ a → v ≠ b → st.cost v = INFINITY_COST
  goal_entry : (st.cost b = INFINITY_COST ∧ st.parent b = -1) ∨
    (st.cost b = 0 + d ∧ st.parent b = (a : Int))

end Spec

/-! ## Sample maps -/

section Samples

variable {α : Type} [LinearOrderedField α]

/-- A map whose rooms 0 and 1 lie `gap` apart on the x axis, joined east-west;
every other connection of every room is the self-loop. -/
def line_rooms (gap : α) : Nat → Room α := fun i =>
  if i = 0 then { connections := fun dir => if dir = 2 then 1 else 0, coordinates := ⟨0, 0⟩ }
  else if i = 1 then
    { connections := fun dir => if dir = 3 then 0 else 1, coordinates := ⟨gap, 0⟩ }
  else { connections := fun _ => i, coordinates := ⟨0, 0⟩ }

/-- A map without any passage: every connection is the self-loop. -/
def isolated_rooms : Nat → Room α := fun i =>
  { connections := fun _ => i, coordinates := ⟨0, 0⟩ }

end Samples


/-! ## Vehicle performance -/

/-- The numeric fields of `Vehicle`, the ones the performance functions read. -/
structure Vehicle (α : Type) where
  mass : α
  engine_power : α
  drag_coefficient : α
  frontal_area : α
  max_speed : α
  acceleration : α

section Physics

variable {α : Type} [LinearOrderedField α]

def GRAVITY : α := 9.81

def AIR_DENSITY : α := 1.225

/-- The library function `cbrt` is a parameter. -/
def calculate_terminal_velocity (cbrt : α → α) (v : Vehicle α) : α :=
  let power_watts := v.engine_power * 745.7
  let drag_factor := 0.5 * AIR_DENSITY * v.drag_coefficient * v.frontal_area
  cbrt (power_watts / drag_factor)

def calculate_acceleration_time (v : Vehicle α) (target_speed : α) : α :=
  let effective_accel := v.acceleration * (v.engine_power / 100.0) / (v.mass / 1000.0)
  target_speed / effective_accel

/-- The vehicle is an argument of the C function and is not read. -/
def calculate_braking_distance (_v : Vehicle α) (initial_speed : α) : α :=
  let braking_decel := 0.8 * GRAVITY
  (initial_speed * initial_speed) / (2.0 * braking_decel)

def calculate_drag_force (v : Vehicle α) (velocity : α) : α :=
  0.5 * AIR_DENSITY * v.drag_coefficient * v.frontal_area * velocity * velocity

/-- The `int` argument `turns` is converted to `double` where it is multiplied. -/
def calculate_lap_time (v : Vehicle α) (track_length : α) (turns : Int) : α :=
  let avg_turn_speed := v.max_speed * 0.6
  let straight_speed := v.max_speed * 0.9
  let turn_distance := (turns : α) * 50.0
  let straight_distance := track_length - turn_distance
  let turn_time := turn_distance / avg_turn_speed
  let straight_time := straight_distance / straight_speed
  let accel_penalty := (turns : α) * 1.5
  turn_time + straight_time + accel_penalty

/-- The first vehicle `init_garage` creates, "Lightning GT". -/
def lightning_gt : Vehicle α :=
  { mass := 1400.0
    engine_power := 450.0
    drag_coefficient := 0.28
    frontal_area := 2.2
    max_speed := 95.0
    acceleration := 12.0 }

/-- A vehicle record with a negative mass and a negative drag coefficient; the
performance functions take any record. -/
def unphysical_vehicle : Vehicle α :=
  { mass := -1000
    engine_power := 100
    drag_coefficient := -1
    frontal_area := 1
    max_speed := 1
    acceleration := 1 }

end Physics

/-! ## Ids outside the map -/

section Stray

variable {α : Type} [LinearOrderedField α]

/-- Shape of the A* arrays while and after the start room `a` is expanded, when
every connection of `a` is `a` itself, `b`, or an id that is not below
`ROOM_COUNT`. -/
structure StrayAStar (a b : RoomID) (st : AStarState α) : Prop where
  closed_iff : ∀ v, st.closed_set v = true ↔ v = a
  open_only : ∀ v, st.open_set v = true → v = b ∨ ROOM_COUNT ≤ v
  from_start : st.came_from a = -1
  opened : st.open_set b = true → st.came_from b = (a : Int) ∧ st.f_score b < INFINITY_COST

/-- The map `line_rooms 10` with the north connection of room 0 set to the id 15,
which is not below `ROOM_COUNT`. -/
def stray_rooms : Nat → Room α := fun i =>
  if i = 0 then
    { connections := fun dir => if dir = 0 then 15 else if dir = 2 then 1 else 0
      coordinates := ⟨0, 0⟩ }
  else if i = 1 then
    { connections := fun dir => if dir = 3 then 0 else 1, coordinates := ⟨10, 0⟩ }
  else { connections := fun _ => i, coordinates := ⟨0, 0⟩ }

end Stray

/-! ## The built-in map and the navigate command -/

def ROOM_GARAGE_ENTRANCE : RoomID := 0

def ROOM_MAIN_GARAGE : RoomID := 1

def ROOM_WORKSHOP : RoomID := 2

def ROOM_PARTS_STORAGE : RoomID := 3

def ROOM_PAINT_BOOTH : RoomID := 4

def ROOM_TESTING_TRACK : RoomID := 5

def ROOM_OFFICE : RoomID := 6

def ROOM_TOOL_ROOM : RoomID := 7

def ROOM_COMPUTER_LAB : RoomID := 8

def ROOM_SHOWROOM : RoomID := 9

/-- A `connections` array given by its entries for `DIR_NORTH`, `DIR_SOUTH`,
`DIR_EAST` and `DIR_WEST` (0 to 3). -/
def connections_of (north south east west : RoomID) : Nat → RoomID := fun dir =>
  if dir = 0 then north else if dir = 1 then south else if dir = 2 then east
  else if dir = 3 then west else 0

section Builtin

variable {α : Type} [LinearOrderedField α]

/-- The room table after `init_rooms`: rooms 0 to 9 in the order of `RoomID`.  The
entries from `ROOM_COUNT` on keep the zero bytes of `GameState game = {}`. -/
def init_rooms : Nat → Room α := fun i =>
  match i with
  | 0 => { connections := connections_of 1 0 6 0, coordinates := ⟨0, 0⟩ }
  | 1 => { connections := connections_of 2 0 3 7, coordinates := ⟨0, 10⟩ }
  | 2 => { connections := connections_of 2 1 4 2, coordinates := ⟨0, 20⟩ }
  | 3 => { connections := connections_of 8 3 3 1, coordinates := ⟨10, 10⟩ }
  | 4 => { connections := connections_of 5 4 9 2, coordinates := ⟨10, 20⟩ }
  | 5 => { connections := connections_of 5 4 5 5, coordinates := ⟨10, 30⟩ }
  | 6 => { connections := connections_of 6 6 6 0, coordinates := ⟨10, 0⟩ }
  | 7 => { connections := connections_of 7 7 1 7, coordinates := ⟨-10, 10⟩ }
  | 8 => { connections := connections_of 8 3 9 8, coordinates := ⟨10, 20⟩ }
  | 9 => { connections := connections_of 9 9 9 8, coordinates := ⟨20, 20⟩ }
  | _ => { connections := connections_of 0 0 0 0, coordinates := ⟨0, 0⟩ }

/-- The rooms `print_path` names, one per line: `path[0 .. path_length)`. -/
def print_path (path : List RoomID) (path_length : Int) : List RoomID :=
  (List.range path_length.toNat).map (fun i => path.getD i 0)

/-- What `cmd_navigate` reports once the destination name is resolved to `dest_id`. -/
inductive NavigateReport where
  | unknown_destination
  | already_there
  | no_path
  | found (steps : Int) (printed : List RoomID)
  deriving DecidableEq

/-- The body of `cmd_navigate` from the test `dest_id >= ROOM_COUNT` to the call of
`print_path`.  `path_length` is a local `int` passed to `astar_pathfinding` by
value; `none` stands for a search that ran out of fuel. -/
def cmd_navigate (fuel : Nat) (sqrt : α → α) (rooms : Nat → Room α)
    (current_room dest_id : RoomID) : Option NavigateReport :=
  if dest_id ≥ ROOM_COUNT then some NavigateReport.unknown_destination
  else if dest_id = current_room then some NavigateReport.already_there
  else
    let path_length : Int := 0
    match astar_pathfinding fuel sqrt rooms current_room dest_id with
    | none => none
    | some none => some NavigateReport.no_path
    | some (some path) =>
      some (NavigateReport.found (path_length - 1) (print_path path path_length))

/-- The states in which the A* loop stands at the head of a pass. -/
inductive AStarReached (sqrt : α → α) (rooms : Nat → Room α) (start end_ : RoomID) :
    AStarState α → Prop
  | init : AStarReached sqrt rooms start end_ (astar_init sqrt rooms start end_)
  | step {st : AStarState α} {u : Nat} : AStarReached sqrt rooms start end_ st →
      (astar_select st).2 = (u : Int) → u ≠ end_ →
      AStarReached sqrt rooms start end_ (astar_expand sqrt rooms end_ u st)

/-- The tables with which the main loop of Dijkstra stands at the head of a pass. -/
inductive DijkstraReached (sqrt : α → α) (rooms : Nat → Room α) (start end_ : RoomID) :
    PathfindingState α → Prop
  | init : DijkstraReached sqrt rooms start end_ (dijkstra_init start)
  | step {st : PathfindingState α} {u : Nat} : DijkstraReached sqrt rooms start end_ st →
      (dijkstra_select st).2 = (u : Int) → u ≠ end_ →
      DijkstraReached sqrt rooms start end_ (dijkstra_visit sqrt rooms u st)

/-- The predecessor entries of a Dijkstra table: an entry other than `-1` names a
visited room from which the room is entered by a passage, at the recorded cost. -/
def DijkstraParents (sqrt : α → α) (rooms : Nat → Room α) (st : PathfindingState α) : Prop :=
  ∀ n, st.parent n = -1 ∨
    ∃ p : Nat, st.parent n = (p : Int) ∧ p ≠ n ∧ st.visited p = true ∧ passage rooms p n ∧
      st.cost n = st.cost p + edge_length sqrt rooms p n

instance passage_decidable (rooms : Nat → Room α) (u v : RoomID) :
    Decidable (passage rooms u v) :=
  inferInstanceAs (Decidable (v ≠ u ∧ ∃ dir, dir < DIR_COUNT ∧ (rooms u).connections dir = v))

/-- A route of the built-in map from `s` to `g`, through the Main Garage. -/
def builtin_route (s g : RoomID) : List RoomID :=
  (match s with
    | 0 => [0] | 2 => [2] | 3 => [3] | 4 => [4, 2] | 5 => [5, 4, 2] | 6 => [6, 0]
    | 7 => [7] | 8 => [8, 3] | 9 => [9, 8, 3] | _ => []) ++
  (match g with
    | 0 => [1, 0] | 2 => [1, 2] | 3 => [1, 3] | 4 => [1, 2, 4] | 5 => [1, 2, 4, 5]
    | 6 => [1, 0, 6] | 7 => [1, 7] | 8 => [1, 3, 8] | 9 => [1, 2, 4, 9] | _ => [1])

end Builtin

/-! ## The search from the Garage Entrance to the Showroom -/

section Trace

variable {α : Type} [LinearOrderedField α]

/-- The arrays after `open_set[current] = false; closed_set[current] = true`. -/
def astar_close (current : Nat) (st : AStarState α) : AStarState α :=
  { st with
    open_set := Function.update st.open_set current false
    closed_set := Function.update st.closed_set current true }

/-- The arrays after the neighbour loop body has put a room that was not open
into the open set with score `g`. -/
def astar_open (sqrt : α → α) (rooms : Nat → Room α) (end_ : RoomID) (current neighbor : Nat)
    (g : α) (st : AStarState α) : AStarState α :=
  astar_record sqrt rooms end_ current neighbor g
    { st with open_set := Function.update st.open_set neighbor true }

/-- The arrays of the search from room 0 to room 9 of the built-in map after the
first pass: room 0 is closed, rooms 1 and 6 are open at distance 10. -/
def showroom_pass1 (sqrt : α → α) : AStarState α :=
  astar_open sqrt init_rooms 9 0 6 10
    (astar_open sqrt init_rooms 9 0 1 10 (astar_close 0 (astar_init sqrt init_rooms 0 9)))

/-- After the second pass: room 1 is closed, rooms 2, 3 and 7 are open at 20. -/
def showroom_pass2 (sqrt : α → α) : AStarState α :=
  astar_open sqrt init_rooms 9 1 7 20
    (astar_open sqrt init_rooms 9 1 3 20
      (astar_open sqrt init_rooms 9 1 2 20 (astar_close 1 (showroom_pass1 sqrt))))

/-- After the third pass: room 6 is closed. -/
def showroom_pass3 (sqrt : α → α) : AStarState α :=
  astar_close 6 (showroom_pass2 sqrt)

/-- After the fourth pass: room 3 is closed, room 8 is open at 30. -/
def showroom_pass4 (sqrt : α → α) : AStarState α :=
  astar_open sqrt init_rooms 9 3 8 30 (astar_close 3 (showroom_pass3 sqrt))

/-- After the fifth pass: room 2 is closed, room 4 is open at 30. -/
def showroom_pass5 (sqrt : α → α) : AStarState α :=
  astar_open sqrt init_rooms 9 2 4 30 (astar_close 2 (showroom_pass4 sqrt))

/-- After the sixth pass: room 4 is closed, rooms 5 and 9 are open at 40. -/
def showroom_pass6 (sqrt : α → α) : AStarState α :=
  astar_open sqrt init_rooms 9 4 9 40
    (astar_open sqrt init_rooms 9 4 5 40 (astar_close 4 (showroom_pass5 sqrt)))

/-- After the seventh pass: room 8 is closed. -/
def showroom_pass7 (sqrt : α → α) : AStarState α :=
  astar_close 8 (showroom_pass6 sqrt)

end Trace

/-! ## Binary64 arithmetic -/

/-- Number of binary digits of `n`, and 0 for 0.  The first argument bounds the
number of digits counted; `bit_length n n` counts them all. -/
def bit_length : Nat → Nat → Nat
  | 0, _ => 0
  | k + 1, n => if n = 0 then 0 else bit_length k (n / 2) + 1

/-- A finite `double` other than a subnormal: the number `m * 2 ^ e` with
`2 ^ 52 ≤ |m| < 2 ^ 53`, or zero, written `⟨0, 0⟩`.  The exponent is not bounded,
so the operations below are those of IEEE 754 binary64 as long as no result
leaves the range of the normal numbers; infinities and NaN are not modelled. -/
structure Binary64 where
  m : Int
  e : Int
  deriving DecidableEq

/-- The `double` nearest to `M * 2 ^ E`, ties to the even significand. -/
def round64 (M E : Int) : Binary64 :=
  let a := M.natAbs
  let n := bit_length a a
  if a = 0 then ⟨0, 0⟩
  else if n ≤ 53 then ⟨M * 2 ^ (53 - n), E - ((53 - n : Nat) : Int)⟩
  else
    let d := n - 53
    let q := a / 2 ^ d
    let r := a % 2 ^ d
    let h := 2 ^ (d - 1)
    let q1 := if h < r ∨ (r = h ∧ q % 2 = 1) then q + 1 else q
    let s : Int := if M < 0 then -1 else 1
    if q1 = 2 ^ 53 then ⟨s * 2 ^ 52, E + (d : Int) + 1⟩ else ⟨s * (q1 : Int), E + (d : Int)⟩

/-- The integer `a.m * 2 ^ (a.e - e)`, for an exponent `e ≤ a.e`. -/
def Binary64.scaled (a : Binary64) (e : Int) : Int :=
  a.m * 2 ^ (a.e - e).toNat

/-- Conversion of an `int` or of a decimal constant without fraction. -/
def Binary64.ofNat (n : Nat) : Binary64 :=
  round64 (n : Int) 0

/-- The C operator `+` on `double`. -/
def Binary64.add (a b : Binary64) : Binary64 :=
  round64 (a.scaled (min a.e b.e) + b.scaled (min a.e b.e)) (min a.e b.e)

/-- The C operator `-` on `double`. -/
def Binary64.sub (a b : Binary64) : Binary64 :=
  round64 (a.scaled (min a.e b.e) - b.scaled (min a.e b.e)) (min a.e b.e)

/-- The C operator `*` on `double`. -/
def Binary64.mul (a b : Binary64) : Binary64 :=
  round64 (a.m * b.m) (a.e + b.e)

/-- The loop of `isqrt`: binary digits of the root from position `k - 1` down. -/
def isqrt_loop (n : Nat) : Nat → Nat → Nat
  | 0, r => r
  | k + 1, r =>
    if (r + 2 ^ k) * (r + 2 ^ k) ≤ n then isqrt_loop n k (r + 2 ^ k) else isqrt_loop n k r

/-- The integer part of the square root of `n`. -/
def isqrt (n : Nat) : Nat :=
  isqrt_loop n (bit_length n n / 2 + 1) 0

/-- The library function `sqrt`, correctly rounded as IEEE 754 requires.  The
argument is scaled to an integer `n` of 110 or 111 binary digits with an even
exponent left over; twice the integer root of `n`, plus one when the root is not
exact, is then rounded.  A negative argument (NaN in C) is outside the model and
gives zero here. -/
def Binary64.sqrt (a : Binary64) : Binary64 :=
  if a.m ≤ 0 then ⟨0, 0⟩
  else
    let k : Nat := if a.e % 2 = 0 then 58 else 57
    let n := a.m.toNat * 2 ^ k
    let s := isqrt n
    round64 ((2 * s + (if s * s = n then 0 else 1) : Nat) : Int) ((a.e - (k : Int)) / 2 - 1)

instance : Add Binary64 := ⟨Binary64.add⟩

instance : Sub Binary64 := ⟨Binary64.sub⟩

instance : Mul Binary64 := ⟨Binary64.mul⟩

instance : Zero Binary64 := ⟨⟨0, 0⟩⟩

instance : One Binary64 := ⟨Binary64.ofNat 1⟩

instance (n : Nat) : OfNat Binary64 n := ⟨Binary64.ofNat n⟩

/-- The C operator `<` on `double`. -/
instance : LT Binary64 := ⟨fun a b => a.scaled (min a.e b.e) < b.scaled (min a.e b.e)⟩

/-- The C operator `<=` on `double`. -/
instance : LE Binary64 := ⟨fun a b => a.scaled (min a.e b.e) ≤ b.scaled (min a.e b.e)⟩

instance : DecidableRel (fun a b : Binary64 => a < b) :=
  fun a b => inferInstanceAs (Decidable (a.scaled (min a.e b.e) < b.scaled (min a.e b.e)))

instance : DecidableRel (fun a b : Binary64 => a ≤ b) :=
  fun a b => inferInstanceAs (Decidable (a.scaled (min a.e b.e) ≤ b.scaled (min a.e b.e)))

/-- Five rooms on the diagonal `y = x`: room 0 at 0, room 3 at 1, room 2 at 2,
room 1 at 4 and room 4 at 5.  Room 0 leads to rooms 3 and 2, both of which lead
to room 1, which leads to room 4; every other connection is the self-loop. -/
def diagonal_rooms : Nat → Room Binary64 := fun i =>
  match i with
  | 0 => { connections := connections_of 3 2 0 0, coordinates := ⟨0, 0⟩ }
  | 1 => { connections := connections_of 4 1 1 1, coordinates := ⟨4, 4⟩ }
  | 2 => { connections := connections_of 1 2 2 2, coordinates := ⟨2, 2⟩ }
  | 3 => { connections := connections_of 1 3 3 3, coordinates := ⟨1, 1⟩ }
  | 4 => { connections := connections_of 4 4 4 4, coordinates := ⟨5, 5⟩ }
  | _ => { connections := connections_of i i i i, coordinates := ⟨0, 0⟩ }

/-! ## Scanning for the least entry -/

section
variable {α : Type} [LinearOrderedField α]

theorem scan_fold_spec (P : Nat → Prop) [DecidablePred P] (key : Nat → α) :
    ∀ (l : List Nat) (m : α) (c : Int),
      ((l.foldl (fun (acc : α × Int) (i : Nat) =>
          if P i ∧ key i < acc.1 then (key i, (i : Int)) else acc) (m, c)).1 ≤ m) ∧
      (∀ i ∈ l, P i →
        (l.foldl (fun (acc : α × Int) (i : Nat) =>
          if P i ∧ key i < acc.1 then (key i, (i : Int)) else acc) (m, c)).1 ≤ key i) ∧
      ((l.foldl (fun (acc : α × Int) (i : Nat) =>
          if P i ∧ key i < acc.1 then (key i, (i : Int)) else acc) (m, c)) = (m, c) ∨
        ∃ i ∈ l, P i ∧ key i < m ∧
          (l.foldl (fun (acc : α × Int) (i : Nat) =>
            if P i ∧ key i < acc.1 then (key i, (i : Int)) else acc) (m, c)) = (key i, (i : Int))) := by
  intro l
  induction l with
  | nil => intro m c; simp
  | cons a t ih =>
    intro m c
    simp only [List.foldl_cons]
    by_cases h : P a ∧ key a < m
    · rw [if_pos h]
      obtain ⟨h1, h2, h3⟩ := ih (key a) (a : Int)
      refine ⟨le_trans h1 (le_of_lt h.2), ?_, ?_⟩
      · intro i hi hP
        rcases List.mem_cons.1 hi with rfl | hi
        · exact h1
        · exact h2 i hi hP
      · right
        rcases h3 with h3 | ⟨i, hi, hP, hlt, heq⟩
        · exact ⟨a, List.mem_cons_self _ _, h.1, h.2, h3⟩
        · exact ⟨i, List.mem_cons_of_mem _ hi, hP, lt_trans hlt h.2, heq⟩
    · rw [if_neg h]
      obtain ⟨h1, h2, h3⟩ := ih m c
      refine ⟨h1, ?_, ?_⟩
      · intro i hi hP
        rcases List.mem_cons.1 hi with rfl | hi
        · have : ¬ key i < m := fun hlt => h ⟨hP, hlt⟩
          exact le_trans h1 (not_lt.1 this)
        · exact h2 i hi hP
      · rcases h3 with h3 | ⟨i, hi, hP, hlt, heq⟩
        · exact Or.inl h3
        · exact Or.inr ⟨i, List.mem_cons_of_mem _ hi, hP, hlt, heq⟩

theorem astar_select_cases (st : AStarState α) :
    ((astar_select st).2 = -1 ∧ ∀ i, i < ROOM_COUNT → st.open_set i = true → INFINITY_COST ≤ st.f_score i) ∨
    ∃ u : Nat, (astar_select st).2 = (u : Int) ∧ u < ROOM_COUNT ∧ st.open_set u = true ∧
      st.f_score u < INFINITY_COST ∧
      ∀ i, i < ROOM_COUNT → st.open_set i = true → st.f_score u ≤ st.f_score i := by
  obtain ⟨h1, h2, h3⟩ := scan_fold_spec (fun i => st.open_set i = true) st.f_score
    (List.range ROOM_COUNT) INFINITY_COST (-1)
  rcases h3 with h3 | ⟨u, hu, hP, hlt, heq⟩
  · left
    refine ⟨by rw [astar_select, h3], ?_⟩
    intro i hi ho
    have := h2 i (List.mem_range.2 hi) ho
    rwa [h3] at this
  · right
    refine ⟨u, by rw [astar_select, heq], List.mem_range.1 hu, hP, hlt, ?_⟩
    intro i hi ho
    have := h2 i (List.mem_range.2 hi) ho
    rwa [heq] at this

theorem dijkstra_select_cases (st : PathfindingState α) :
    ((dijkstra_select st).2 = -1 ∧ ∀ i, i < ROOM_COUNT → st.visited i = false → INFINITY_COST ≤ st.cost i) ∨
    ∃ u : Nat, (dijkstra_select st).2 = (u : Int) ∧ u < ROOM_COUNT ∧ st.visited u = false ∧
      st.cost u < INFINITY_COST ∧
      ∀ i, i < ROOM_COUNT → st.visited i = false → st.cost u ≤ st.cost i := by
  obtain ⟨h1, h2, h3⟩ := scan_fold_spec (fun i => st.visited i = false) st.cost
    (List.range ROOM_COUNT) INFINITY_COST (-1)
  rcases h3 with h3 | ⟨u, hu, hP, hlt, heq⟩
  · left
    refine ⟨by rw [dijkstra_select, h3], ?_⟩
    intro i hi ho
    have := h2 i (List.mem_range.2 hi) ho
    rwa [h3] at this
  · right
    refine ⟨u, by rw [dijkstra_select, heq], List.mem_range.1 hu, hP, hlt, ?_⟩
    intro i hi ho
    have := h2 i (List.mem_range.2 hi) ho
    rwa [heq] at this
end

/-! ## Path reconstruction -/

theorem astar_walk_stop (cf : Nat → Int) (k : Nat) (path : Nat → RoomID) (len : Nat) :
    astar_walk cf k (-1) path len = (path, len) := by
  cases k <;> simp [astar_walk]

theorem astar_walk_chain (cf : Nat → Int) :
    ∀ (l : List RoomID) (v : RoomID) (k : Nat) (path : Nat → RoomID) (len : Nat),
      back_chain cf (v :: l) → l.length < k →
      (astar_walk cf k (v : Int) path len).2 = len + (l.length + 1) ∧
      ∀ i, (astar_walk cf k (v : Int) path len).1 i =
        if len ≤ i ∧ i < len + (l.length + 1) then (v :: l).getD (i - len) 0 else path i := by
  intro l
  induction l with
  | nil =>
    intro v k path len hc hk
    obtain ⟨k, rfl⟩ : ∃ j, k = j + 1 := ⟨k - 1, by omega⟩
    have hv : ((v : Int) = -1) = False := by
      simp only [eq_iff_iff, iff_false]; omega
    simp only [back_chain] at hc
    simp only [astar_walk, hv, if_false, Int.toNat_ofNat, hc, astar_walk_stop]
    refine ⟨by simp, ?_⟩
    intro i
    by_cases hi : i = len
    · subst hi; simp
    · have : ¬ (len ≤ i ∧ i < len + (([] : List RoomID).length + 1)) := by simp; omega
      rw [if_neg this, Function.update_noteq hi]
  | cons u rest ih =>
    intro v k path len hc hk
    obtain ⟨k, rfl⟩ : ∃ j, k = j + 1 := ⟨k - 1, by omega⟩
    have hv : ((v : Int) = -1) = False := by
      simp only [eq_iff_iff, iff_false]; omega
    simp only [back_chain] at hc
    simp only [astar_walk, hv, if_false, Int.toNat_ofNat, hc.1]
    obtain ⟨h1, h2⟩ := ih u k (Function.update path len v) (len + 1) hc.2
      (by simp at hk ⊢; omega)
    refine ⟨by rw [h1]; simp; omega, ?_⟩
    intro i
    rw [h2 i]
    by_cases hi : i = len
    · subst hi; simp
    · by_cases hlt : i < len
      · have a1 : ¬ (len + 1 ≤ i ∧ i < len + 1 + (rest.length + 1)) := by omega
        have a2 : ¬ (len ≤ i ∧ i < len + ((u :: rest).length + 1)) := by omega
        rw [if_neg a1, if_neg a2, Function.update_noteq hi]
      · have e : i - len = (i - (len + 1)) + 1 := by omega
        by_cases hup : i < len + 1 + (rest.length + 1)
        · have a1 : (len + 1 ≤ i ∧ i < len + 1 + (rest.length + 1)) := by omega
          have a2 : (len ≤ i ∧ i < len + ((u :: rest).length + 1)) := by simp; omega
          rw [if_pos a1, if_pos a2, e]
          simp
        · have a1 : ¬ (len + 1 ≤ i ∧ i < len + 1 + (rest.length + 1)) := by omega
          have a2 : ¬ (len ≤ i ∧ i < len + ((u :: rest).length + 1)) := by simp; omega
          rw [if_neg a1, if_neg a2, Function.update_noteq hi]

theorem reverse_fold_spec (len : Nat) (path : Nat → RoomID) :
    ∀ k, k ≤ len / 2 → ∀ i,
      ((List.range k).foldl
        (fun (p : Nat → RoomID) (i : Nat) =>
          let temp := p i
          Function.update (Function.update p i (p (len - 1 - i))) (len - 1 - i) temp)
        path) i =
      if i < k ∨ (len - k ≤ i ∧ i < len) then path (len - 1 - i) else path i := by
  intro k
  induction k with
  | zero =>
    intro _ i
    by_cases h : len ≤ i ∧ i < len
    · omega
    · simp [h]
  | succ k ih =>
    intro hk i
    rw [List.range_succ, List.foldl_append]
    simp only [List.foldl_cons, List.foldl_nil]
    have ihk := ih (by omega)
    by_cases h1 : i = len - 1 - k
    · rw [h1, Function.update_same, ihk k]
      have a1 : ¬ (k < k ∨ (len - k ≤ k ∧ k < len)) := by omega
      have a2 : (len - 1 - k < k + 1 ∨ (len - (k + 1) ≤ len - 1 - k ∧ len - 1 - k < len)) := by omega
      rw [if_neg a1, if_pos a2]
      congr 1; omega
    · rw [Function.update_noteq h1]
      by_cases h2 : i = k
      · rw [h2, Function.update_same, ihk (len - 1 - k)]
        have a1 : ¬ (len - 1 - k < k ∨ (len - k ≤ len - 1 - k ∧ len - 1 - k < len)) := by omega
        have a2 : (k < k + 1 ∨ (len - (k + 1) ≤ k ∧ k < len)) := by omega
        rw [if_neg a1, if_pos a2]
      · rw [Function.update_noteq h2, ihk i]
        by_cases h3 : i < k ∨ (len - k ≤ i ∧ i < len)
        · have a2 : (i < k + 1 ∨ (len - (k + 1) ≤ i ∧ i < len)) := by omega
          rw [if_pos h3, if_pos a2]
        · have a2 : ¬ (i < k + 1 ∨ (len - (k + 1) ≤ i ∧ i < len)) := by omega
          rw [if_neg h3, if_neg a2]

theorem astar_reverse_spec (path : Nat → RoomID) (len i : Nat) (hi : i < len) :
    astar_reverse path len i = path (len - 1 - i) := by
  have h := reverse_fold_spec len path (len / 2) (le_refl _) i
  rw [astar_reverse, h]
  by_cases h3 : i < len / 2 ∨ (len - len / 2 ≤ i ∧ i < len)
  · rw [if_pos h3]
  · rw [if_neg h3]
    congr 1; omega

theorem astar_reconstruct_chain (cf : Nat → Int) (v : RoomID) (l : List RoomID)
    (hc : back_chain cf (v :: l)) (hl : l.length < MAX_PATH_LENGTH) :
    astar_reconstruct cf v = (v :: l).reverse := by
  obtain ⟨h1, h2⟩ := astar_walk_chain cf l v MAX_PATH_LENGTH (fun _ => 0) 0 hc hl
  unfold astar_reconstruct
  simp only [h1]
  apply List.ext_getElem
  · simp
  · intro i hi1 hi2
    simp only [List.length_map, List.length_range] at hi1
    rw [List.getElem_map, List.getElem_range, astar_reverse_spec _ _ _ hi1, h2,
      List.getElem_reverse]
    have a : 0 ≤ 0 + (l.length + 1) - 1 - i ∧ 0 + (l.length + 1) - 1 - i < 0 + (l.length + 1) := by
      omega
    rw [if_pos a]
    simp only [Nat.sub_zero, List.length_cons, Nat.zero_add]
    rw [List.getD_eq_getElem _ _ (by simp; omega)]

/-! ## Routes -/

section
variable {α : Type} [LinearOrderedField α]

theorem back_chain_update (cf : Nat → Int) (x : Nat) (y : Int) :
    ∀ l : List RoomID, x ∉ l → back_chain cf l → back_chain (Function.update cf x y) l := by
  intro l
  induction l with
  | nil => intro _ h; exact h
  | cons a t ih =>
    intro hx hc
    have hxa : a ≠ x := fun h => hx (h ▸ List.mem_cons_self _ _)
    cases t with
    | nil =>
      simp only [back_chain] at hc ⊢
      rw [Function.update_noteq hxa]; exact hc
    | cons b r =>
      simp only [back_chain] at hc ⊢
      rw [Function.update_noteq hxa]
      exact ⟨hc.1, ih (fun h => hx (List.mem_cons_of_mem _ h)) hc.2⟩

theorem route_length_snoc (sqrt : α → α) (rooms : Nat → Room α) (x u : RoomID) :
    ∀ p : List RoomID, p.getLast? = some u →
      route_length sqrt rooms (p ++ [x]) = route_length sqrt rooms p + edge_length sqrt rooms u x := by
  intro p
  induction p with
  | nil => intro h; simp at h
  | cons a t ih =>
    intro h
    cases t with
    | nil =>
      simp only [List.getLast?_singleton, Option.some.injEq] at h
      subst h
      simp [route_length]
    | cons b r =>
      have h2 : (b :: r).getLast? = some u := by
        rw [List.getLast?_cons_cons] at h; exact h
      have := ih h2
      simp only [List.cons_append, route_length] at this ⊢
      rw [add_assoc, ← this]
      rfl

omit [LinearOrderedField α] in
theorem is_route_snoc (rooms : Nat → Room α) (s u x : RoomID) (p : List RoomID)
    (hp : is_route rooms s u p) (hux : passage rooms u x) : is_route rooms s x (p ++ [x]) := by
  obtain ⟨h1, h2, h3⟩ := hp
  refine ⟨?_, by simp, ?_⟩
  · cases p with
    | nil => simp at h1
    | cons a t => simpa using h1
  · refine List.Chain'.append h3 (List.chain'_singleton x) ?_
    intro a ha b hb
    simp only [List.head?_cons, Option.mem_def, Option.some.injEq] at hb
    rw [h2] at ha
    simp only [Option.mem_def, Option.some.injEq] at ha
    subst ha; subst hb
    exact hux

omit [LinearOrderedField α] in
theorem is_route_single (rooms : Nat → Room α) (s : RoomID) : is_route rooms s s [s] :=
  ⟨rfl, rfl, List.chain'_singleton s⟩

end

/-! ## A*: the predecessor chains -/

section
variable {α : Type} [LinearOrderedField α]

theorem astar_neighbor_cases (sqrt : α → α) (rooms : Nat → Room α) (e u : RoomID)
    (st : AStarState α) (dir : Nat) :
    (astar_neighbor sqrt rooms e u st dir = st ∧
      ((rooms u).connections dir = u ∨ st.closed_set ((rooms u).connections dir) = true ∨
        (st.open_set ((rooms u).connections dir) = true ∧
          st.g_score ((rooms u).connections dir) ≤
            st.g_score u + edge_length sqrt rooms u ((rooms u).connections dir)))) ∨
    ((rooms u).connections dir ≠ u ∧ st.closed_set ((rooms u).connections dir) = false ∧
      (st.open_set ((rooms u).connections dir) = true →
        st.g_score u + edge_length sqrt rooms u ((rooms u).connections dir) <
          st.g_score ((rooms u).connections dir)) ∧
      astar_neighbor sqrt rooms e u st dir =
        astar_record sqrt rooms e u ((rooms u).connections dir)
          (st.g_score u + edge_length sqrt rooms u ((rooms u).connections dir))
          { st with open_set := Function.update st.open_set ((rooms u).connections dir) true }) := by
  unfold astar_neighbor
  simp only []
  by_cases h1 : (rooms u).connections dir = u ∨ st.closed_set ((rooms u).connections dir) = true
  · rw [if_pos h1]
    left
    refine ⟨rfl, ?_⟩
    rcases h1 with h1 | h1
    · exact Or.inl h1
    · exact Or.inr (Or.inl h1)
  · rw [if_neg h1]
    have hxu : (rooms u).connections dir ≠ u := fun h => h1 (Or.inl h)
    have hxc : st.closed_set ((rooms u).connections dir) = false := by
      cases hc : st.closed_set ((rooms u).connections dir)
      · rfl
      · exact absurd (Or.inr hc) h1
    by_cases h2 : st.open_set ((rooms u).connections dir) = false
    · rw [if_pos h2]
      right
      refine ⟨hxu, hxc, ?_, rfl⟩
      intro ho; rw [h2] at ho; cases ho
    · rw [if_neg h2]
      have ho : st.open_set ((rooms u).connections dir) = true := by
        cases hc : st.open_set ((rooms u).connections dir)
        · exact absurd hc h2
        · rfl
      by_cases h3 : st.g_score u + heuristic_distance sqrt (rooms u).coordinates
          (rooms ((rooms u).connections dir)).coordinates ≥ st.g_score ((rooms u).connections dir)
      · rw [if_pos h3]
        left
        exact ⟨rfl, Or.inr (Or.inr ⟨ho, h3⟩)⟩
      · rw [if_neg h3]
        right
        refine ⟨hxu, hxc, fun _ => not_le.1 h3, ?_⟩
        have : Function.update st.open_set ((rooms u).connections dir) true = st.open_set := by
          rw [← ho]; exact Function.update_eq_self _ _
        rw [this]
        rfl

theorem AStarChains_init (sqrt : α → α) (rooms : Nat → Room α) (s e : RoomID) :
    AStarChains sqrt rooms s (astar_init sqrt rooms s e) := by
  refine ⟨?_, ?_, ?_⟩
  · intro v hv; simp [astar_init] at hv
  · intro v hv; simp [astar_init] at hv
  · intro v hv
    have hvs : v = s := by
      rcases hv with hv | hv
      · by_contra hne
        simp [astar_init, Function.update_noteq hne] at hv
      · simp [astar_init] at hv
    subst hvs
    refine ⟨[], ?_, ?_, ?_, ?_, ?_⟩
    · simp [back_chain, astar_init]
    · intro x hx; cases hx
    · simp
    · exact is_route_single rooms v
    · simp [route_length, astar_init]

theorem AStarChains_close (sqrt : α → α) (rooms : Nat → Room α) (s u : RoomID)
    (st : AStarState α) (h : AStarChains sqrt rooms s st) (ho : st.open_set u = true)
    (hu : u < ROOM_COUNT) :
    AStarChains sqrt rooms s
      { st with
        open_set := Function.update st.open_set u false
        closed_set := Function.update st.closed_set u true } := by
  have mono : ∀ x, st.closed_set x = true → Function.update st.closed_set u true x = true := by
    intro x hx
    by_cases hxu : x = u
    · rw [hxu, Function.update_same]
    · rw [Function.update_noteq hxu]; exact hx
  refine ⟨?_, ?_, ?_⟩
  · intro v hv
    simp only at hv ⊢
    by_cases hvu : v = u
    · rw [hvu, Function.update_same]
    · rw [Function.update_noteq hvu] at hv ⊢
      exact h.excl v hv
  · intro v hv
    simp only at hv
    by_cases hvu : v = u
    · rw [hvu]; exact hu
    · rw [Function.update_noteq hvu] at hv
      exact h.closed_lt v hv
  · intro v hv
    simp only at hv ⊢
    have hv0 : st.open_set v = true ∨ st.closed_set v = true := by
      by_cases hvu : v = u
      · rw [hvu]; exact Or.inl ho
      · rw [Function.update_noteq hvu, Function.update_noteq hvu] at hv
        exact hv
    obtain ⟨l, h1, h2, h3, h4, h5⟩ := h.chain v hv0
    exact ⟨l, h1, fun x hx => mono x (h2 x hx), h3, h4, h5⟩

theorem AStarChains_record (sqrt : α → α) (rooms : Nat → Room α) (s e u x : RoomID)
    (st : AStarState α) (h : AStarChains sqrt rooms s st) (hu : st.closed_set u = true)
    (hxu : x ≠ u) (hxc : st.closed_set x = false) (hp : passage rooms u x) :
    AStarChains sqrt rooms s
      (astar_record sqrt rooms e u x (st.g_score u + edge_length sqrt rooms u x)
        { st with open_set := Function.update st.open_set x true }) := by
  have notin : ∀ l : List RoomID, (∀ y ∈ l, st.closed_set y = true) → x ∉ l := by
    intro l hl hx
    have := hl x hx
    rw [hxc] at this; cases this
  refine ⟨?_, ?_, ?_⟩
  · intro v hv
    simp only [astar_record] at hv ⊢
    have hvx : v ≠ x := by
      intro hvx; rw [hvx, hxc] at hv; cases hv
    rw [Function.update_noteq hvx]
    exact h.excl v hv
  · intro v hv
    exact h.closed_lt v hv
  · intro v hv
    simp only [astar_record] at hv ⊢
    by_cases hvx : v = x
    · subst hvx
      obtain ⟨l, h1, h2, h3, h4, h5⟩ := h.chain u (Or.inr hu)
      have hcl : ∀ y ∈ u :: l, st.closed_set y = true := by
        intro y hy
        rcases List.mem_cons.1 hy with rfl | hy
        · exact hu
        · exact h2 y hy
      refine ⟨u :: l, ?_, hcl, ?_, ?_, ?_⟩
      · simp only [back_chain, Function.update_same, true_and]
        exact back_chain_update _ _ _ _ (notin _ hcl) h1
      · exact List.nodup_cons.2 ⟨notin _ hcl, h3⟩
      · rw [List.reverse_cons]
        exact is_route_snoc rooms s u v _ h4 hp
      · rw [List.reverse_cons, route_length_snoc sqrt rooms v u _ h4.2.1, h5,
          Function.update_same]
    · rw [Function.update_noteq hvx] at hv
      obtain ⟨l, h1, h2, h3, h4, h5⟩ := h.chain v hv
      refine ⟨l, ?_, h2, h3, h4, ?_⟩
      · refine back_chain_update _ _ _ _ ?_ h1
        intro hx
        rcases List.mem_cons.1 hx with hx | hx
        · exact hvx hx.symm
        · exact notin _ h2 hx
      · rw [Function.update_noteq hvx]; exact h5

theorem AStarChains_neighbor (sqrt : α → α) (rooms : Nat → Room α) (s e u : RoomID)
    (st : AStarState α) (dir : Nat) (hdir : dir < DIR_COUNT)
    (h : AStarChains sqrt rooms s st) (hu : st.closed_set u = true) :
    AStarChains sqrt rooms s (astar_neighbor sqrt rooms e u st dir) ∧
      (astar_neighbor sqrt rooms e u st dir).closed_set = st.closed_set := by
  rcases astar_neighbor_cases sqrt rooms e u st dir with ⟨h1, _⟩ | ⟨h1, h2, _, h4⟩
  · rw [h1]; exact ⟨h, rfl⟩
  · rw [h4]
    exact ⟨AStarChains_record sqrt rooms s e u _ st h hu h1 h2 ⟨h1, dir, hdir, rfl⟩, rfl⟩

theorem AStarChains_fold (sqrt : α → α) (rooms : Nat → Room α) (s e u : RoomID) :
    ∀ (dirs : List Nat) (st : AStarState α), (∀ d ∈ dirs, d < DIR_COUNT) →
      AStarChains sqrt rooms s st → st.closed_set u = true →
      AStarChains sqrt rooms s (dirs.foldl (astar_neighbor sqrt rooms e u) st) ∧
        (dirs.foldl (astar_neighbor sqrt rooms e u) st).closed_set = st.closed_set := by
  intro dirs
  induction dirs with
  | nil => intro st _ h _; exact ⟨h, rfl⟩
  | cons d t ih =>
    intro st hd h hu
    obtain ⟨h1, h2⟩ := AStarChains_neighbor sqrt rooms s e u st d
      (hd d (List.mem_cons_self _ _)) h hu
    obtain ⟨h3, h4⟩ := ih (astar_neighbor sqrt rooms e u st d)
      (fun d' hd' => hd d' (List.mem_cons_of_mem _ hd')) h1 (by rw [h2]; exact hu)
    exact ⟨h3, by rw [List.foldl_cons, h4, h2]⟩

theorem AStarChains_expand (sqrt : α → α) (rooms : Nat → Room α) (s e u : RoomID)
    (st : AStarState α) (h : AStarChains sqrt rooms s st) (ho : st.open_set u = true)
    (hu : u < ROOM_COUNT) :
    AStarChains sqrt rooms s (astar_expand sqrt rooms e u st) ∧
      (astar_expand sqrt rooms e u st).closed_set = Function.update st.closed_set u true := by
  obtain ⟨h1, h2⟩ := AStarChains_fold sqrt rooms s e u (List.range DIR_COUNT)
    { st with
      open_set := Function.update st.open_set u false
      closed_set := Function.update st.closed_set u true }
    (fun d hd => List.mem_range.1 hd) (AStarChains_close sqrt rooms s u st h ho hu)
    (by simp)
  exact ⟨h1, h2⟩

end

/-! ## A*: the main loop -/

section
variable {α : Type} [LinearOrderedField α]

omit [LinearOrderedField α] in
theorem astar_unclosed_expand (st st2 : AStarState α) (u : RoomID) (hu : u < ROOM_COUNT)
    (huc : st.closed_set u = false)
    (h2 : st2.closed_set = Function.update st.closed_set u true) :
    astar_unclosed st2 < astar_unclosed st := by
  unfold astar_unclosed
  apply Finset.card_lt_card
  rw [Finset.ssubset_iff_of_subset]
  · refine ⟨u, ?_, ?_⟩
    · simp [hu, huc]
    · simp [h2]
  · intro i hi
    simp only [Finset.mem_filter, Finset.mem_range] at hi ⊢
    refine ⟨hi.1, ?_⟩
    have := hi.2
    rw [h2] at this
    by_cases hiu : i = u
    · rw [hiu, Function.update_same] at this; cases this
    · rwa [Function.update_noteq hiu] at this

/-- Induction along the main loop of A*: an invariant kept by every expansion
holds in the state in which the loop returns. -/
theorem astar_loop_spec (sqrt : α → α) (rooms : Nat → Room α) (e : RoomID)
    (Inv : AStarState α → Prop)
    (hstep : ∀ st (u : Nat), Inv st → (astar_select st).2 = (u : Int) → u ≠ e →
      Inv (astar_expand sqrt rooms e u st)) :
    ∀ (fuel : Nat) (st : AStarState α), Inv st →
      astar_loop sqrt rooms e fuel st = none ∨
      ∃ st2, Inv st2 ∧
        (((astar_select st2).2 = -1 ∧ astar_loop sqrt rooms e fuel st = some none) ∨
         ((astar_select st2).2 = (e : Int) ∧
           astar_loop sqrt rooms e fuel st = some (some (astar_reconstruct st2.came_from e)))) := by
  intro fuel
  induction fuel with
  | zero => intro st _; left; rfl
  | succ n ih =>
    intro st hI
    rcases astar_select_cases st with ⟨h1, _⟩ | ⟨u, h1, _⟩
    · right
      refine ⟨st, hI, Or.inl ⟨h1, ?_⟩⟩
      simp [astar_loop, h1]
    · have hne : ¬ ((u : Int) = -1) := by omega
      by_cases hue : u = e
      · right
        refine ⟨st, hI, Or.inr ⟨by rw [h1, hue], ?_⟩⟩
        simp only [astar_loop, h1, hue, if_neg (by omega : ¬ ((e : Int) = -1)), if_true]
      · have hne2 : ¬ ((u : Int) = (e : Int)) := by omega
        have hrec : astar_loop sqrt rooms e (n + 1) st =
            astar_loop sqrt rooms e n (astar_expand sqrt rooms e u st) := by
          simp only [astar_loop, h1, if_neg hne, if_neg hne2, Int.toNat_ofNat]
        rw [hrec]
        exact ih _ (hstep st u hI h1 hue)

theorem astar_loop_fuel (sqrt : α → α) (rooms : Nat → Room α) (s e : RoomID) :
    ∀ (fuel : Nat) (st : AStarState α), AStarChains sqrt rooms s st →
      astar_unclosed st < fuel → astar_loop sqrt rooms e fuel st ≠ none := by
  intro fuel
  induction fuel with
  | zero => intro st _ h; omega
  | succ n ih =>
    intro st hI hlt
    rcases astar_select_cases st with ⟨h1, _⟩ | ⟨u, h1, hu, ho, _⟩
    · simp [astar_loop, h1]
    · have hne : ¬ ((u : Int) = -1) := by omega
      by_cases hue : u = e
      · simp only [astar_loop, h1, hue, if_neg (by omega : ¬ ((e : Int) = -1)), if_true]
        simp
      · have hne2 : ¬ ((u : Int) = (e : Int)) := by omega
        have hrec : astar_loop sqrt rooms e (n + 1) st =
            astar_loop sqrt rooms e n (astar_expand sqrt rooms e u st) := by
          simp only [astar_loop, h1, if_neg hne, if_neg hne2, Int.toNat_ofNat]
        rw [hrec]
        obtain ⟨h3, h4⟩ := AStarChains_expand sqrt rooms s e u st hI ho hu
        have huc : st.closed_set u = false := by
          cases hc : st.closed_set u
          · rfl
          · have := hI.excl u hc
            rw [ho] at this; cases this
        have := astar_unclosed_expand st _ u hu huc h4
        exact ih _ h3 (by omega)

omit [LinearOrderedField α] in
theorem astar_unclosed_le (st : AStarState α) : astar_unclosed st ≤ ROOM_COUNT := by
  unfold astar_unclosed
  calc _ ≤ (Finset.range ROOM_COUNT).card := Finset.card_filter_le _ _
    _ = ROOM_COUNT := Finset.card_range _

theorem nodup_length_le (n : Nat) (l : List Nat) (hn : l.Nodup) (hl : ∀ x ∈ l, x < n) :
    l.length ≤ n := by
  have h1 : l.toFinset ⊆ Finset.range n := by
    intro x hx
    exact Finset.mem_range.2 (hl x (List.mem_toFinset.1 hx))
  have h2 := Finset.card_le_card h1
  rw [List.toFinset_card_of_nodup hn, Finset.card_range] at h2
  exact h2

/-- What a `true` answer of A* carries, from the structural invariant alone. -/
theorem astar_found_route (sqrt : α → α) (rooms : Nat → Room α) (s e : RoomID) (fuel : Nat)
    (p : List RoomID) (h : astar_pathfinding fuel sqrt rooms s e = some (some p)) :
    is_route rooms s e p ∧ p.Nodup ∧ (∀ x ∈ p, x < ROOM_COUNT) := by
  rcases astar_loop_spec sqrt rooms e (AStarChains sqrt rooms s)
      (fun st u hI hsel _ => by
        rcases astar_select_cases st with ⟨h1, _⟩ | ⟨w, h1, hw, ho, _⟩
        · rw [h1] at hsel; omega
        · have : w = u := by rw [h1] at hsel; omega
          subst this
          exact (AStarChains_expand sqrt rooms s e w st hI ho hw).1)
      fuel (astar_init sqrt rooms s e) (AStarChains_init sqrt rooms s e) with h0 | ⟨st2, hI, h0⟩
  · rw [astar_pathfinding, h0] at h; cases h
  · rcases h0 with ⟨_, h0⟩ | ⟨hsel, h0⟩
    · rw [astar_pathfinding, h0] at h; cases h
    · rw [astar_pathfinding, h0] at h
      simp only [Option.some.injEq] at h
      rcases astar_select_cases st2 with ⟨h1, _⟩ | ⟨w, h1, hw, ho, _⟩
      · rw [h1] at hsel; omega
      · have : w = e := by rw [h1] at hsel; omega
        subst this
        obtain ⟨l, c1, c2, c3, c4, _⟩ := hI.chain w (Or.inl ho)
        have hlt : ∀ x ∈ w :: l, x < ROOM_COUNT := by
          intro x hx
          rcases List.mem_cons.1 hx with rfl | hx
          · exact hw
          · exact hI.closed_lt x (c2 x hx)
        have hlen := nodup_length_le ROOM_COUNT (w :: l) c3 hlt
        have hl : l.length < MAX_PATH_LENGTH := by
          simp only [List.length_cons, ROOM_COUNT] at hlen
          simp only [MAX_PATH_LENGTH]; omega
        rw [astar_reconstruct_chain _ w l c1 hl] at h
        subst h
        refine ⟨c4, List.nodup_reverse.2 c3, ?_⟩
        intro x hx
        exact hlt x (List.mem_reverse.1 hx)

end

/-! ## A*: scores of closed rooms are least -/

section
variable {α : Type} [LinearOrderedField α]

theorem attainable_extend (sqrt : α → α) (rooms : Nat → Room α) (s v : RoomID) :
    ∀ (p : List RoomID) (u : RoomID) (c0 : α), Attainable sqrt rooms s u c0 →
      is_route rooms u v p → Attainable sqrt rooms s v (c0 + route_length sqrt rooms p) := by
  intro p
  induction p with
  | nil => intro u c0 _ h; simp [is_route] at h
  | cons a t ih =>
    intro u c0 hu h
    obtain ⟨h1, h2, h3⟩ := h
    simp only [List.head?_cons, Option.some.injEq] at h1
    subst h1
    cases t with
    | nil =>
      simp only [List.getLast?_singleton, Option.some.injEq] at h2
      subst h2
      simpa [route_length] using hu
    | cons b r =>
      rw [List.getLast?_cons_cons] at h2
      rw [List.chain'_cons] at h3
      have := ih b (c0 + edge_length sqrt rooms a b) (Attainable.step hu h3.1) ⟨rfl, h2, h3.2⟩
      simpa [route_length, add_assoc] using this

theorem attainable_of_route (sqrt : α → α) (rooms : Nat → Room α) (s v : RoomID)
    (p : List RoomID) (h : is_route rooms s v p) :
    Attainable sqrt rooms s v (route_length sqrt rooms p) := by
  have := attainable_extend sqrt rooms s v p s 0 Attainable.start h
  simpa using this

theorem route_of_attainable (sqrt : α → α) (rooms : Nat → Room α) (s v : RoomID) (c : α)
    (h : Attainable sqrt rooms s v c) :
    ∃ p, is_route rooms s v p ∧ route_length sqrt rooms p = c := by
  induction h with
  | start => exact ⟨[s], is_route_single rooms s, rfl⟩
  | step hu hp ih =>
    obtain ⟨p, h1, h2⟩ := ih
    exact ⟨p ++ [_], is_route_snoc rooms s _ _ p h1 hp,
      by rw [route_length_snoc sqrt rooms _ _ p h1.2.1, h2]⟩

theorem attainable_lt (sqrt : α → α) (rooms : Nat → Room α) (s : RoomID)
    (hv : valid_connections rooms) (hs : s < ROOM_COUNT) (x : RoomID) (c : α)
    (h : Attainable sqrt rooms s x c) : x < ROOM_COUNT := by
  induction h with
  | start => exact hs
  | step _ hp ih =>
    obtain ⟨_, dir, hdir, hx⟩ := hp
    rw [← hx]
    exact hv _ ih dir hdir

theorem astar_chain_start (sqrt : α → α) (rooms : Nat → Room α) (s : RoomID)
    (st : AStarState α) (h : AStarChains sqrt rooms s st)
    (hs : st.open_set s = true ∨ st.closed_set s = true) : st.g_score s = 0 := by
  obtain ⟨l, _, _, h3, h4, h5⟩ := h.chain s hs
  cases l with
  | nil => rw [← h5]; rfl
  | cons a t =>
    exfalso
    have hh := h4.1
    rw [List.head?_reverse] at hh
    have hmem : s ∈ a :: t := by
      have h6 : (s :: a :: t).getLast? = (a :: t).getLast? := List.getLast?_cons_cons
      rw [h6] at hh
      exact List.mem_of_getLast?_eq_some hh
    exact (List.nodup_cons.1 h3).1 hmem

theorem astar_attained (sqrt : α → α) (rooms : Nat → Room α) (s v : RoomID)
    (st : AStarState α) (h : AStarChains sqrt rooms s st)
    (hv : st.open_set v = true ∨ st.closed_set v = true) :
    Attainable sqrt rooms s v (st.g_score v) := by
  obtain ⟨l, _, _, _, h4, h5⟩ := h.chain v hv
  rw [← h5]
  exact attainable_of_route sqrt rooms s v _ h4

theorem AStarOpt_init (sqrt : α → α) (rooms : Nat → Room α) (s e : RoomID)
    (hs : s < ROOM_COUNT) : AStarOpt sqrt rooms s e (astar_init sqrt rooms s e) := by
  have only : ∀ v, (astar_init sqrt rooms s e).open_set v = true ∨
      (astar_init sqrt rooms s e).closed_set v = true → v = s := by
    intro v hv
    rcases hv with hv | hv
    · by_contra hne
      simp [astar_init, Function.update_noteq hne] at hv
    · simp [astar_init] at hv
  refine ⟨AStarChains_init sqrt rooms s e, rfl, Or.inl (by simp [astar_init]), ?_, ?_, ?_, ?_⟩
  · intro v hv
    rw [only v (Or.inl hv)]; exact hs
  · intro v hv
    rw [only v hv]
    simp [astar_init]
  · intro v hv; simp [astar_init] at hv
  · intro y x hy; simp [astar_init] at hy

theorem astar_frontier (sqrt : α → α) (rooms : Nat → Room α) (s e : RoomID)
    (hm : MetricLike sqrt) (st : AStarState α) (hI : AStarOpt sqrt rooms s e st)
    (x : RoomID) (c : α) (hx : Attainable sqrt rooms s x c) :
    (st.closed_set x = true ∧ st.g_score x ≤ c) ∨
    ∃ v, st.open_set v = true ∧
      st.f_score v ≤ c + heuristic_distance sqrt (rooms x).coordinates (rooms e).coordinates := by
  induction hx with
  | start =>
    have hg := astar_chain_start sqrt rooms s st hI.chains hI.start_seen
    by_cases hc : st.closed_set s = true
    · exact Or.inl ⟨hc, le_of_eq hg⟩
    · rcases hI.start_seen with ho | hc2
      · right
        refine ⟨s, ho, ?_⟩
        rw [hI.f_eq s (Or.inl ho), hg]
      · exact absurd hc2 hc
  | @step u v c _ hp ih =>
    rcases ih with ⟨hc, hg⟩ | ⟨w, hw, hf⟩
    · obtain ⟨hov, hgv⟩ := hI.relaxed u v hc hp
      have hle : st.g_score v ≤ c + edge_length sqrt rooms u v := by linarith
      by_cases hcv : st.closed_set v = true
      · exact Or.inl ⟨hcv, hle⟩
      · right
        have hov2 : st.open_set v = true := by
          rcases hov with h | h
          · exact h
          · exact absurd h hcv
        refine ⟨v, hov2, ?_⟩
        rw [hI.f_eq v (Or.inl hov2)]
        linarith
    · right
      refine ⟨w, hw, ?_⟩
      have := hm.triangle (rooms u).coordinates (rooms v).coordinates (rooms e).coordinates
      unfold edge_length
      linarith

theorem astar_selected_best (sqrt : α → α) (rooms : Nat → Room α) (s e : RoomID)
    (hm : MetricLike sqrt) (st : AStarState α) (hI : AStarOpt sqrt rooms s e st) (u : RoomID)
    (ho : st.open_set u = true)
    (hmin : ∀ i, i < ROOM_COUNT → st.open_set i = true → st.f_score u ≤ st.f_score i)
    (c : α) (hc : Attainable sqrt rooms s u c) : st.g_score u ≤ c := by
  rcases astar_frontier sqrt rooms s e hm st hI u c hc with ⟨_, h⟩ | ⟨v, hv, hf⟩
  · exact h
  · have h1 := hmin v (hI.open_lt v hv) hv
    have h2 := hI.f_eq u (Or.inl ho)
    linarith

theorem AStarMid_close (sqrt : α → α) (rooms : Nat → Room α) (s e u : RoomID)
    (hm : MetricLike sqrt) (st : AStarState α) (hI : AStarOpt sqrt rooms s e st)
    (hu : u < ROOM_COUNT) (hue : u ≠ e) (ho : st.open_set u = true)
    (hmin : ∀ i, i < ROOM_COUNT → st.open_set i = true → st.f_score u ≤ st.f_score i) :
    AStarMid sqrt rooms s e u
      { st with
        open_set := Function.update st.open_set u false
        closed_set := Function.update st.closed_set u true } := by
  have before : ∀ v, Function.update st.open_set u false v = true ∨
      Function.update st.closed_set u true v = true →
      st.open_set v = true ∨ st.closed_set v = true := by
    intro v hv
    by_cases hvu : v = u
    · rw [hvu]; exact Or.inl ho
    · rwa [Function.update_noteq hvu, Function.update_noteq hvu] at hv
  have after : ∀ v, st.open_set v = true ∨ st.closed_set v = true →
      Function.update st.open_set u false v = true ∨
      Function.update st.closed_set u true v = true := by
    intro v hv
    by_cases hvu : v = u
    · rw [hvu]; right; exact Function.update_same _ _ _
    · rwa [Function.update_noteq hvu, Function.update_noteq hvu]
  refine ⟨AStarChains_close sqrt rooms s u st hI.chains ho hu, ?_, ?_, ?_, ?_, ?_, ?_, ?_⟩
  · exact Function.update_same _ _ _
  · show Function.update st.closed_set u true e = false
    rw [Function.update_noteq (Ne.symm hue)]; exact hI.goal_open
  · exact after s hI.start_seen
  · intro v hv
    simp only at hv
    by_cases hvu : v = u
    · rw [hvu]; exact hu
    · rw [Function.update_noteq hvu] at hv
      exact hI.open_lt v hv
  · intro v hv
    exact hI.f_eq v (before v hv)
  · intro v hv c hc
    simp only at hv ⊢
    by_cases hvu : v = u
    · rw [hvu] at hc ⊢
      exact astar_selected_best sqrt rooms s e hm st hI u ho hmin c hc
    · rw [Function.update_noteq hvu] at hv
      exact hI.best v hv c hc
  · intro y x hy hyu hp
    simp only at hy ⊢
    rw [Function.update_noteq hyu] at hy
    obtain ⟨h1, h2⟩ := hI.relaxed y x hy hp
    exact ⟨after x h1, h2⟩

end

/-! ## A*: expanding a room -/

section
variable {α : Type} [LinearOrderedField α]

theorem AStarMid_record (sqrt : α → α) (rooms : Nat → Room α) (s e u x : RoomID)
    (st : AStarState α) (h : AStarMid sqrt rooms s e u st)
    (hxu : x ≠ u) (hxc : st.closed_set x = false) (hp : passage rooms u x)
    (hx : x < ROOM_COUNT)
    (himp : st.open_set x = true →
      st.g_score u + edge_length sqrt rooms u x < st.g_score x) :
    AStarMid sqrt rooms s e u
      (astar_record sqrt rooms e u x (st.g_score u + edge_length sqrt rooms u x)
        { st with open_set := Function.update st.open_set x true }) := by
  have after : ∀ v, st.open_set v = true ∨ st.closed_set v = true →
      Function.update st.open_set x true v = true ∨ st.closed_set v = true := by
    intro v hv
    by_cases hvx : v = x
    · rw [hvx]; left; exact Function.update_same _ _ _
    · rwa [Function.update_noteq hvx]
  have closed_ne : ∀ v, st.closed_set v = true → v ≠ x := by
    intro v hv hvx
    rw [hvx, hxc] at hv; cases hv
  refine ⟨AStarChains_record sqrt rooms s e u x st h.chains h.cur_closed hxu hxc hp,
    h.cur_closed, h.goal_open, after s h.start_seen, ?_, ?_, ?_, ?_⟩
  · intro v hv
    simp only [astar_record] at hv
    by_cases hvx : v = x
    · rw [hvx]; exact hx
    · rw [Function.update_noteq hvx] at hv
      exact h.open_lt v hv
  · intro v hv
    simp only [astar_record] at hv ⊢
    by_cases hvx : v = x
    · rw [hvx, Function.update_same, Function.update_same]
      simp [HEURISTIC_WEIGHT]
    · rw [Function.update_noteq hvx] at hv
      rw [Function.update_noteq hvx, Function.update_noteq hvx]
      exact h.f_eq v hv
  · intro v hv c hc
    simp only [astar_record] at hv ⊢
    rw [Function.update_noteq (closed_ne v hv)]
    exact h.best v hv c hc
  · intro y z hy hyu hpz
    simp only [astar_record] at hy ⊢
    obtain ⟨h1, h2⟩ := h.relaxed y z hy hyu hpz
    refine ⟨after z h1, ?_⟩
    rw [Function.update_noteq (closed_ne y hy)]
    by_cases hzx : z = x
    · rw [hzx, Function.update_same]
      rw [hzx] at h1 h2
      have ho : st.open_set x = true := by
        rcases h1 with h1 | h1
        · exact h1
        · rw [hxc] at h1; cases h1
      have := himp ho
      linarith
    · rw [Function.update_noteq hzx]; exact h2

theorem astar_neighbor_mid (sqrt : α → α) (rooms : Nat → Room α) (s e u : RoomID)
    (st : AStarState α) (dir : Nat) (hdir : dir < DIR_COUNT)
    (hx : (rooms u).connections dir < ROOM_COUNT) (h : AStarMid sqrt rooms s e u st) :
    AStarMid sqrt rooms s e u (astar_neighbor sqrt rooms e u st dir) ∧
    ((rooms u).connections dir ≠ u →
      (((astar_neighbor sqrt rooms e u st dir).open_set ((rooms u).connections dir) = true ∨
        (astar_neighbor sqrt rooms e u st dir).closed_set ((rooms u).connections dir) = true) ∧
      (astar_neighbor sqrt rooms e u st dir).g_score ((rooms u).connections dir) ≤
        (astar_neighbor sqrt rooms e u st dir).g_score u +
          edge_length sqrt rooms u ((rooms u).connections dir))) ∧
    (∀ z, ((st.open_set z = true ∨ st.closed_set z = true) ∧
        st.g_score z ≤ st.g_score u + edge_length sqrt rooms u z) →
      (((astar_neighbor sqrt rooms e u st dir).open_set z = true ∨
        (astar_neighbor sqrt rooms e u st dir).closed_set z = true) ∧
      (astar_neighbor sqrt rooms e u st dir).g_score z ≤
        (astar_neighbor sqrt rooms e u st dir).g_score u + edge_length sqrt rooms u z)) := by
  rcases astar_neighbor_cases sqrt rooms e u st dir with ⟨h1, h2⟩ | ⟨h1, h2, h3, h4⟩
  · rw [h1]
    refine ⟨h, ?_, fun z hz => hz⟩
    intro hne
    rcases h2 with h2 | h2 | ⟨h2, h5⟩
    · exact absurd h2 hne
    · refine ⟨Or.inr h2, ?_⟩
      refine h.best _ h2 _ ?_
      exact Attainable.step (astar_attained sqrt rooms s u st h.chains (Or.inr h.cur_closed))
        ⟨hne, dir, hdir, rfl⟩
    · exact ⟨Or.inl h2, h5⟩
  · rw [h4]
    refine ⟨AStarMid_record sqrt rooms s e u _ st h h1 h2 ⟨h1, dir, hdir, rfl⟩ hx h3, ?_, ?_⟩
    · intro _
      simp only [astar_record]
      rw [Function.update_same, Function.update_same, Function.update_noteq (Ne.symm h1)]
      exact ⟨Or.inl rfl, le_refl _⟩
    · intro z hz
      simp only [astar_record]
      rw [Function.update_noteq (Ne.symm h1)]
      by_cases hzx : z = (rooms u).connections dir
      · rw [hzx, Function.update_same, Function.update_same]
        exact ⟨Or.inl rfl, le_refl _⟩
      · rw [Function.update_noteq hzx, Function.update_noteq hzx]
        exact hz

theorem astar_fold_mid (sqrt : α → α) (rooms : Nat → Room α) (s e u : RoomID)
    (hx : ∀ d, d < DIR_COUNT → (rooms u).connections d < ROOM_COUNT) :
    ∀ (dirs : List Nat) (st : AStarState α), (∀ d ∈ dirs, d < DIR_COUNT) →
      AStarMid sqrt rooms s e u st →
      AStarMid sqrt rooms s e u (dirs.foldl (astar_neighbor sqrt rooms e u) st) ∧
      (∀ d ∈ dirs, (rooms u).connections d ≠ u →
        (((dirs.foldl (astar_neighbor sqrt rooms e u) st).open_set
              ((rooms u).connections d) = true ∨
          (dirs.foldl (astar_neighbor sqrt rooms e u) st).closed_set
              ((rooms u).connections d) = true) ∧
        (dirs.foldl (astar_neighbor sqrt rooms e u) st).g_score ((rooms u).connections d) ≤
          (dirs.foldl (astar_neighbor sqrt rooms e u) st).g_score u +
            edge_length sqrt rooms u ((rooms u).connections d))) ∧
      (∀ z, ((st.open_set z = true ∨ st.closed_set z = true) ∧
          st.g_score z ≤ st.g_score u + edge_length sqrt rooms u z) →
        (((dirs.foldl (astar_neighbor sqrt rooms e u) st).open_set z = true ∨
          (dirs.foldl (astar_neighbor sqrt rooms e u) st).closed_set z = true) ∧
        (dirs.foldl (astar_neighbor sqrt rooms e u) st).g_score z ≤
          (dirs.foldl (astar_neighbor sqrt rooms e u) st).g_score u +
            edge_length sqrt rooms u z)) := by
  intro dirs
  induction dirs with
  | nil =>
    intro st _ h
    exact ⟨h, fun d hd => absurd hd (List.not_mem_nil d), fun z hz => hz⟩
  | cons d t ih =>
    intro st hd h
    have hdlt := hd d (List.mem_cons_self _ _)
    obtain ⟨a1, a2, a3⟩ := astar_neighbor_mid sqrt rooms s e u st d hdlt (hx d hdlt) h
    obtain ⟨b1, b2, b3⟩ := ih (astar_neighbor sqrt rooms e u st d)
      (fun d2 hd2 => hd d2 (List.mem_cons_of_mem _ hd2)) a1
    simp only [List.foldl_cons]
    refine ⟨b1, ?_, fun z hz => b3 z (a3 z hz)⟩
    intro d2 hd2 hne
    rcases List.mem_cons.1 hd2 with rfl | hd2
    · exact b3 _ (a2 hne)
    · exact b2 d2 hd2 hne

theorem AStarOpt_expand (sqrt : α → α) (rooms : Nat → Room α) (s e u : RoomID)
    (hm : MetricLike sqrt) (hv : valid_connections rooms) (st : AStarState α)
    (hI : AStarOpt sqrt rooms s e st) (hsel : (astar_select st).2 = (u : Int)) (hue : u ≠ e) :
    AStarOpt sqrt rooms s e (astar_expand sqrt rooms e u st) := by
  rcases astar_select_cases st with ⟨h1, _⟩ | ⟨w, h1, hw, ho, _, hmin⟩
  · rw [h1] at hsel; omega
  · have : w = u := by rw [h1] at hsel; omega
    subst this
    obtain ⟨a1, a2, _⟩ := astar_fold_mid sqrt rooms s e w (fun d hd => hv w hw d hd)
      (List.range DIR_COUNT)
      { st with
        open_set := Function.update st.open_set w false
        closed_set := Function.update st.closed_set w true }
      (fun d hd => List.mem_range.1 hd)
      (AStarMid_close sqrt rooms s e w hm st hI hw hue ho hmin)
    refine ⟨a1.chains, a1.goal_open, a1.start_seen, a1.open_lt, a1.f_eq, a1.best, ?_⟩
    intro y x hy hp
    by_cases hyw : y = w
    · subst hyw
      obtain ⟨hne, d, hd, hdx⟩ := hp
      subst hdx
      exact a2 d (List.mem_range.2 hd) hne
    · exact a1.relaxed y x hy hyw hp

/-- The state in which A* answers, under valid connections: either no open room
of the map has a finite score, or the goal is selected. -/
theorem astar_final_state (sqrt : α → α) (rooms : Nat → Room α) (s e : RoomID)
    (hm : MetricLike sqrt) (hv : valid_connections rooms) (hs : s < ROOM_COUNT) (fuel : Nat) :
    astar_pathfinding fuel sqrt rooms s e = none ∨
    ∃ st2, AStarOpt sqrt rooms s e st2 ∧
      (((astar_select st2).2 = -1 ∧ astar_pathfinding fuel sqrt rooms s e = some none) ∨
       ((astar_select st2).2 = (e : Int) ∧
         astar_pathfinding fuel sqrt rooms s e =
           some (some (astar_reconstruct st2.came_from e)))) :=
  astar_loop_spec sqrt rooms e (AStarOpt sqrt rooms s e)
    (fun st u hI hsel hue => AStarOpt_expand sqrt rooms s e u hm hv st hI hsel hue)
    fuel (astar_init sqrt rooms s e) (AStarOpt_init sqrt rooms s e hs)

theorem astar_not_starved (sqrt : α → α) (rooms : Nat → Room α) (s e : RoomID) (fuel : Nat)
    (hf : ROOM_COUNT < fuel) : astar_pathfinding fuel sqrt rooms s e ≠ none :=
  astar_loop_fuel sqrt rooms s e fuel (astar_init sqrt rooms s e)
    (AStarChains_init sqrt rooms s e)
    (lt_of_le_of_lt (astar_unclosed_le _) hf)

end

/-! ## A*: what an answer means -/

theorem real_metric : MetricLike Real.sqrt := by
  refine ⟨?_, ?_, ?_⟩
  · intro a
    simp [heuristic_distance]
  · intro a b
    exact Real.sqrt_nonneg _
  · intro a b c
    simp only [heuristic_distance]
    have e1 : a.x - c.x = (a.x - b.x) + (b.x - c.x) := by ring
    have e2 : a.y - c.y = (a.y - b.y) + (b.y - c.y) := by ring
    rw [e1, e2]
    generalize a.x - b.x = p
    generalize a.y - b.y = q
    generalize b.x - c.x = r
    generalize b.y - c.y = t
    have hA : 0 ≤ p * p + q * q := by nlinarith [mul_self_nonneg p, mul_self_nonneg q]
    have hB : 0 ≤ r * r + t * t := by nlinarith [mul_self_nonneg r, mul_self_nonneg t]
    have sA := Real.sq_sqrt hA
    have sB := Real.sq_sqrt hB
    have nA := Real.sqrt_nonneg (p * p + q * q)
    have nB := Real.sqrt_nonneg (r * r + t * t)
    have cs : p * r + q * t ≤ Real.sqrt (p * p + q * q) * Real.sqrt (r * r + t * t) := by
      rw [← Real.sqrt_mul hA]
      refine le_trans (le_abs_self _) (Real.abs_le_sqrt ?_)
      nlinarith [sq_nonneg (p * t - q * r)]
    rw [Real.sqrt_le_iff]
    refine ⟨by linarith, ?_⟩
    nlinarith

section
variable {α : Type} [LinearOrderedField α]

theorem infinity_cost_pos : (0 : α) < INFINITY_COST := by
  unfold INFINITY_COST; norm_num

theorem astar_same (sqrt : α → α) (hm : MetricLike sqrt) (rooms : Nat → Room α) (n : RoomID)
    (hn : n < ROOM_COUNT) (fuel : Nat) :
    astar_pathfinding (fuel + 1) sqrt rooms n n = some (some [n]) := by
  have hopen : ∀ v, (astar_init sqrt rooms n n).open_set v = true → v = n := by
    intro v hv
    by_contra hne
    simp [astar_init, Function.update_noteq hne] at hv
  have hf : (astar_init sqrt rooms n n).f_score n = 0 := by
    simp [astar_init, hm.self_zero]
  have hrec : astar_reconstruct (astar_init sqrt rooms n n).came_from n = [n] := by
    rw [astar_reconstruct_chain _ n [] (by simp [back_chain, astar_init])
      (by simp [MAX_PATH_LENGTH])]
    rfl
  rcases astar_select_cases (astar_init sqrt rooms n n) with ⟨_, h2⟩ | ⟨u, h1, _, ho, _⟩
  · have := h2 n hn (by simp [astar_init])
    rw [hf] at this
    exact absurd this (not_le.2 infinity_cost_pos)
  · have hu := hopen u ho
    subst hu
    have hne : ¬ ((u : Int) = -1) := by omega
    simp only [astar_pathfinding, astar_loop, h1, if_neg hne, if_true, hrec]

theorem astar_found_state (sqrt : α → α) (rooms : Nat → Room α) (s e : RoomID)
    (hm : MetricLike sqrt) (hv : valid_connections rooms) (hs : s < ROOM_COUNT) (fuel : Nat)
    (p : List RoomID) (h : astar_pathfinding fuel sqrt rooms s e = some (some p)) :
    ∃ st2, AStarOpt sqrt rooms s e st2 ∧ e < ROOM_COUNT ∧ st2.open_set e = true ∧
      (∀ i, i < ROOM_COUNT → st2.open_set i = true → st2.f_score e ≤ st2.f_score i) ∧
      route_length sqrt rooms p = st2.g_score e ∧ st2.g_score e < INFINITY_COST := by
  rcases astar_final_state sqrt rooms s e hm hv hs fuel with h0 | ⟨st2, hI, h0⟩
  · rw [h0] at h; cases h
  · rcases h0 with ⟨_, h0⟩ | ⟨hsel, h0⟩
    · rw [h0] at h; cases h
    · rw [h0] at h
      simp only [Option.some.injEq] at h
      rcases astar_select_cases st2 with ⟨h1, _⟩ | ⟨w, h1, hw, ho, hfin, hmin⟩
      · rw [h1] at hsel; omega
      · have : w = e := by rw [h1] at hsel; omega
        subst this
        have hfg : st2.g_score w < INFINITY_COST := by
          rw [hI.f_eq w (Or.inl ho), hm.self_zero, add_zero] at hfin
          exact hfin
        refine ⟨st2, hI, hw, ho, hmin, ?_, hfg⟩
        obtain ⟨l, c1, c2, c3, _, c5⟩ := hI.chains.chain w (Or.inl ho)
        have hlt : ∀ x ∈ w :: l, x < ROOM_COUNT := by
          intro x hx
          rcases List.mem_cons.1 hx with rfl | hx
          · exact hw
          · exact hI.chains.closed_lt x (c2 x hx)
        have hlen := nodup_length_le ROOM_COUNT (w :: l) c3 hlt
        have hl : l.length < MAX_PATH_LENGTH := by
          simp only [List.length_cons, ROOM_COUNT] at hlen
          simp only [MAX_PATH_LENGTH]; omega
        rw [astar_reconstruct_chain _ w l c1 hl] at h
        rw [← h, c5]

theorem astar_found_least (sqrt : α → α) (rooms : Nat → Room α) (s e : RoomID)
    (hm : MetricLike sqrt) (hv : valid_connections rooms) (hs : s < ROOM_COUNT) (fuel : Nat)
    (p : List RoomID) (h : astar_pathfinding fuel sqrt rooms s e = some (some p))
    (q : List RoomID) (hq : is_route rooms s e q) :
    route_length sqrt rooms p ≤ route_length sqrt rooms q := by
  obtain ⟨st2, hI, _, ho, hmin, hp, _⟩ := astar_found_state sqrt rooms s e hm hv hs fuel p h
  rw [hp]
  exact astar_selected_best sqrt rooms s e hm st2 hI e ho hmin _
    (attainable_of_route sqrt rooms s e q hq)

theorem astar_finds_short (sqrt : α → α) (rooms : Nat → Room α) (s e : RoomID)
    (hm : MetricLike sqrt) (hv : valid_connections rooms) (hs : s < ROOM_COUNT) (fuel : Nat)
    (hf : ROOM_COUNT < fuel) (q : List RoomID) (hq : is_route rooms s e q)
    (hlen : route_length sqrt rooms q < INFINITY_COST) :
    ∃ p, astar_pathfinding fuel sqrt rooms s e = some (some p) := by
  rcases astar_final_state sqrt rooms s e hm hv hs fuel with h0 | ⟨st2, hI, h0⟩
  · exact absurd h0 (astar_not_starved sqrt rooms s e fuel hf)
  · rcases h0 with ⟨hsel, _⟩ | ⟨_, h0⟩
    · exfalso
      rcases astar_select_cases st2 with ⟨_, h2⟩ | ⟨w, h1, _⟩
      · rcases astar_frontier sqrt rooms s e hm st2 hI e _
          (attainable_of_route sqrt rooms s e q hq) with ⟨hc, _⟩ | ⟨v, hvo, hvf⟩
        · rw [hI.goal_open] at hc; cases hc
        · have := h2 v (hI.open_lt v hvo) hvo
          rw [hm.self_zero, add_zero] at hvf
          exact absurd (lt_of_le_of_lt hvf hlen) (not_lt.2 this)
      · rw [h1] at hsel; omega
    · exact ⟨_, h0⟩

end

/-! ## Dijkstra: the table invariant -/

section
variable {α : Type} [LinearOrderedField α]

theorem dijkstra_relax_cases (sqrt : α → α) (rooms : Nat → Room α) (u : RoomID)
    (st : PathfindingState α) (dir : Nat) :
    (dijkstra_relax sqrt rooms u st dir = st ∧
      ((rooms u).connections dir = u ∨ st.visited ((rooms u).connections dir) = true ∨
        st.cost ((rooms u).connections dir) ≤
          st.cost u + edge_length sqrt rooms u ((rooms u).connections dir))) ∨
    ((rooms u).connections dir ≠ u ∧ st.visited ((rooms u).connections dir) = false ∧
      st.cost u + edge_length sqrt rooms u ((rooms u).connections dir) <
        st.cost ((rooms u).connections dir) ∧
      dijkstra_relax sqrt rooms u st dir =
        { st with
          cost := Function.update st.cost ((rooms u).connections dir)
            (st.cost u + edge_length sqrt rooms u ((rooms u).connections dir))
          parent := Function.update st.parent ((rooms u).connections dir) (u : Int) }) := by
  unfold dijkstra_relax
  simp only []
  by_cases h1 : (rooms u).connections dir ≠ u ∧ st.visited ((rooms u).connections dir) = false
  · rw [if_pos h1]
    by_cases h2 : st.cost u + heuristic_distance sqrt (rooms u).coordinates
        (rooms ((rooms u).connections dir)).coordinates < st.cost ((rooms u).connections dir)
    · rw [if_pos h2]
      exact Or.inr ⟨h1.1, h1.2, h2, rfl⟩
    · rw [if_neg h2]
      exact Or.inl ⟨rfl, Or.inr (Or.inr (not_lt.1 h2))⟩
  · rw [if_neg h1]
    left
    refine ⟨rfl, ?_⟩
    by_cases h3 : (rooms u).connections dir = u
    · exact Or.inl h3
    · right; left
      cases hc : st.visited ((rooms u).connections dir)
      · exact absurd ⟨h3, hc⟩ h1
      · rfl

theorem DijkstraInv_init (sqrt : α → α) (rooms : Nat → Room α) (s e : RoomID) :
    DijkstraInv sqrt rooms s e none (dijkstra_init s) := by
  refine ⟨?_, ?_, rfl, ?_, ?_, ?_, ?_, ?_, ?_⟩
  · intro u hu; cases hu
  · intro v hv; simp [dijkstra_init] at hv
  · intro v
    by_cases hvs : v = s
    · simp only [dijkstra_init, hvs, Function.update_same]
      exact le_of_lt infinity_cost_pos
    · simp only [dijkstra_init, Function.update_noteq hvs]
      exact le_refl _
  · intro v hv; simp [dijkstra_init] at hv
  · intro v
    by_cases hvs : v = s
    · right
      simp only [dijkstra_init, hvs, Function.update_same]
      exact Attainable.start
    · left
      simp [dijkstra_init, Function.update_noteq hvs]
  · simp [dijkstra_init]
  · intro v hv; simp [dijkstra_init] at hv
  · intro y x hy; simp [dijkstra_init] at hy

theorem dijkstra_attained (sqrt : α → α) (rooms : Nat → Room α) (s e : RoomID)
    (cur : Option RoomID) (st : PathfindingState α) (h : DijkstraInv sqrt rooms s e cur st)
    (v : RoomID) (hv : st.cost v < INFINITY_COST) : Attainable sqrt rooms s v (st.cost v) := by
  rcases h.touched v with ⟨h1, _⟩ | h1
  · rw [h1] at hv; exact absurd hv (lt_irrefl _)
  · exact h1

theorem dijkstra_frontier (sqrt : α → α) (rooms : Nat → Room α) (s e : RoomID)
    (hm : MetricLike sqrt) (hv : valid_connections rooms) (hs : s < ROOM_COUNT)
    (st : PathfindingState α) (hI : DijkstraInv sqrt rooms s e none st)
    (x : RoomID) (c : α) (hx : Attainable sqrt rooms s x c) :
    (st.visited x = true ∧ st.cost x ≤ c) ∨
    ∃ v, st.visited v = false ∧ v < ROOM_COUNT ∧ st.cost v ≤ c := by
  induction hx with
  | start =>
    cases hvis : st.visited s
    · exact Or.inr ⟨s, hvis, hs, hI.start_cost⟩
    · exact Or.inl ⟨rfl, hI.start_cost⟩
  | @step u v c hu hp ih =>
    have hd := hm.nonneg (rooms u).coordinates (rooms v).coordinates
    rcases ih with ⟨hvis, hc⟩ | ⟨w, hw, hwlt, hwc⟩
    · have h1 := hI.relaxed u v hvis (by simp) hp
      have hle : st.cost v ≤ c + edge_length sqrt rooms u v := by linarith
      cases hvv : st.visited v
      · exact Or.inr ⟨v, hvv, attainable_lt sqrt rooms s hv hs v _ (Attainable.step hu hp), hle⟩
      · exact Or.inl ⟨rfl, hle⟩
    · right
      refine ⟨w, hw, hwlt, ?_⟩
      unfold edge_length
      linarith

theorem dijkstra_selected_best (sqrt : α → α) (rooms : Nat → Room α) (s e : RoomID)
    (hm : MetricLike sqrt) (hv : valid_connections rooms) (hs : s < ROOM_COUNT)
    (st : PathfindingState α) (hI : DijkstraInv sqrt rooms s e none st) (u : RoomID)
    (hmin : ∀ i, i < ROOM_COUNT → st.visited i = false → st.cost u ≤ st.cost i)
    (c : α) (hc : Attainable sqrt rooms s u c) : st.cost u ≤ c := by
  rcases dijkstra_frontier sqrt rooms s e hm hv hs st hI u c hc with ⟨_, h⟩ | ⟨v, hvv, hvlt, hvc⟩
  · exact h
  · exact le_trans (hmin v hvlt hvv) hvc

theorem DijkstraInv_mark (sqrt : α → α) (rooms : Nat → Room α) (s e u : RoomID)
    (hm : MetricLike sqrt) (hv : valid_connections rooms) (hs : s < ROOM_COUNT)
    (st : PathfindingState α) (hI : DijkstraInv sqrt rooms s e none st)
    (hu : u < ROOM_COUNT) (hue : u ≠ e) (hfin : st.cost u < INFINITY_COST)
    (hmin : ∀ i, i < ROOM_COUNT → st.visited i = false → st.cost u ≤ st.cost i) :
    DijkstraInv sqrt rooms s e (some u)
      { st with visited := Function.update st.visited u true } := by
  refine ⟨?_, ?_, ?_, hI.cost_le, ?_, hI.touched, hI.start_cost, ?_, ?_⟩
  · intro w hw
    simp only [Option.some.injEq] at hw
    subst hw
    exact Function.update_same _ _ _
  · intro v hvv
    simp only at hvv
    by_cases hvu : v = u
    · rw [hvu]; exact hu
    · rw [Function.update_noteq hvu] at hvv
      exact hI.visited_lt v hvv
  · show Function.update st.visited u true e = false
    rw [Function.update_noteq (Ne.symm hue)]; exact hI.goal_unvisited
  · intro v hvv
    simp only at hvv ⊢
    by_cases hvu : v = u
    · rw [hvu]; exact hfin
    · rw [Function.update_noteq hvu] at hvv
      exact hI.visited_fin v hvv
  · intro v hvv c hc
    simp only at hvv ⊢
    by_cases hvu : v = u
    · rw [hvu] at hc ⊢
      exact dijkstra_selected_best sqrt rooms s e hm hv hs st hI u hmin c hc
    · rw [Function.update_noteq hvu] at hvv
      exact hI.best v hvv c hc
  · intro y x hy hcur hp
    simp only at hy ⊢
    have hyu : y ≠ u := fun h => hcur (by rw [h])
    rw [Function.update_noteq hyu] at hy
    exact hI.relaxed y x hy (by simp) hp

theorem dijkstra_relax_mid (sqrt : α → α) (rooms : Nat → Room α) (s e u : RoomID)
    (st : PathfindingState α) (dir : Nat) (hdir : dir < DIR_COUNT)
    (h : DijkstraInv sqrt rooms s e (some u) st) :
    DijkstraInv sqrt rooms s e (some u) (dijkstra_relax sqrt rooms u st dir) ∧
    ((rooms u).connections dir ≠ u →
      (dijkstra_relax sqrt rooms u st dir).cost ((rooms u).connections dir) ≤
        (dijkstra_relax sqrt rooms u st dir).cost u +
          edge_length sqrt rooms u ((rooms u).connections dir)) ∧
    (∀ z, st.cost z ≤ st.cost u + edge_length sqrt rooms u z →
      (dijkstra_relax sqrt rooms u st dir).cost z ≤
        (dijkstra_relax sqrt rooms u st dir).cost u + edge_length sqrt rooms u z) ∧
    (dijkstra_relax sqrt rooms u st dir).visited = st.visited := by
  have hvis := h.cur_visited u rfl
  have hatt := dijkstra_attained sqrt rooms s e _ st h u (h.visited_fin u hvis)
  rcases dijkstra_relax_cases sqrt rooms u st dir with ⟨h1, h2⟩ | ⟨h1, h2, h3, h4⟩
  · rw [h1]
    refine ⟨h, ?_, fun z hz => hz, rfl⟩
    intro hne
    rcases h2 with h2 | h2 | h2
    · exact absurd h2 hne
    · exact h.best _ h2 _ (Attainable.step hatt ⟨hne, dir, hdir, rfl⟩)
    · exact h2
  · rw [h4]
    have vis_ne : ∀ v, st.visited v = true → v ≠ (rooms u).connections dir := by
      intro v hvv hvx
      rw [hvx, h2] at hvv; cases hvv
    have dec : ∀ z, Function.update st.cost ((rooms u).connections dir)
        (st.cost u + edge_length sqrt rooms u ((rooms u).connections dir)) z ≤ st.cost z := by
      intro z
      by_cases hz : z = (rooms u).connections dir
      · rw [hz, Function.update_same]; exact le_of_lt h3
      · rw [Function.update_noteq hz]
    refine ⟨⟨h.cur_visited, h.visited_lt, h.goal_unvisited, ?_, ?_, ?_, ?_, ?_, ?_⟩, ?_, ?_, rfl⟩
    · intro v
      exact le_trans (dec v) (h.cost_le v)
    · intro v hvv
      exact lt_of_le_of_lt (dec v) (h.visited_fin v hvv)
    · intro v
      simp only
      by_cases hvx : v = (rooms u).connections dir
      · right
        rw [hvx, Function.update_same]
        exact Attainable.step hatt ⟨h1, dir, hdir, rfl⟩
      · rw [Function.update_noteq hvx, Function.update_noteq hvx]
        exact h.touched v
    · exact le_trans (dec s) h.start_cost
    · intro v hvv c hc
      exact le_trans (dec v) (h.best v hvv c hc)
    · intro y x hy hcur hp
      simp only at hy ⊢
      rw [Function.update_noteq (vis_ne y hy)]
      exact le_trans (dec x) (h.relaxed y x hy hcur hp)
    · intro _
      simp only
      rw [Function.update_same, Function.update_noteq (Ne.symm h1)]
    · intro z hz
      simp only
      rw [Function.update_noteq (Ne.symm h1)]
      exact le_trans (dec z) hz

theorem dijkstra_fold_mid (sqrt : α → α) (rooms : Nat → Room α) (s e u : RoomID) :
    ∀ (dirs : List Nat) (st : PathfindingState α), (∀ d ∈ dirs, d < DIR_COUNT) →
      DijkstraInv sqrt rooms s e (some u) st →
      DijkstraInv sqrt rooms s e (some u) (dirs.foldl (dijkstra_relax sqrt rooms u) st) ∧
      (∀ d ∈ dirs, (rooms u).connections d ≠ u →
        (dirs.foldl (dijkstra_relax sqrt rooms u) st).cost ((rooms u).connections d) ≤
          (dirs.foldl (dijkstra_relax sqrt rooms u) st).cost u +
            edge_length sqrt rooms u ((rooms u).connections d)) ∧
      (∀ z, st.cost z ≤ st.cost u + edge_length sqrt rooms u z →
        (dirs.foldl (dijkstra_relax sqrt rooms u) st).cost z ≤
          (dirs.foldl (dijkstra_relax sqrt rooms u) st).cost u + edge_length sqrt rooms u z) ∧
      (dirs.foldl (dijkstra_relax sqrt rooms u) st).visited = st.visited := by
  intro dirs
  induction dirs with
  | nil =>
    intro st _ h
    exact ⟨h, fun d hd => absurd hd (List.not_mem_nil d), fun z hz => hz, rfl⟩
  | cons d t ih =>
    intro st hd h
    obtain ⟨a1, a2, a3, a4⟩ := dijkstra_relax_mid sqrt rooms s e u st d
      (hd d (List.mem_cons_self _ _)) h
    obtain ⟨b1, b2, b3, b4⟩ := ih (dijkstra_relax sqrt rooms u st d)
      (fun d2 hd2 => hd d2 (List.mem_cons_of_mem _ hd2)) a1
    simp only [List.foldl_cons]
    refine ⟨b1, ?_, fun z hz => b3 z (a3 z hz), by rw [b4, a4]⟩
    intro d2 hd2 hne
    rcases List.mem_cons.1 hd2 with rfl | hd2
    · exact b3 _ (a2 hne)
    · exact b2 d2 hd2 hne

theorem DijkstraInv_visit (sqrt : α → α) (rooms : Nat → Room α) (s e u : RoomID)
    (hm : MetricLike sqrt) (hv : valid_connections rooms) (hs : s < ROOM_COUNT)
    (st : PathfindingState α) (hI : DijkstraInv sqrt rooms s e none st)
    (hu : u < ROOM_COUNT) (hue : u ≠ e) (hfin : st.cost u < INFINITY_COST)
    (hmin : ∀ i, i < ROOM_COUNT → st.visited i = false → st.cost u ≤ st.cost i) :
    DijkstraInv sqrt rooms s e none (dijkstra_visit sqrt rooms u st) ∧
      (dijkstra_visit sqrt rooms u st).visited = Function.update st.visited u true := by
  obtain ⟨a1, a2, _, a4⟩ := dijkstra_fold_mid sqrt rooms s e u (List.range DIR_COUNT)
    { st with visited := Function.update st.visited u true }
    (fun d hd => List.mem_range.1 hd)
    (DijkstraInv_mark sqrt rooms s e u hm hv hs st hI hu hue hfin hmin)
  refine ⟨⟨?_, a1.visited_lt, a1.goal_unvisited, a1.cost_le, a1.visited_fin, a1.touched,
    a1.start_cost, a1.best, ?_⟩, a4⟩
  · intro w hw; cases hw
  · intro y x hy _ hp
    by_cases hyu : y = u
    · subst hyu
      obtain ⟨hne, d, hd, hdx⟩ := hp
      subst hdx
      exact a2 d (List.mem_range.2 hd) hne
    · exact a1.relaxed y x hy (by simp; exact fun h => hyu h.symm) hp

theorem dijkstra_loop_inv (sqrt : α → α) (rooms : Nat → Room α) (s e : RoomID)
    (hm : MetricLike sqrt) (hv : valid_connections rooms) (hs : s < ROOM_COUNT) :
    ∀ (n : Nat) (st : PathfindingState α), DijkstraInv sqrt rooms s e none st →
      DijkstraInv sqrt rooms s e none (dijkstra_loop sqrt rooms e n st) := by
  intro n
  induction n with
  | zero => intro st h; exact h
  | succ n ih =>
    intro st h
    rcases dijkstra_select_cases st with ⟨h1, _⟩ | ⟨u, h1, hu, hvis, hfin, hmin⟩
    · simp only [dijkstra_loop, h1, true_or, if_true]; exact h
    · by_cases hue : u = e
      · simp only [dijkstra_loop, h1, hue, or_true, if_true]; exact h
      · have hne : ¬ ((u : Int) = -1 ∨ (u : Int) = (e : Int)) := by omega
        simp only [dijkstra_loop, h1, if_neg hne, Int.toNat_ofNat]
        exact ih _ (DijkstraInv_visit sqrt rooms s e u hm hv hs st h hu hue hfin hmin).1

omit [LinearOrderedField α] in
theorem dijkstra_unvisited_visit (st st2 : PathfindingState α) (u : RoomID)
    (hu : u < ROOM_COUNT) (huv : st.visited u = false)
    (h2 : st2.visited = Function.update st.visited u true) :
    dijkstra_unvisited st2 < dijkstra_unvisited st := by
  unfold dijkstra_unvisited
  apply Finset.card_lt_card
  rw [Finset.ssubset_iff_of_subset]
  · refine ⟨u, ?_, ?_⟩
    · simp [hu, huv]
    · simp [h2]
  · intro i hi
    simp only [Finset.mem_filter, Finset.mem_range] at hi ⊢
    refine ⟨hi.1, ?_⟩
    have := hi.2
    rw [h2] at this
    by_cases hiu : i = u
    · rw [hiu, Function.update_same] at this; cases this
    · rwa [Function.update_noteq hiu] at this

theorem dijkstra_loop_exit (sqrt : α → α) (rooms : Nat → Room α) (s e : RoomID)
    (hm : MetricLike sqrt) (hv : valid_connections rooms) (hs : s < ROOM_COUNT)
    (he : e < ROOM_COUNT) :
    ∀ (n : Nat) (st : PathfindingState α), DijkstraInv sqrt rooms s e none st →
      dijkstra_unvisited st ≤ n →
      (dijkstra_select (dijkstra_loop sqrt rooms e n st)).2 = -1 ∨
      (dijkstra_select (dijkstra_loop sqrt rooms e n st)).2 = (e : Int) := by
  intro n
  induction n with
  | zero =>
    intro st h hle
    exfalso
    have : 0 < dijkstra_unvisited st := by
      unfold dijkstra_unvisited
      apply Finset.card_pos.2
      exact ⟨e, by simp [he, h.goal_unvisited]⟩
    omega
  | succ n ih =>
    intro st h hle
    rcases dijkstra_select_cases st with ⟨h1, _⟩ | ⟨u, h1, hu, hvis, hfin, hmin⟩
    · have hloop : dijkstra_loop sqrt rooms e (n + 1) st = st := by
        simp only [dijkstra_loop, h1, true_or, if_true]
      rw [hloop]; exact Or.inl h1
    · by_cases hue : u = e
      · have hloop : dijkstra_loop sqrt rooms e (n + 1) st = st := by
          simp only [dijkstra_loop, h1, hue, or_true, if_true]
        rw [hloop]; right; rw [h1, hue]
      · have hne : ¬ ((u : Int) = -1 ∨ (u : Int) = (e : Int)) := by omega
        simp only [dijkstra_loop, h1, if_neg hne, Int.toNat_ofNat]
        obtain ⟨a1, a2⟩ := DijkstraInv_visit sqrt rooms s e u hm hv hs st h hu hue hfin hmin
        have := dijkstra_unvisited_visit st _ u hu hvis a2
        exact ih _ a1 (by omega)

omit [LinearOrderedField α] in
theorem dijkstra_unvisited_le (st : PathfindingState α) : dijkstra_unvisited st ≤ ROOM_COUNT := by
  unfold dijkstra_unvisited
  calc _ ≤ (Finset.range ROOM_COUNT).card := Finset.card_filter_le _ _
    _ = ROOM_COUNT := Finset.card_range _

end

/-! ## Two rooms joined by one passage -/

section
variable {α : Type} [LinearOrderedField α]

theorem two_room_astar_fold (sqrt : α → α) (hm : MetricLike sqrt) (rooms : Nat → Room α)
    (a b : RoomID) (hab : a ≠ b)
    (hconn : ∀ d, d < DIR_COUNT → (rooms a).connections d = a ∨ (rooms a).connections d = b)
    (hlt : edge_length sqrt rooms a b < INFINITY_COST) :
    ∀ (dirs : List Nat) (st : AStarState α), (∀ d ∈ dirs, d < DIR_COUNT) →
      TwoRoomAStar a b st → st.g_score a = 0 →
      TwoRoomAStar a b (dirs.foldl (astar_neighbor sqrt rooms b a) st) ∧
      (dirs.foldl (astar_neighbor sqrt rooms b a) st).g_score a = 0 ∧
      ((st.open_set b = true ∨ ∃ d ∈ dirs, (rooms a).connections d = b) →
        (dirs.foldl (astar_neighbor sqrt rooms b a) st).open_set b = true) := by
  intro dirs
  induction dirs with
  | nil =>
    intro st _ h hg
    refine ⟨h, hg, ?_⟩
    rintro (h1 | ⟨d, hd, _⟩)
    · exact h1
    · exact absurd hd (List.not_mem_nil d)
  | cons d t ih =>
    intro st hd h hg
    have hdlt := hd d (List.mem_cons_self _ _)
    have hnc : st.closed_set b = false := by
      cases hc : st.closed_set b
      · rfl
      · exact absurd ((h.closed_iff b).1 hc).symm hab
    have step : TwoRoomAStar a b (astar_neighbor sqrt rooms b a st d) ∧
        (astar_neighbor sqrt rooms b a st d).g_score a = 0 ∧
        ((st.open_set b = true ∨ (rooms a).connections d = b) →
          (astar_neighbor sqrt rooms b a st d).open_set b = true) := by
      rcases astar_neighbor_cases sqrt rooms b a st d with ⟨h1, h2⟩ | ⟨h1, h2, _, h4⟩
      · rw [h1]
        refine ⟨h, hg, ?_⟩
        rintro (h3 | h3)
        · exact h3
        · rw [h3] at h2
          rcases h2 with h2 | h2 | ⟨h2, _⟩
          · exact absurd h2.symm hab
          · rw [hnc] at h2; cases h2
          · exact h2
      · have hx : (rooms a).connections d = b := by
          rcases hconn d hdlt with h5 | h5
          · exact absurd h5 h1
          · exact h5
        rw [h4, hx]
        refine ⟨⟨h.closed_iff, ?_, ?_, ?_⟩, ?_, fun _ => ?_⟩
        · intro v hv
          simp only [astar_record] at hv
          by_cases hvb : v = b
          · exact hvb
          · rw [Function.update_noteq hvb] at hv
            exact h.open_only v hv
        · simp only [astar_record]
          rw [Function.update_noteq hab]; exact h.from_start
        · intro _
          simp only [astar_record]
          rw [Function.update_same, Function.update_same, hg, hm.self_zero]
          refine ⟨rfl, ?_⟩
          simpa using hlt
        · simp only [astar_record]
          rw [Function.update_noteq hab]; exact hg
        · simp only [astar_record]
          exact Function.update_same _ _ _
    obtain ⟨s1, s2, s3⟩ := step
    obtain ⟨b1, b2, b3⟩ := ih (astar_neighbor sqrt rooms b a st d)
      (fun d2 hd2 => hd d2 (List.mem_cons_of_mem _ hd2)) s1 s2
    simp only [List.foldl_cons]
    refine ⟨b1, b2, ?_⟩
    rintro (h1 | ⟨d2, hd2, hx⟩)
    · exact b3 (Or.inl (s3 (Or.inl h1)))
    · rcases List.mem_cons.1 hd2 with rfl | hd2
      · exact b3 (Or.inl (s3 (Or.inr hx)))
      · exact b3 (Or.inr ⟨d2, hd2, hx⟩)

/-- Two distinct rooms, the first of which leads only to the second: A* answers
with the two-room path. -/
theorem two_room_astar (sqrt : α → α) (hm : MetricLike sqrt) (rooms : Nat → Room α)
    (a b : RoomID) (ha : a < ROOM_COUNT) (hb : b < ROOM_COUNT) (hab : a ≠ b)
    (hconn : ∀ d, d < DIR_COUNT → (rooms a).connections d = a ∨ (rooms a).connections d = b)
    (hedge : ∃ d, d < DIR_COUNT ∧ (rooms a).connections d = b)
    (hlt : edge_length sqrt rooms a b < INFINITY_COST) (fuel : Nat) :
    astar_pathfinding (fuel + 2) sqrt rooms a b = some (some [a, b]) := by
  -- first pass: the start room is selected
  have hopen : ∀ v, (astar_init sqrt rooms a b).open_set v = true → v = a := by
    intro v hv
    by_contra hne
    simp [astar_init, Function.update_noteq hne] at hv
  have hsel0 : (astar_select (astar_init sqrt rooms a b)).2 = (a : Int) := by
    rcases astar_select_cases (astar_init sqrt rooms a b) with ⟨_, h2⟩ | ⟨u, h1, _, ho, _⟩
    · have := h2 a ha (by simp [astar_init])
      simp only [astar_init, Function.update_same] at this
      exact absurd hlt (not_lt.2 this)
    · rw [h1, hopen u ho]
  -- its expansion
  have key := two_room_astar_fold sqrt hm rooms a b hab hconn hlt
    (List.range DIR_COUNT)
    { astar_init sqrt rooms a b with
      open_set := Function.update (astar_init sqrt rooms a b).open_set a false
      closed_set := Function.update (astar_init sqrt rooms a b).closed_set a true }
    (fun d hd => List.mem_range.1 hd)
    ⟨(by
        intro v
        simp only [astar_init]
        by_cases hva : v = a
        · subst hva; simp
        · simp [Function.update_noteq hva, hva]),
      (by
        intro v hv
        simp only [astar_init] at hv
        by_cases hva : v = a
        · rw [hva, Function.update_same] at hv; cases hv
        · rw [Function.update_noteq hva, Function.update_noteq hva] at hv; cases hv),
      rfl,
      (by
        intro h
        simp only [astar_init] at h
        rw [Function.update_noteq (Ne.symm hab), Function.update_noteq (Ne.symm hab)] at h
        cases h)⟩
    (by simp [astar_init])
  have e1 : TwoRoomAStar a b (astar_expand sqrt rooms b a (astar_init sqrt rooms a b)) :=
    key.1
  have hob : (astar_expand sqrt rooms b a (astar_init sqrt rooms a b)).open_set b = true :=
    key.2.2 (Or.inr (by
      obtain ⟨d, hd, hx⟩ := hedge
      exact ⟨d, List.mem_range.2 hd, hx⟩))
  -- second pass: the goal is selected
  have hsel1 : (astar_select (astar_expand sqrt rooms b a (astar_init sqrt rooms a b))).2 =
      (b : Int) := by
    rcases astar_select_cases (astar_expand sqrt rooms b a (astar_init sqrt rooms a b))
      with ⟨_, h2⟩ | ⟨u, h1, _, ho, _⟩
    · have := h2 b hb hob
      exact absurd (e1.opened hob).2 (not_lt.2 this)
    · rw [h1, e1.open_only u ho]
  have hrec : astar_reconstruct
      (astar_expand sqrt rooms b a (astar_init sqrt rooms a b)).came_from b = [a, b] := by
    rw [astar_reconstruct_chain _ b [a]
      (by
        simp only [back_chain]
        exact ⟨(e1.opened hob).1, e1.from_start⟩)
      (by simp [MAX_PATH_LENGTH])]
    rfl
  have hab2 : @Ne Nat a b := hab
  have n1 : ¬ ((a : Int) = -1) := by omega
  have n2 : ¬ ((a : Int) = (b : Int)) := by omega
  have n3 : ¬ ((b : Int) = -1) := by omega
  simp only [astar_pathfinding, astar_loop, hsel0, if_neg n1, if_neg n2, Int.toNat_ofNat,
    hsel1, if_neg n3, if_true, hrec]

theorem two_room_dijkstra_fold (sqrt : α → α) (rooms : Nat → Room α)
    (a b : RoomID) (hab : a ≠ b)
    (hconn : ∀ d, d < DIR_COUNT → (rooms a).connections d = a ∨ (rooms a).connections d = b)
    (hlt : edge_length sqrt rooms a b < INFINITY_COST) :
    ∀ (dirs : List Nat) (st : PathfindingState α), (∀ d ∈ dirs, d < DIR_COUNT) →
      TwoRoomDijkstra a b (edge_length sqrt rooms a b) st →
      TwoRoomDijkstra a b (edge_length sqrt rooms a b)
        (dirs.foldl (dijkstra_relax sqrt rooms a) st) ∧
      ((st.cost b ≠ INFINITY_COST ∨ ∃ d ∈ dirs, (rooms a).connections d = b) →
        (dirs.foldl (dijkstra_relax sqrt rooms a) st).cost b ≠ INFINITY_COST) := by
  intro dirs
  induction dirs with
  | nil =>
    intro st _ h
    refine ⟨h, ?_⟩
    rintro (h1 | ⟨d, hd, _⟩)
    · exact h1
    · exact absurd hd (List.not_mem_nil d)
  | cons d t ih =>
    intro st hd h
    have hdlt := hd d (List.mem_cons_self _ _)
    have hnv : st.visited b = false := by
      cases hc : st.visited b
      · rfl
      · exact absurd ((h.visited_iff b).1 hc).symm hab
    have hfin : (0 : α) + edge_length sqrt rooms a b ≠ INFINITY_COST := by
      rw [zero_add]; exact ne_of_lt hlt
    have step : TwoRoomDijkstra a b (edge_length sqrt rooms a b)
          (dijkstra_relax sqrt rooms a st d) ∧
        ((st.cost b ≠ INFINITY_COST ∨ (rooms a).connections d = b) →
          (dijkstra_relax sqrt rooms a st d).cost b ≠ INFINITY_COST) := by
      rcases dijkstra_relax_cases sqrt rooms a st d with ⟨h1, h2⟩ | ⟨h1, _, _, h4⟩
      · rw [h1]
        refine ⟨h, ?_⟩
        rintro (h3 | h3)
        · exact h3
        · rw [h3] at h2
          rcases h2 with h2 | h2 | h2
          · exact absurd h2.symm hab
          · rw [hnv] at h2; cases h2
          · rw [h.start_cost] at h2
            intro hinf
            rw [hinf, zero_add] at h2
            exact absurd hlt (not_lt.2 h2)
      · have hx : (rooms a).connections d = b := by
          rcases hconn d hdlt with h5 | h5
          · exact absurd h5 h1
          · exact h5
        rw [h4, hx]
        refine ⟨⟨h.visited_iff, ?_, ?_, ?_⟩, fun _ => ?_⟩
        · simp only
          rw [Function.update_noteq hab]; exact h.start_cost
        · intro v hva hvb
          simp only
          rw [Function.update_noteq hvb]; exact h.others v hva hvb
        · right
          simp only
          rw [Function.update_same, Function.update_same, h.start_cost]
          exact ⟨rfl, rfl⟩
        · simp only
          rw [Function.update_same, h.start_cost]
          exact hfin
    obtain ⟨s1, s3⟩ := step
    obtain ⟨b1, b3⟩ := ih (dijkstra_relax sqrt rooms a st d)
      (fun d2 hd2 => hd d2 (List.mem_cons_of_mem _ hd2)) s1
    simp only [List.foldl_cons]
    refine ⟨b1, ?_⟩
    rintro (h1 | ⟨d2, hd2, hx⟩)
    · exact b3 (Or.inl (s3 (Or.inl h1)))
    · rcases List.mem_cons.1 hd2 with rfl | hd2
      · exact b3 (Or.inl (s3 (Or.inr hx)))
      · exact b3 (Or.inr ⟨d2, hd2, hx⟩)

/-- Two distinct rooms, the first of which leads only to the second: Dijkstra
stops with the second room costed through the first. -/
theorem two_room_dijkstra (sqrt : α → α) (rooms : Nat → Room α)
    (a b : RoomID) (ha : a < ROOM_COUNT) (hb : b < ROOM_COUNT) (hab : a ≠ b)
    (hconn : ∀ d, d < DIR_COUNT → (rooms a).connections d = a ∨ (rooms a).connections d = b)
    (hedge : ∃ d, d < DIR_COUNT ∧ (rooms a).connections d = b)
    (hlt : edge_length sqrt rooms a b < INFINITY_COST) :
    (dijkstra_shortest_path sqrt rooms a b).cost b = 0 + edge_length sqrt rooms a b ∧
    (dijkstra_shortest_path sqrt rooms a b).parent b = (a : Int) ∧
    (dijkstra_shortest_path sqrt rooms a b).visited a = true ∧
    (dijkstra_select (dijkstra_shortest_path sqrt rooms a b)).2 = (b : Int) := by
  have hcost : ∀ v, v ≠ a → (dijkstra_init a : PathfindingState α).cost v = INFINITY_COST := by
    intro v hv
    simp [dijkstra_init, Function.update_noteq hv]
  have hsel0 : (dijkstra_select (dijkstra_init a : PathfindingState α)).2 = (a : Int) := by
    rcases dijkstra_select_cases (dijkstra_init a : PathfindingState α)
      with ⟨_, h2⟩ | ⟨u, h1, _, _, hfin, _⟩
    · have := h2 a ha rfl
      simp only [dijkstra_init, Function.update_same] at this
      exact absurd infinity_cost_pos (not_lt.2 this)
    · by_cases hua : u = a
      · rw [h1, hua]
      · rw [hcost u hua] at hfin
        exact absurd hfin (lt_irrefl _)
  have key := two_room_dijkstra_fold sqrt rooms a b hab hconn hlt
    (List.range DIR_COUNT)
    { (dijkstra_init a : PathfindingState α) with
      visited := Function.update (dijkstra_init a : PathfindingState α).visited a true }
    (fun d hd => List.mem_range.1 hd)
    ⟨(by
        intro v
        simp only [dijkstra_init]
        by_cases hva : v = a
        · subst hva; simp
        · simp [Function.update_noteq hva, hva]),
      (by simp [dijkstra_init]),
      fun v hva _ => hcost v hva,
      Or.inl ⟨hcost b (Ne.symm hab), rfl⟩⟩
  have e1 : TwoRoomDijkstra a b (edge_length sqrt rooms a b)
      (dijkstra_visit sqrt rooms a (dijkstra_init a)) := key.1
  have hcb : (dijkstra_visit sqrt rooms a (dijkstra_init a)).cost b ≠ INFINITY_COST :=
    key.2 (Or.inr (by
      obtain ⟨d, hd, hx⟩ := hedge
      exact ⟨d, List.mem_range.2 hd, hx⟩))
  have hentry : (dijkstra_visit sqrt rooms a (dijkstra_init a)).cost b =
        0 + edge_length sqrt rooms a b ∧
      (dijkstra_visit sqrt rooms a (dijkstra_init a)).parent b = (a : Int) := by
    rcases e1.goal_entry with ⟨h1, _⟩ | h1
    · exact absurd h1 hcb
    · exact h1
  have hsel1 : (dijkstra_select (dijkstra_visit sqrt rooms a (dijkstra_init a))).2 =
      (b : Int) := by
    rcases dijkstra_select_cases (dijkstra_visit sqrt rooms a (dijkstra_init a))
      with ⟨_, h2⟩ | ⟨u, h1, _, hvis, hfin, _⟩
    · have hnv : (dijkstra_visit sqrt rooms a (dijkstra_init a)).visited b = false := by
        cases hc : (dijkstra_visit sqrt rooms a (dijkstra_init a)).visited b
        · rfl
        · exact absurd ((e1.visited_iff b).1 hc).symm hab
      have := h2 b hb hnv
      rw [hentry.1, zero_add] at this
      exact absurd hlt (not_lt.2 this)
    · by_cases hua : u = a
      · rw [hua] at hvis
        have := (e1.visited_iff a).2 rfl
        rw [hvis] at this; cases this
      · by_cases hub : u = b
        · rw [h1, hub]
        · rw [e1.others u hua hub] at hfin
          exact absurd hfin (lt_irrefl _)
  have hab2 : @Ne Nat a b := hab
  have n1 : ¬ ((a : Int) = -1 ∨ (a : Int) = (b : Int)) := by omega
  have hfinal : dijkstra_shortest_path sqrt rooms a b =
      dijkstra_visit sqrt rooms a (dijkstra_init a) := by
    simp only [dijkstra_shortest_path, ROOM_COUNT, dijkstra_loop, hsel0, if_neg n1,
      Int.toNat_ofNat, hsel1, or_true, if_true]
  rw [hfinal]
  exact ⟨hentry.1, hentry.2, (e1.visited_iff a).2 rfl, hsel1⟩

end

/-! ## Sample maps -/

section
variable {α : Type} [LinearOrderedField α]

theorem line_rooms_valid (gap : α) : valid_connections (line_rooms gap) := by
  intro i hi dir _
  unfold line_rooms
  by_cases h0 : i = 0
  · rw [if_pos h0]
    by_cases hd : dir = 2
    · simp [hd, ROOM_COUNT]
    · simp [hd, ROOM_COUNT]
  · rw [if_neg h0]
    by_cases h1 : i = 1
    · rw [if_pos h1]
      by_cases hd : dir = 3
      · simp [hd, ROOM_COUNT]
      · simp [hd, ROOM_COUNT]
    · rw [if_neg h1]
      exact hi

theorem line_rooms_forth (gap : α) : passage (line_rooms gap) 0 1 :=
  ⟨by decide, 2, by decide, rfl⟩

theorem line_rooms_back (gap : α) : passage (line_rooms gap) 1 0 :=
  ⟨by decide, 3, by decide, rfl⟩

theorem line_rooms_only (gap : α) (d : Nat) :
    (line_rooms gap 0).connections d = 0 ∨ (line_rooms gap 0).connections d = 1 := by
  by_cases hd : d = 2
  · right; simp [line_rooms, hd]
  · left; simp [line_rooms, hd]

theorem isolated_no_route (s g : RoomID) (hsg : s ≠ g) :
    ¬ ∃ q, is_route (isolated_rooms : Nat → Room α) s g q := by
  rintro ⟨q, h1, h2, h3⟩
  cases q with
  | nil => simp at h1
  | cons a t =>
    simp only [List.head?_cons, Option.some.injEq] at h1
    subst h1
    cases t with
    | nil =>
      simp only [List.getLast?_singleton, Option.some.injEq] at h2
      exact hsg h2
    | cons b r =>
      rw [List.chain'_cons] at h3
      obtain ⟨hne, d, _, hd⟩ := h3.1
      exact hne hd.symm

theorem astar_none_far (sqrt : α → α) (rooms : Nat → Room α) (s e : RoomID)
    (hm : MetricLike sqrt) (hv : valid_connections rooms) (hs : s < ROOM_COUNT) (fuel : Nat)
    (h : astar_pathfinding fuel sqrt rooms s e = some none)
    (q : List RoomID) (hq : is_route rooms s e q) :
    INFINITY_COST ≤ route_length sqrt rooms q := by
  rcases astar_final_state sqrt rooms s e hm hv hs fuel with h0 | ⟨st2, hI, h0⟩
  · rw [h0] at h; cases h
  · rcases h0 with ⟨hsel, _⟩ | ⟨_, h0⟩
    · rcases astar_select_cases st2 with ⟨_, h2⟩ | ⟨w, h1, _⟩
      · rcases astar_frontier sqrt rooms s e hm st2 hI e _
          (attainable_of_route sqrt rooms s e q hq) with ⟨hc, _⟩ | ⟨v, hvo, hvf⟩
        · rw [hI.goal_open] at hc; cases hc
        · have := h2 v (hI.open_lt v hvo) hvo
          rw [hm.self_zero, add_zero] at hvf
          exact le_trans this hvf
      · rw [h1] at hsel; omega
    · rw [h0] at h; cases h

/-- The table Dijkstra leaves satisfies the loop invariant. -/
theorem dijkstra_final_inv (sqrt : α → α) (rooms : Nat → Room α) (s e : RoomID)
    (hm : MetricLike sqrt) (hv : valid_connections rooms) (hs : s < ROOM_COUNT) :
    DijkstraInv sqrt rooms s e none (dijkstra_shortest_path sqrt rooms s e) :=
  dijkstra_loop_inv sqrt rooms s e hm hv hs ROOM_COUNT _ (DijkstraInv_init sqrt rooms s e)

/-- When some route to the goal is shorter than the sentinel, Dijkstra stops by
selecting the goal, with the least route length as its cost. -/
theorem dijkstra_goal_cost (sqrt : α → α) (rooms : Nat → Room α) (s e : RoomID)
    (hm : MetricLike sqrt) (hv : valid_connections rooms) (hs : s < ROOM_COUNT)
    (he : e < ROOM_COUNT) (q : List RoomID) (hq : is_route rooms s e q)
    (hlen : route_length sqrt rooms q < INFINITY_COST) :
    (dijkstra_shortest_path sqrt rooms s e).cost e ≤ route_length sqrt rooms q ∧
    ∃ p, is_route rooms s e p ∧
      route_length sqrt rooms p = (dijkstra_shortest_path sqrt rooms s e).cost e := by
  have hI := dijkstra_final_inv sqrt rooms s e hm hv hs
  have hex := dijkstra_loop_exit sqrt rooms s e hm hv hs he ROOM_COUNT _
    (DijkstraInv_init sqrt rooms s e) (dijkstra_unvisited_le _)
  have hatt := attainable_of_route sqrt rooms s e q hq
  rcases dijkstra_select_cases (dijkstra_shortest_path sqrt rooms s e)
    with ⟨h1, h2⟩ | ⟨u, h1, _, _, hfin, hmin⟩
  · exfalso
    rcases dijkstra_frontier sqrt rooms s e hm hv hs _ hI e _ hatt with ⟨hc, _⟩ | ⟨v, hvv, hvl, hvc⟩
    · rw [hI.goal_unvisited] at hc; cases hc
    · exact absurd (lt_of_le_of_lt hvc hlen) (not_lt.2 (h2 v hvl hvv))
  · have hue : u = e := by
      rcases hex with h3 | h3
      · rw [dijkstra_shortest_path] at h1; rw [h1] at h3; omega
      · rw [dijkstra_shortest_path] at h1; rw [h1] at h3; omega
    subst hue
    exact ⟨dijkstra_selected_best sqrt rooms s u hm hv hs _ hI u hmin _ hatt,
      route_of_attainable sqrt rooms s u _ (dijkstra_attained sqrt rooms s u _ _ hI u hfin)⟩

end

theorem line_rooms_length (gap : ℝ) (hg : 0 ≤ gap) :
    edge_length Real.sqrt (line_rooms gap) 0 1 = gap := by
  have : (0 - gap) * (0 - gap) + (0 - 0) * (0 - 0) = gap * gap := by ring
  simp only [edge_length, heuristic_distance, line_rooms]
  simp only [if_true, if_false, one_ne_zero]
  rw [this, Real.sqrt_mul_self hg]

theorem line_rooms_ten :
    astar_pathfinding 11 Real.sqrt (line_rooms 10) 0 1 = some (some [0, 1]) :=
  two_room_astar Real.sqrt real_metric (line_rooms 10) 0 1 (by decide) (by decide) (by decide)
    (fun d _ => line_rooms_only 10 d) ⟨2, by decide, rfl⟩
    (by rw [line_rooms_length 10 (by norm_num)]; norm_num [INFINITY_COST]) 9

/-! ## The search contracts -/

/-- Claim C1: for every room `n` of the map, `astar_pathfinding(rooms, n, n)` returns
`true` after the first pass of its loop and the reconstructed path is exactly `[n]`.
No connection is read on the way, so the statement needs no assumption on them. -/
theorem astar_start_is_goal (rooms : Nat → Room ℝ) (n : RoomID) (hn : n < ROOM_COUNT)
    (fuel : Nat) :
    astar_pathfinding (fuel + 1) Real.sqrt rooms n n = some (some [n]) :=
  astar_same Real.sqrt real_metric rooms n hn fuel

theorem astar_start_is_goal_witness :
    3 < ROOM_COUNT ∧ astar_pathfinding 1 Real.sqrt (line_rooms 10) 3 3 = some (some [3]) :=
  ⟨by decide, astar_start_is_goal (line_rooms 10) 3 (by decide) 0⟩

/-- Claim C2, amended: in exact arithmetic (a `double` taken as a real number and
`sqrt` as the real square root) A* is optimal.  On a map with valid connections,
whenever `astar_pathfinding` returns `true` from a room `s` of the map, the
Euclidean length of the returned path is at most that of every sequence of
non-self-loop connections leading from `s` to the goal.  With the rounded
arithmetic of the code the returned path can be longer by rounding, as it is on
the map `diagonal_rooms`. -/
theorem astar_path_shortest (rooms : Nat → Room ℝ) (s g : RoomID) (fuel : Nat)
    (p : List RoomID) (hv : valid_connections rooms) (hs : s < ROOM_COUNT)
    (h : astar_pathfinding fuel Real.sqrt rooms s g = some (some p))
    (q : List RoomID) (hq : is_route rooms s g q) :
    route_length Real.sqrt rooms p ≤ route_length Real.sqrt rooms q :=
  astar_found_least Real.sqrt rooms s g real_metric hv hs fuel p h q hq

theorem astar_path_shortest_witness :
    astar_pathfinding 11 Real.sqrt (line_rooms 10) 0 1 = some (some [0, 1]) ∧
    is_route (line_rooms (10 : ℝ)) 0 1 [0, 1, 0, 1] ∧
    route_length Real.sqrt (line_rooms 10) [0, 1] ≤
      route_length Real.sqrt (line_rooms 10) [0, 1, 0, 1] :=
  have hq : is_route (line_rooms (10 : ℝ)) 0 1 [0, 1, 0, 1] :=
    ⟨rfl, rfl, List.chain'_cons.2 ⟨line_rooms_forth 10, List.chain'_cons.2
      ⟨line_rooms_back 10, List.chain'_pair.2 (line_rooms_forth 10)⟩⟩⟩
  ⟨line_rooms_ten, hq,
    astar_path_shortest (line_rooms 10) 0 1 11 [0, 1] (line_rooms_valid 10) (by decide)
      line_rooms_ten [0, 1, 0, 1] hq⟩

/-- Claim C3, amended: in exact arithmetic (a `double` taken as a real number and
`sqrt` as the real square root) A* and Dijkstra agree.  On a map with valid
connections, for rooms `a` and `b` of the map, the Euclidean length of the path
returned by `astar_pathfinding(rooms, a, b)` equals `cost[b]` in the table filled
by `dijkstra_shortest_path(rooms, a, b)`; and when A* returns `false` instead,
that entry is still `INFINITY_COST`.  With the rounded arithmetic of the code the
two numbers can differ by rounding, as they do on the map `diagonal_rooms`. -/
theorem astar_dijkstra_agree (rooms : Nat → Room ℝ) (a b : RoomID) (fuel : Nat)
    (hv : valid_connections rooms) (ha : a < ROOM_COUNT) (hb : b < ROOM_COUNT) :
    (∀ p, astar_pathfinding fuel Real.sqrt rooms a b = some (some p) →
      route_length Real.sqrt rooms p = (dijkstra_shortest_path Real.sqrt rooms a b).cost b) ∧
    (astar_pathfinding fuel Real.sqrt rooms a b = some none →
      (dijkstra_shortest_path Real.sqrt rooms a b).cost b = INFINITY_COST) := by
  constructor
  · intro p h
    have hr := (astar_found_route Real.sqrt rooms a b fuel p h).1
    obtain ⟨st2, _, _, _, _, hp, hfin⟩ :=
      astar_found_state Real.sqrt rooms a b real_metric hv ha fuel p h
    obtain ⟨h1, p2, h2, h3⟩ := dijkstra_goal_cost Real.sqrt rooms a b real_metric hv ha hb p hr
      (by rw [hp]; exact hfin)
    have h4 := astar_found_least Real.sqrt rooms a b real_metric hv ha fuel p h p2 h2
    rw [h3] at h4
    exact le_antisymm h4 h1
  · intro h
    have hI := dijkstra_final_inv Real.sqrt rooms a b real_metric hv ha
    rcases hI.touched b with ⟨h1, _⟩ | h1
    · exact h1
    · obtain ⟨q, hq, hlen⟩ := route_of_attainable Real.sqrt rooms a b _ h1
      have := astar_none_far Real.sqrt rooms a b real_metric hv ha fuel h q hq
      rw [hlen] at this
      exact le_antisymm (hI.cost_le b) this

theorem astar_dijkstra_agree_witness :
    valid_connections (line_rooms (10 : ℝ)) ∧
    astar_pathfinding 11 Real.sqrt (line_rooms 10) 0 1 = some (some [0, 1]) ∧
    route_length Real.sqrt (line_rooms 10) [0, 1] =
      (dijkstra_shortest_path Real.sqrt (line_rooms 10) 0 1).cost 1 :=
  ⟨line_rooms_valid 10, line_rooms_ten,
    (astar_dijkstra_agree (line_rooms 10) 0 1 11 (line_rooms_valid 10) (by decide)
      (by decide)).1 [0, 1] line_rooms_ten⟩

/-- Claim C4: whenever `astar_pathfinding(rooms, start, goal)` returns `true`, the
returned sequence runs from `start` to `goal` inclusive: its first element is
`start`, its last element is `goal`, and it has exactly one element only if
`start == goal` (and then it does). -/
theorem astar_path_ends (rooms : Nat → Room ℝ) (s g : RoomID) (fuel : Nat)
    (p : List RoomID) (h : astar_pathfinding fuel Real.sqrt rooms s g = some (some p)) :
    p.head? = some s ∧ p.getLast? = some g ∧ (p.length = 1 ↔ s = g) := by
  obtain ⟨⟨h1, h2, _⟩, _, hlt⟩ := astar_found_route Real.sqrt rooms s g fuel p h
  refine ⟨h1, h2, ?_, ?_⟩
  · intro hlen
    match p, hlen with
    | [a], _ =>
      simp only [List.head?_cons, Option.some.injEq] at h1
      simp only [List.getLast?_singleton, Option.some.injEq] at h2
      rw [← h1, ← h2]
  · intro hsg
    subst hsg
    have hs : s < ROOM_COUNT := hlt s (List.mem_of_mem_head? h1)
    cases fuel with
    | zero => cases h
    | succ n =>
      rw [astar_same Real.sqrt real_metric rooms s hs n] at h
      simp only [Option.some.injEq] at h
      rw [← h]; rfl

theorem astar_path_ends_witness :
    astar_pathfinding 11 Real.sqrt (line_rooms 10) 0 1 = some (some [0, 1]) ∧
    [0, 1].head? = some 0 ∧ [0, 1].getLast? = some 1 ∧ (([0, 1] : List RoomID).length = 1 ↔
      (0 : RoomID) = 1) :=
  ⟨line_rooms_ten, astar_path_ends (line_rooms 10) 0 1 11 [0, 1] line_rooms_ten⟩

/-- Claim C5: whenever `astar_pathfinding` returns `true`, every consecutive pair
`(p[i], p[i+1])` of the returned path is a real passage of the graph: `p[i+1]` is
one of the four connections of `p[i]` and differs from `p[i]`, so no self-loop
"no exit" edge is ever used. -/
theorem astar_path_passages (rooms : Nat → Room ℝ) (s g : RoomID) (fuel : Nat)
    (p : List RoomID) (h : astar_pathfinding fuel Real.sqrt rooms s g = some (some p))
    (i : Nat) (hi : i + 1 < p.length) :
    p.getD (i + 1) 0 ≠ p.getD i 0 ∧
    ∃ dir, dir < DIR_COUNT ∧ (rooms (p.getD i 0)).connections dir = p.getD (i + 1) 0 := by
  obtain ⟨⟨_, _, h3⟩, _, _⟩ := astar_found_route Real.sqrt rooms s g fuel p h
  have := List.chain'_iff_get.1 h3 i (by omega)
  rw [List.getD_eq_getElem _ _ hi, List.getD_eq_getElem _ _ (by omega : i < p.length)]
  simpa [passage] using this

theorem astar_path_passages_witness :
    astar_pathfinding 11 Real.sqrt (line_rooms 10) 0 1 = some (some [0, 1]) ∧
    ([0, 1] : List RoomID).getD (0 + 1) 0 ≠ ([0, 1] : List RoomID).getD 0 0 ∧
    ∃ dir, dir < DIR_COUNT ∧
      (line_rooms (10 : ℝ) (([0, 1] : List RoomID).getD 0 0)).connections dir =
        ([0, 1] : List RoomID).getD (0 + 1) 0 :=
  ⟨line_rooms_ten,
    astar_path_passages (line_rooms 10) 0 1 11 [0, 1] line_rooms_ten 0 (by decide)⟩

/-- Claim C6: if the goal cannot be reached from the start by following only
non-self-loop connections, `astar_pathfinding(rooms, start, goal)` returns `false`
(within `ROOM_COUNT + 1` passes of its loop). -/
theorem astar_no_route (rooms : Nat → Room ℝ) (s g : RoomID) (fuel : Nat)
    (hf : ROOM_COUNT < fuel) (hun : ¬ ∃ q, is_route rooms s g q) :
    astar_pathfinding fuel Real.sqrt rooms s g = some none := by
  cases hres : astar_pathfinding fuel Real.sqrt rooms s g with
  | none => exact absurd hres (astar_not_starved Real.sqrt rooms s g fuel hf)
  | some r =>
    cases r with
    | none => rfl
    | some p => exact absurd ⟨p, (astar_found_route Real.sqrt rooms s g fuel p hres).1⟩ hun

theorem astar_no_route_witness :
    (¬ ∃ q, is_route (isolated_rooms : Nat → Room ℝ) 0 1 q) ∧
    astar_pathfinding 11 Real.sqrt isolated_rooms 0 1 = some none :=
  ⟨isolated_no_route 0 1 (by decide),
    astar_no_route isolated_rooms 0 1 11 (by decide) (isolated_no_route 0 1 (by decide))⟩

/-- Claim C8: in a graph in which distinct rooms `a` and `b` of the map lie at
`(0,0)` and `(10,0)`, every connection of `a` is `a` itself or `b`, and some
connection of `a` is `b`: `astar_pathfinding(rooms, a, b)` returns `true` with path
`[a, b]`, the total cost of that path is exactly 10, and
`dijkstra_shortest_path(rooms, a, b)` leaves `cost[b] == 10` with `parent[b] == a`. -/
theorem two_room_graph (rooms : Nat → Room ℝ) (a b : RoomID) (fuel : Nat)
    (ha : a < ROOM_COUNT) (hb : b < ROOM_COUNT) (hab : a ≠ b)
    (hax : (rooms a).coordinates.x = 0) (hay : (rooms a).coordinates.y = 0)
    (hbx : (rooms b).coordinates.x = 10) (hby : (rooms b).coordinates.y = 0)
    (hconn : ∀ d, d < DIR_COUNT →
      (rooms a).connections d = a ∨ (rooms a).connections d = b)
    (hedge : ∃ d, d < DIR_COUNT ∧ (rooms a).connections d = b) :
    astar_pathfinding (fuel + 2) Real.sqrt rooms a b = some (some [a, b]) ∧
    route_length Real.sqrt rooms [a, b] = 10 ∧
    (dijkstra_shortest_path Real.sqrt rooms a b).cost b = 10 ∧
    (dijkstra_shortest_path Real.sqrt rooms a b).parent b = (a : Int) := by
  have hd : edge_length Real.sqrt rooms a b = 10 := by
    simp only [edge_length, heuristic_distance, hax, hay, hbx, hby]
    have : ((0 : ℝ) - 10) * (0 - 10) + (0 - 0) * (0 - 0) = 10 * 10 := by norm_num
    rw [this, Real.sqrt_mul_self (by norm_num)]
  have hlt : edge_length Real.sqrt rooms a b < INFINITY_COST := by
    rw [hd]; norm_num [INFINITY_COST]
  obtain ⟨d1, d2, _, _⟩ := two_room_dijkstra Real.sqrt rooms a b ha hb hab hconn hedge hlt
  refine ⟨two_room_astar Real.sqrt real_metric rooms a b ha hb hab hconn hedge hlt fuel,
    ?_, ?_, d2⟩
  · simp only [route_length, add_zero]; exact hd
  · rw [d1, zero_add, hd]

theorem two_room_graph_witness :
    astar_pathfinding 2 Real.sqrt (line_rooms 10) 0 1 = some (some [0, 1]) ∧
    route_length Real.sqrt (line_rooms 10) [0, 1] = 10 ∧
    (dijkstra_shortest_path Real.sqrt (line_rooms 10) 0 1).cost 1 = 10 ∧
    (dijkstra_shortest_path Real.sqrt (line_rooms 10) 0 1).parent 1 = 0 :=
  two_room_graph (line_rooms 10) 0 1 0 (by decide) (by decide) (by decide) rfl rfl rfl rfl
    (fun d _ => line_rooms_only 10 d) ⟨2, by decide, rfl⟩

/-- Claim C9: Dijkstra produces optimal costs.  After
`dijkstra_shortest_path(rooms, start, goal)` on a map with valid connections, for
every room `n` that is marked visited, and for the goal when it is the node the
scan selects in the final table, `cost[n]` is the length of some sequence of
non-self-loop connections from `start` to `n` and is at most the length of every
such sequence. -/
theorem dijkstra_costs_least (rooms : Nat → Room ℝ) (s e n : RoomID)
    (hv : valid_connections rooms) (hs : s < ROOM_COUNT)
    (hn : (dijkstra_shortest_path Real.sqrt rooms s e).visited n = true ∨
      (n = e ∧ (dijkstra_select (dijkstra_shortest_path Real.sqrt rooms s e)).2 = (e : Int))) :
    (∃ p, is_route rooms s n p ∧
      route_length Real.sqrt rooms p = (dijkstra_shortest_path Real.sqrt rooms s e).cost n) ∧
    ∀ q, is_route rooms s n q →
      (dijkstra_shortest_path Real.sqrt rooms s e).cost n ≤ route_length Real.sqrt rooms q := by
  have hI := dijkstra_final_inv Real.sqrt rooms s e real_metric hv hs
  rcases hn with hn | ⟨hne, hsel⟩
  · refine ⟨route_of_attainable Real.sqrt rooms s n _
      (dijkstra_attained Real.sqrt rooms s e _ _ hI n (hI.visited_fin n hn)), ?_⟩
    intro q hq
    exact hI.best n hn _ (attainable_of_route Real.sqrt rooms s n q hq)
  · subst hne
    rcases dijkstra_select_cases (dijkstra_shortest_path Real.sqrt rooms s n)
      with ⟨h1, _⟩ | ⟨u, h1, _, _, hfin, hmin⟩
    · rw [h1] at hsel; omega
    · have hun : u = n := by rw [h1] at hsel; omega
      subst hun
      refine ⟨route_of_attainable Real.sqrt rooms s u _
        (dijkstra_attained Real.sqrt rooms s u _ _ hI u hfin), ?_⟩
      intro q hq
      exact dijkstra_selected_best Real.sqrt rooms s u real_metric hv hs _ hI u hmin _
        (attainable_of_route Real.sqrt rooms s u q hq)

theorem dijkstra_costs_least_witness :
    (dijkstra_shortest_path Real.sqrt (line_rooms 10) 0 1).visited 0 = true ∧
    ((∃ p, is_route (line_rooms (10 : ℝ)) 0 0 p ∧
      route_length Real.sqrt (line_rooms 10) p =
        (dijkstra_shortest_path Real.sqrt (line_rooms 10) 0 1).cost 0) ∧
    ∀ q, is_route (line_rooms (10 : ℝ)) 0 0 q →
      (dijkstra_shortest_path Real.sqrt (line_rooms 10) 0 1).cost 0 ≤
        route_length Real.sqrt (line_rooms 10) q) :=
  have hvis : (dijkstra_shortest_path Real.sqrt (line_rooms 10) 0 1).visited 0 = true :=
    (two_room_dijkstra Real.sqrt (line_rooms 10) 0 1 (by decide) (by decide) (by decide)
      (fun d _ => line_rooms_only 10 d) ⟨2, by decide, rfl⟩
      (by rw [line_rooms_length 10 (by norm_num)]; norm_num [INFINITY_COST])).2.2.1
  ⟨hvis, dijkstra_costs_least (line_rooms 10) 0 1 0 (line_rooms_valid 10) (by decide)
    (Or.inl hvis)⟩

/-- Claim C10: on a map with valid connections, every room `n` (the goal or any
other) that cannot be reached from `start` through non-self-loop connections still
reports no path after `dijkstra_shortest_path(rooms, start, goal)`:
`cost[n] == INFINITY_COST` and `parent[n] == -1`. -/
theorem dijkstra_no_route (rooms : Nat → Room ℝ) (s e n : RoomID)
    (hv : valid_connections rooms) (hs : s < ROOM_COUNT)
    (hun : ¬ ∃ q, is_route rooms s n q) :
    (dijkstra_shortest_path Real.sqrt rooms s e).cost n = INFINITY_COST ∧
    (dijkstra_shortest_path Real.sqrt rooms s e).parent n = -1 := by
  have hI := dijkstra_final_inv Real.sqrt rooms s e real_metric hv hs
  rcases hI.touched n with h1 | h1
  · exact h1
  · obtain ⟨q, hq, _⟩ := route_of_attainable Real.sqrt rooms s n _ h1
    exact absurd ⟨q, hq⟩ hun

theorem dijkstra_no_route_witness :
    (¬ ∃ q, is_route (isolated_rooms : Nat → Room ℝ) 0 1 q) ∧
    (dijkstra_shortest_path Real.sqrt isolated_rooms 0 1).cost 1 = INFINITY_COST ∧
    (dijkstra_shortest_path Real.sqrt isolated_rooms 0 1).parent 1 = -1 :=
  ⟨isolated_no_route 0 1 (by decide),
    dijkstra_no_route isolated_rooms 0 1 1 (fun _ hi _ _ => hi) (by decide)
      (isolated_no_route 0 1 (by decide))⟩

/-! ## Vehicle performance: the formulas -/

theorem rpow_third_cubed (y : ℝ) (hy : 0 ≤ y) : (y ^ ((1 : ℝ) / 3)) ^ 3 = y := by
  calc (y ^ ((1 : ℝ) / 3)) ^ 3 = (y ^ ((1 : ℝ) / 3)) ^ ((3 : ℕ) : ℝ) :=
        (Real.rpow_natCast _ 3).symm
    _ = y ^ (((1 : ℝ) / 3) * ((3 : ℕ) : ℝ)) := (Real.rpow_mul hy _ _).symm
    _ = y := by norm_num

/-- A cube root on the whole real line exists: the odd extension of `x ^ (1/3)`. -/
theorem signed_root_cubed (x : ℝ) :
    (if 0 ≤ x then x ^ ((1 : ℝ) / 3) else -((-x) ^ ((1 : ℝ) / 3))) ^ 3 = x := by
  by_cases hx : 0 ≤ x
  · rw [if_pos hx]; exact rpow_third_cubed x hx
  · rw [if_neg hx]
    have h := rpow_third_cubed (-x) (by linarith)
    have : (-((-x) ^ ((1 : ℝ) / 3))) ^ 3 = -(((-x) ^ ((1 : ℝ) / 3)) ^ 3) := by ring
    rw [this, h]; ring

/-- Claim C14: for every vehicle, whatever its attributes,
`calculate_drag_force(v, 0) == 0`, and in general `calculate_drag_force(v, velocity)`
is `0.5 * 1.225 * Cd * frontal_area * velocity²`. -/
theorem drag_force_formula (v : Vehicle ℝ) (velocity : ℝ) :
    calculate_drag_force v 0 = 0 ∧
    calculate_drag_force v velocity =
      0.5 * 1.225 * v.drag_coefficient * v.frontal_area * velocity ^ 2 := by
  constructor
  · simp [calculate_drag_force]
  · simp only [calculate_drag_force, AIR_DENSITY]
    ring

/-- Claim C16: for every vehicle `v` and every initial speed `s`,
`calculate_braking_distance(v, s)` is `s² / (2 * 0.8 * 9.81)`; it is `0` at `s == 0`
and the same for every vehicle, so no vehicle attribute (mass included) has any
influence on it. -/
theorem braking_distance_formula (v : Vehicle ℝ) (s : ℝ) :
    calculate_braking_distance v s = s ^ 2 / (2 * 0.8 * 9.81) ∧
    calculate_braking_distance v 0 = 0 ∧
    ∀ w : Vehicle ℝ, calculate_braking_distance w s = calculate_braking_distance v s := by
  refine ⟨?_, ?_, fun w => rfl⟩
  · simp only [calculate_braking_distance, GRAVITY]
    norm_num
    ring
  · simp [calculate_braking_distance]

/-- Claim C17: for every vehicle with positive mass, engine power and acceleration
rating and every target speed, `calculate_acceleration_time(v, target)` is
`target / (acceleration * (engine_power / 100) / (mass / 1000))`, which is
`target * mass / (10 * acceleration * engine_power)`; for the built-in "Lightning GT"
(mass 1400, power 450, acceleration 12) and target 26.8 this is
`26.8 * 1400 / (10 * 12 * 450)`, which is 0.6948 to four decimals. -/
theorem acceleration_time_formula (v : Vehicle ℝ) (target : ℝ) (hm : 0 < v.mass)
    (hp : 0 < v.engine_power) (ha : 0 < v.acceleration) :
    calculate_acceleration_time v target =
      target / (v.acceleration * (v.engine_power / 100) / (v.mass / 1000)) ∧
    calculate_acceleration_time v target =
      target * v.mass / (10 * v.acceleration * v.engine_power) ∧
    (v = lightning_gt → target = 26.8 →
      calculate_acceleration_time v target = 26.8 * 1400 / (10 * 12 * 450) ∧
      |calculate_acceleration_time v target - 0.6948| < 0.00005) := by
  have h2 : calculate_acceleration_time v target =
      target * v.mass / (10 * v.acceleration * v.engine_power) := by
    simp only [calculate_acceleration_time]
    have hm2 := hm.ne'
    have hp2 := hp.ne'
    have ha2 := ha.ne'
    field_simp
    ring
  refine ⟨?_, h2, ?_⟩
  · simp only [calculate_acceleration_time]
    norm_num
  · intro hv ht
    rw [h2, hv, ht]
    constructor
    · norm_num [lightning_gt]
    · rw [abs_lt]
      constructor <;> norm_num [lightning_gt]

theorem acceleration_time_formula_witness :
    calculate_acceleration_time (lightning_gt : Vehicle ℝ) 26.8 =
      26.8 * 1400 / (10 * 12 * 450) ∧
    |calculate_acceleration_time (lightning_gt : Vehicle ℝ) 26.8 - 0.6948| < 0.00005 :=
  (acceleration_time_formula lightning_gt 26.8 (by norm_num [lightning_gt])
    (by norm_num [lightning_gt]) (by norm_num [lightning_gt])).2.2 rfl rfl

/-- Claim C18: for every vehicle with `max_speed` `m > 0`, track length `L` and turn
count `t`, `calculate_lap_time(v, L, t)` is
`(50*t) / (0.6*m) + (L - 50*t) / (0.9*m) + 1.5*t`; for `m = 95`, `L = 5000`, `t = 12`
this is `600/57 + 4400/85.5 + 18` seconds. -/
theorem lap_time_formula (v : Vehicle ℝ) (L : ℝ) (t : Int) (hm : 0 < v.max_speed) :
    calculate_lap_time v L t =
      (50 * (t : ℝ)) / (0.6 * v.max_speed) + (L - 50 * (t : ℝ)) / (0.9 * v.max_speed) +
        1.5 * (t : ℝ) ∧
    (v.max_speed = 95 → L = 5000 → t = 12 →
      calculate_lap_time v L t = 600 / 57 + 4400 / 85.5 + 18) := by
  have hm2 := hm.ne'
  constructor
  · simp only [calculate_lap_time]
    field_simp
    ring
  · intro hv hL ht
    simp only [calculate_lap_time, hv, hL, ht]
    norm_num

theorem lap_time_formula_witness :
    (0 : ℝ) < (lightning_gt : Vehicle ℝ).max_speed ∧
    calculate_lap_time (lightning_gt : Vehicle ℝ) 5000 12 = 600 / 57 + 4400 / 85.5 + 18 :=
  have hm : (0 : ℝ) < (lightning_gt : Vehicle ℝ).max_speed := by norm_num [lightning_gt]
  ⟨hm, (lap_time_formula lightning_gt 5000 12 hm).2 (by norm_num [lightning_gt]) rfl rfl⟩

/-- Claim C19 fails as stated: for a vehicle record with negative mass and negative
drag coefficient, `calculate_acceleration_time` hands back the number `-10` and
`calculate_terminal_velocity` the real cube root of a negative number; the return
type `double` has no error value. -/
theorem unphysical_vehicle_gets_numbers :
    (unphysical_vehicle : Vehicle ℝ).mass < 0 ∧
    (unphysical_vehicle : Vehicle ℝ).drag_coefficient < 0 ∧
    calculate_acceleration_time (unphysical_vehicle : Vehicle ℝ) 10 = -10 ∧
    calculate_terminal_velocity
        (fun x : ℝ => if 0 ≤ x then x ^ ((1 : ℝ) / 3) else -((-x) ^ ((1 : ℝ) / 3)))
        (unphysical_vehicle : Vehicle ℝ) ^ 3 = -(74570 / 0.6125) := by
  refine ⟨by norm_num [unphysical_vehicle], by norm_num [unphysical_vehicle], ?_, ?_⟩
  · norm_num [calculate_acceleration_time, unphysical_vehicle]
  · simp only [calculate_terminal_velocity]
    rw [signed_root_cubed]
    norm_num [unphysical_vehicle, AIR_DENSITY]

/-- Claim C19, amended: a performance function called with a non-physical input
performs no validation and returns the number its formula gives.  For nonzero
(possibly negative) mass, engine power and acceleration rating,
`calculate_acceleration_time` returns the time that, multiplied by the effective
acceleration, gives the target speed, that is `target * mass / (10 * acceleration *
engine_power)`; for nonzero drag coefficient and frontal area,
`calculate_terminal_velocity` returns the real number whose cube times
`0.5 * 1.225 * Cd * frontal_area` is `engine_power * 745.7`. -/
theorem performance_unvalidated (cbrt : ℝ → ℝ) (hcbrt : ∀ x : ℝ, cbrt x ^ 3 = x)
    (v : Vehicle ℝ) (target : ℝ) (hm : v.mass ≠ 0) (hp : v.engine_power ≠ 0)
    (ha : v.acceleration ≠ 0) (hc : v.drag_coefficient ≠ 0) (hf : v.frontal_area ≠ 0) :
    calculate_acceleration_time v target *
        (v.acceleration * (v.engine_power / 100) / (v.mass / 1000)) = target ∧
    calculate_acceleration_time v target =
      target * v.mass / (10 * v.acceleration * v.engine_power) ∧
    calculate_terminal_velocity cbrt v ^ 3 *
        (0.5 * 1.225 * v.drag_coefficient * v.frontal_area) = v.engine_power * 745.7 := by
  refine ⟨?_, ?_, ?_⟩
  · simp only [calculate_acceleration_time]
    field_simp
    norm_num
    ring
  · simp only [calculate_acceleration_time]
    field_simp
    ring
  · simp only [calculate_terminal_velocity, hcbrt, AIR_DENSITY]
    field_simp

theorem performance_unvalidated_witness :
    (unphysical_vehicle : Vehicle ℝ).mass ≠ 0 ∧
    calculate_acceleration_time (unphysical_vehicle : Vehicle ℝ) 10 =
      10 * (unphysical_vehicle : Vehicle ℝ).mass /
        (10 * (unphysical_vehicle : Vehicle ℝ).acceleration *
          (unphysical_vehicle : Vehicle ℝ).engine_power) :=
  ⟨by norm_num [unphysical_vehicle],
    (performance_unvalidated _ signed_root_cubed unphysical_vehicle 10
      (by norm_num [unphysical_vehicle]) (by norm_num [unphysical_vehicle])
      (by norm_num [unphysical_vehicle]) (by norm_num [unphysical_vehicle])
      (by norm_num [unphysical_vehicle])).2.1⟩

/-! ## Ids outside the map -/

section
variable {α : Type} [LinearOrderedField α]

theorem stray_astar_fold (sqrt : α → α) (hm : MetricLike sqrt) (rooms : Nat → Room α)
    (a b : RoomID) (hab : a ≠ b)
    (hconn : ∀ d, d < DIR_COUNT → (rooms a).connections d = a ∨
      (rooms a).connections d = b ∨ ROOM_COUNT ≤ (rooms a).connections d)
    (hlt : edge_length sqrt rooms a b < INFINITY_COST) :
    ∀ (dirs : List Nat) (st : AStarState α), (∀ d ∈ dirs, d < DIR_COUNT) →
      StrayAStar a b st → st.g_score a = 0 →
      StrayAStar a b (dirs.foldl (astar_neighbor sqrt rooms b a) st) ∧
      (dirs.foldl (astar_neighbor sqrt rooms b a) st).g_score a = 0 ∧
      ((st.open_set b = true ∨ ∃ d ∈ dirs, (rooms a).connections d = b) →
        (dirs.foldl (astar_neighbor sqrt rooms b a) st).open_set b = true) := by
  intro dirs
  induction dirs with
  | nil =>
    intro st _ h hg
    refine ⟨h, hg, ?_⟩
    rintro (h1 | ⟨d, hd, _⟩)
    · exact h1
    · exact absurd hd (List.not_mem_nil d)
  | cons d t ih =>
    intro st hd h hg
    have hdlt := hd d (List.mem_cons_self _ _)
    have hnc : st.closed_set b = false := by
      cases hc : st.closed_set b
      · rfl
      · exact absurd ((h.closed_iff b).1 hc).symm hab
    have step : StrayAStar a b (astar_neighbor sqrt rooms b a st d) ∧
        (astar_neighbor sqrt rooms b a st d).g_score a = 0 ∧
        ((st.open_set b = true ∨ (rooms a).connections d = b) →
          (astar_neighbor sqrt rooms b a st d).open_set b = true) := by
      rcases astar_neighbor_cases sqrt rooms b a st d with ⟨h1, h2⟩ | ⟨h1, _, _, h4⟩
      · rw [h1]
        refine ⟨h, hg, ?_⟩
        rintro (h3 | h3)
        · exact h3
        · rw [h3] at h2
          rcases h2 with h2 | h2 | ⟨h2, _⟩
          · exact absurd h2.symm hab
          · rw [hnc] at h2; cases h2
          · exact h2
      · rw [h4]
        by_cases hx : (rooms a).connections d = b
        · rw [hx]
          refine ⟨⟨h.closed_iff, ?_, ?_, ?_⟩, ?_, fun _ => ?_⟩
          · intro v hv
            simp only [astar_record] at hv
            by_cases hvb : v = b
            · exact Or.inl hvb
            · rw [Function.update_noteq hvb] at hv
              exact h.open_only v hv
          · simp only [astar_record]
            rw [Function.update_noteq hab]; exact h.from_start
          · intro _
            simp only [astar_record]
            rw [Function.update_same, Function.update_same, hg, hm.self_zero]
            refine ⟨rfl, ?_⟩
            simpa using hlt
          · simp only [astar_record]
            rw [Function.update_noteq hab]; exact hg
          · simp only [astar_record]
            exact Function.update_same _ _ _
        · have hfar : ROOM_COUNT ≤ (rooms a).connections d := by
            rcases hconn d hdlt with h5 | h5 | h5
            · exact absurd h5 h1
            · exact absurd h5 hx
            · exact h5
          have hxa : a ≠ (rooms a).connections d := Ne.symm h1
          have hxb : b ≠ (rooms a).connections d := Ne.symm hx
          refine ⟨⟨h.closed_iff, ?_, ?_, ?_⟩, ?_, ?_⟩
          · intro v hv
            simp only [astar_record] at hv
            by_cases hvx : v = (rooms a).connections d
            · right; rw [hvx]; exact hfar
            · rw [Function.update_noteq hvx] at hv
              exact h.open_only v hv
          · simp only [astar_record]
            rw [Function.update_noteq hxa]; exact h.from_start
          · intro ho
            simp only [astar_record] at ho ⊢
            rw [Function.update_noteq hxb] at ho
            rw [Function.update_noteq hxb, Function.update_noteq hxb]
            exact h.opened ho
          · simp only [astar_record]
            rw [Function.update_noteq hxa]; exact hg
          · rintro (h3 | h3)
            · simp only [astar_record]
              rw [Function.update_noteq hxb]; exact h3
            · exact absurd h3 hx
    obtain ⟨s1, s2, s3⟩ := step
    obtain ⟨b1, b2, b3⟩ := ih (astar_neighbor sqrt rooms b a st d)
      (fun d2 hd2 => hd d2 (List.mem_cons_of_mem _ hd2)) s1 s2
    simp only [List.foldl_cons]
    refine ⟨b1, b2, ?_⟩
    rintro (h1 | ⟨d2, hd2, hx⟩)
    · exact b3 (Or.inl (s3 (Or.inl h1)))
    · rcases List.mem_cons.1 hd2 with rfl | hd2
      · exact b3 (Or.inl (s3 (Or.inr hx)))
      · exact b3 (Or.inr ⟨d2, hd2, hx⟩)

/-- Two distinct rooms of the map, the first of which leads to the second and
otherwise only to itself or to ids outside the map: A* answers with the two-room
path. -/
theorem stray_astar (sqrt : α → α) (hm : MetricLike sqrt) (rooms : Nat → Room α)
    (a b : RoomID) (ha : a < ROOM_COUNT) (hb : b < ROOM_COUNT) (hab : a ≠ b)
    (hconn : ∀ d, d < DIR_COUNT → (rooms a).connections d = a ∨
      (rooms a).connections d = b ∨ ROOM_COUNT ≤ (rooms a).connections d)
    (hedge : ∃ d, d < DIR_COUNT ∧ (rooms a).connections d = b)
    (hlt : edge_length sqrt rooms a b < INFINITY_COST) (fuel : Nat) :
    astar_pathfinding (fuel + 2) sqrt rooms a b = some (some [a, b]) := by
  have hopen : ∀ v, (astar_init sqrt rooms a b).open_set v = true → v = a := by
    intro v hv
    by_contra hne
    simp [astar_init, Function.update_noteq hne] at hv
  have hsel0 : (astar_select (astar_init sqrt rooms a b)).2 = (a : Int) := by
    rcases astar_select_cases (astar_init sqrt rooms a b) with ⟨_, h2⟩ | ⟨u, h1, _, ho, _⟩
    · have := h2 a ha (by simp [astar_init])
      simp only [astar_init, Function.update_same] at this
      exact absurd hlt (not_lt.2 this)
    · rw [h1, hopen u ho]
  have key := stray_astar_fold sqrt hm rooms a b hab hconn hlt
    (List.range DIR_COUNT)
    { astar_init sqrt rooms a b with
      open_set := Function.update (astar_init sqrt rooms a b).open_set a false
      closed_set := Function.update (astar_init sqrt rooms a b).closed_set a true }
    (fun d hd => List.mem_range.1 hd)
    ⟨(by
        intro v
        simp only [astar_init]
        by_cases hva : v = a
        · subst hva; simp
        · simp [Function.update_noteq hva, hva]),
      (by
        intro v hv
        simp only [astar_init] at hv
        by_cases hva : v = a
        · rw [hva, Function.update_same] at hv; cases hv
        · rw [Function.update_noteq hva, Function.update_noteq hva] at hv; cases hv),
      rfl,
      (by
        intro h
        simp only [astar_init] at h
        rw [Function.update_noteq (Ne.symm hab), Function.update_noteq (Ne.symm hab)] at h
        cases h)⟩
    (by simp [astar_init])
  have e1 : StrayAStar a b (astar_expand sqrt rooms b a (astar_init sqrt rooms a b)) :=
    key.1
  have hob : (astar_expand sqrt rooms b a (astar_init sqrt rooms a b)).open_set b = true :=
    key.2.2 (Or.inr (by
      obtain ⟨d, hd, hx⟩ := hedge
      exact ⟨d, List.mem_range.2 hd, hx⟩))
  have hsel1 : (astar_select (astar_expand sqrt rooms b a (astar_init sqrt rooms a b))).2 =
      (b : Int) := by
    rcases astar_select_cases (astar_expand sqrt rooms b a (astar_init sqrt rooms a b))
      with ⟨_, h2⟩ | ⟨u, h1, hu, ho, _⟩
    · have := h2 b hb hob
      exact absurd (e1.opened hob).2 (not_lt.2 this)
    · rcases e1.open_only u ho with h5 | h5
      · rw [h1, h5]
      · exact absurd hu (not_lt.2 h5)
  have hrec : astar_reconstruct
      (astar_expand sqrt rooms b a (astar_init sqrt rooms a b)).came_from b = [a, b] := by
    rw [astar_reconstruct_chain _ b [a]
      (by
        simp only [back_chain]
        exact ⟨(e1.opened hob).1, e1.from_start⟩)
      (by simp [MAX_PATH_LENGTH])]
    rfl
  have hab2 : @Ne Nat a b := hab
  have n1 : ¬ ((a : Int) = -1) := by omega
  have n2 : ¬ ((a : Int) = (b : Int)) := by omega
  have n3 : ¬ ((b : Int) = -1) := by omega
  simp only [astar_pathfinding, astar_loop, hsel0, if_neg n1, if_neg n2, Int.toNat_ofNat,
    hsel1, if_neg n3, if_true, hrec]

/-- A path A* returns holds rooms of the map only, so with a start or a goal that
is not below `ROOM_COUNT` the answer is `false`. -/
theorem astar_outside_false (sqrt : α → α) (rooms : Nat → Room α) (s g : RoomID)
    (fuel : Nat) (hf : ROOM_COUNT < fuel) (h : ROOM_COUNT ≤ s ∨ ROOM_COUNT ≤ g) :
    astar_pathfinding fuel sqrt rooms s g = some none := by
  cases hres : astar_pathfinding fuel sqrt rooms s g with
  | none => exact absurd hres (astar_not_starved sqrt rooms s g fuel hf)
  | some r =>
    cases r with
    | none => rfl
    | some p =>
      exfalso
      obtain ⟨⟨h1, h2, _⟩, _, hlt⟩ := astar_found_route sqrt rooms s g fuel p hres
      rcases h with h | h
      · exact absurd (hlt s (List.mem_of_mem_head? h1)) (not_lt.2 h)
      · exact absurd (hlt g (List.mem_of_getLast?_eq_some h2)) (not_lt.2 h)

/-- With a start that is not below `ROOM_COUNT`, the scan of Dijkstra finds no room
and the table stays as initialised. -/
theorem dijkstra_outside_init (sqrt : α → α) (rooms : Nat → Room α) (s e : RoomID)
    (h : ROOM_COUNT ≤ s) :
    dijkstra_shortest_path sqrt rooms s e = dijkstra_init s := by
  have hsel : (dijkstra_select (dijkstra_init s : PathfindingState α)).2 = -1 := by
    rcases dijkstra_select_cases (dijkstra_init s : PathfindingState α)
      with ⟨h1, _⟩ | ⟨u, _, hu, _, hfin, _⟩
    · exact h1
    · have hus : u ≠ s := by
        have h2 : @LE.le Nat _ ROOM_COUNT s := h
        intro hc
        rw [hc] at hu
        omega
      simp only [dijkstra_init, Function.update_noteq hus] at hfin
      exact absurd hfin (lt_irrefl _)
  simp only [dijkstra_shortest_path, ROOM_COUNT, dijkstra_loop, hsel, true_or, if_true]

end

theorem stray_rooms_found :
    astar_pathfinding 11 Real.sqrt stray_rooms 0 1 = some (some [0, 1]) := by
  have hlen : edge_length Real.sqrt (stray_rooms : Nat → Room ℝ) 0 1 = 10 := by
    have : ((0 : ℝ) - 10) * (0 - 10) + (0 - 0) * (0 - 0) = 10 * 10 := by norm_num
    simp only [edge_length, heuristic_distance, stray_rooms]
    simp only [if_true, if_false, one_ne_zero]
    rw [this, Real.sqrt_mul_self (by norm_num)]
  refine stray_astar Real.sqrt real_metric stray_rooms 0 1 (by decide) (by decide) (by decide)
    ?_ ⟨2, by decide, rfl⟩ (by rw [hlen]; norm_num [INFINITY_COST]) 9
  intro d _
  by_cases h0 : d = 0
  · right; right; simp [stray_rooms, h0, ROOM_COUNT]
  · by_cases h2 : d = 2
    · right; left; simp [stray_rooms, h2]
    · left; simp [stray_rooms, h0, h2]

/-- Claim C20 fails as stated: the id 15 is not below `ROOM_COUNT`, yet a map whose
room 0 has 15 as a connection is searched with success, a search from 15 or to 15
answers `false` exactly as for "no path", and both routines have by then used
index 15: A* has computed `f_score[15]` from `rooms[15].coordinates` and Dijkstra has
set `cost[15] = 0`. -/
theorem out_of_range_ids_accepted :
    ROOM_COUNT ≤ 15 ∧
    ((stray_rooms : Nat → Room ℝ) 0).connections 0 = 15 ∧
    astar_pathfinding 11 Real.sqrt stray_rooms 0 1 = some (some [0, 1]) ∧
    astar_pathfinding 11 Real.sqrt (line_rooms 10) 15 1 = some none ∧
    astar_pathfinding 11 Real.sqrt (line_rooms 10) 0 15 = some none ∧
    (astar_init Real.sqrt (line_rooms 10) 15 1).f_score 15 = 10 ∧
    (dijkstra_shortest_path Real.sqrt (line_rooms 10) 15 1).cost 15 = 0 := by
  refine ⟨by decide, rfl, stray_rooms_found, ?_, ?_, ?_, ?_⟩
  · exact astar_outside_false Real.sqrt (line_rooms 10) 15 1 11 (by decide) (Or.inl (by decide))
  · exact astar_outside_false Real.sqrt (line_rooms 10) 0 15 11 (by decide) (Or.inr (by decide))
  · have : (100 : ℝ) = 10 * 10 := by norm_num
    simp only [astar_init, Function.update_same, heuristic_distance, line_rooms]
    norm_num
    rw [this, Real.sqrt_mul_self (by norm_num)]
  · rw [dijkstra_outside_init Real.sqrt (line_rooms 10) 15 1 (by decide)]
    simp [dijkstra_init]

/-- Claim C20, amended: neither search routine checks an id against the room
count.  With a start or goal id that is not below `ROOM_COUNT`, `astar_pathfinding`
computes the start's `f_score` from `rooms[start]` and `rooms[end]` and returns
`false`, the answer it also gives when there is no path, and
`dijkstra_shortest_path` with such a start returns the initial table with
`cost[start] == 0`.  A connection id that is not below `ROOM_COUNT` is not rejected
either: when every connection of the start is the start itself, the goal or such an
id, and one of them is the goal, less than `INFINITY_COST` away, `astar_pathfinding`
returns `[start, goal]`. -/
theorem out_of_range_ids_unchecked (rooms : Nat → Room ℝ) (s g : RoomID) (fuel : Nat)
    (hf : ROOM_COUNT < fuel) :
    (astar_init Real.sqrt rooms s g).f_score s =
      heuristic_distance Real.sqrt (rooms s).coordinates (rooms g).coordinates ∧
    (ROOM_COUNT ≤ s ∨ ROOM_COUNT ≤ g →
      astar_pathfinding fuel Real.sqrt rooms s g = some none) ∧
    (ROOM_COUNT ≤ s →
      dijkstra_shortest_path Real.sqrt rooms s g = dijkstra_init s ∧
      (dijkstra_shortest_path Real.sqrt rooms s g).cost s = 0) ∧
    (s < ROOM_COUNT → g < ROOM_COUNT → s ≠ g →
      (∀ d, d < DIR_COUNT → (rooms s).connections d = s ∨ (rooms s).connections d = g ∨
        ROOM_COUNT ≤ (rooms s).connections d) →
      (∃ d, d < DIR_COUNT ∧ (rooms s).connections d = g) →
      edge_length Real.sqrt rooms s g < INFINITY_COST →
      astar_pathfinding fuel Real.sqrt rooms s g = some (some [s, g])) := by
  refine ⟨by simp [astar_init], ?_, ?_, ?_⟩
  · exact astar_outside_false Real.sqrt rooms s g fuel hf
  · intro h
    have := dijkstra_outside_init Real.sqrt rooms s g h
    refine ⟨this, ?_⟩
    rw [this]
    simp [dijkstra_init]
  · intro hs hg hsg hconn hedge hlt
    obtain ⟨k, rfl⟩ : ∃ k, fuel = k + 2 := ⟨fuel - 2, by
      simp only [ROOM_COUNT] at hf; omega⟩
    exact stray_astar Real.sqrt real_metric rooms s g hs hg hsg hconn hedge hlt k

theorem out_of_range_ids_unchecked_witness :
    ROOM_COUNT < 11 ∧ ROOM_COUNT ≤ 15 ∧
    astar_pathfinding 11 Real.sqrt (line_rooms 10) 15 1 = some none :=
  ⟨by decide, by decide,
    (out_of_range_ids_unchecked (line_rooms 10) 15 1 11 (by decide)).2.1
      (Or.inl (by decide))⟩

/-! ## Dijkstra: the goal is never marked -/

section
variable {α : Type} [LinearOrderedField α]

theorem dijkstra_relax_visited (sqrt : α → α) (rooms : Nat → Room α) (u : RoomID)
    (st : PathfindingState α) (dir : Nat) :
    (dijkstra_relax sqrt rooms u st dir).visited = st.visited := by
  unfold dijkstra_relax
  simp only
  split_ifs <;> rfl

theorem dijkstra_visit_visited (sqrt : α → α) (rooms : Nat → Room α) (u : RoomID)
    (st : PathfindingState α) :
    (dijkstra_visit sqrt rooms u st).visited = Function.update st.visited u true := by
  unfold dijkstra_visit
  have key : ∀ (l : List Nat) (s0 : PathfindingState α),
      (l.foldl (dijkstra_relax sqrt rooms u) s0).visited = s0.visited := by
    intro l
    induction l with
    | nil => intro s0; rfl
    | cons d t ih =>
      intro s0
      rw [List.foldl_cons, ih, dijkstra_relax_visited]
  rw [key]

theorem dijkstra_loop_goal (sqrt : α → α) (rooms : Nat → Room α) (e : RoomID) :
    ∀ (n : Nat) (st : PathfindingState α), st.visited e = false →
      (dijkstra_loop sqrt rooms e n st).visited e = false := by
  intro n
  induction n with
  | zero => intro st h; simpa [dijkstra_loop] using h
  | succ n ih =>
    intro st h
    rw [dijkstra_loop]
    split_ifs with hc
    · exact h
    · rcases dijkstra_select_cases st with ⟨h1, _⟩ | ⟨u, h1, _⟩
      · exact absurd (Or.inl h1) hc
      · apply ih
        rw [dijkstra_visit_visited, h1, Int.toNat_ofNat]
        have hne : e ≠ u := by
          intro he
          apply hc
          right
          rw [h1, he]
        rw [Function.update_noteq hne]
        exact h

theorem dijkstra_same_init (sqrt : α → α) (rooms : Nat → Room α) (s : RoomID) :
    dijkstra_shortest_path sqrt rooms s s = dijkstra_init s := by
  unfold dijkstra_shortest_path
  have hR : ROOM_COUNT = 9 + 1 := rfl
  rw [hR, dijkstra_loop]
  rcases dijkstra_select_cases (dijkstra_init (α := α) s) with ⟨h1, _⟩ | ⟨u, h1, _, _, hc, _⟩
  · rw [if_pos (Or.inl h1)]
  · have hu : u = s := by
      by_contra hne
      simp only [dijkstra_init, Function.update_noteq hne] at hc
      exact lt_irrefl _ hc
    rw [if_pos (Or.inr (by rw [h1, hu]))]

end

/-- Claim C29: for every input, `visited[end]` is false in the table that
`dijkstra_shortest_path` leaves; and with `start == end` the table is the initial
one, in which `cost[start]` is 0, every other cost is `INFINITY_COST`, every
parent is `-1` and no room is visited. -/
theorem dijkstra_goal_never_visited {α : Type} [LinearOrderedField α] (sqrt : α → α)
    (rooms : Nat → Room α) (start end_ : RoomID) :
    (dijkstra_shortest_path sqrt rooms start end_).visited end_ = false ∧
    dijkstra_shortest_path sqrt rooms start start = dijkstra_init start ∧
    (dijkstra_shortest_path sqrt rooms start start).cost start = 0 ∧
    (∀ v, v ≠ start →
      (dijkstra_shortest_path sqrt rooms start start).cost v = INFINITY_COST) ∧
    (∀ v, (dijkstra_shortest_path sqrt rooms start start).parent v = -1 ∧
      (dijkstra_shortest_path sqrt rooms start start).visited v = false) := by
  refine ⟨dijkstra_loop_goal sqrt rooms end_ ROOM_COUNT _ rfl,
    dijkstra_same_init sqrt rooms start, ?_, ?_, ?_⟩
  · rw [dijkstra_same_init]; simp [dijkstra_init]
  · intro v hv
    rw [dijkstra_same_init]; simp [dijkstra_init, Function.update_noteq hv]
  · intro v
    rw [dijkstra_same_init]; exact ⟨rfl, rfl⟩

/-! ## Lap time: sign and dependence on the top speed -/

section
variable {α : Type} [LinearOrderedField α]

theorem scan_fold_first (P : Nat → Prop) [DecidablePred P] (key : Nat → α) (m : α) (c : Int)
    (u : Nat) (hP : P u) (hm : key u < m) (hlt : ∀ i, i < u → P i → key u < key i)
    (hle : ∀ i, P i → key u ≤ key i) :
    ∀ n, (n ≤ u → key u < ((List.range n).foldl (fun (acc : α × Int) (i : Nat) =>
          if P i ∧ key i < acc.1 then (key i, (i : Int)) else acc) (m, c)).1) ∧
      (u < n → (List.range n).foldl (fun (acc : α × Int) (i : Nat) =>
          if P i ∧ key i < acc.1 then (key i, (i : Int)) else acc) (m, c) = (key u, (u : Int))) := by
  intro n
  induction n with
  | zero =>
    refine ⟨fun _ => ?_, fun h => absurd h (Nat.not_lt_zero u)⟩
    simpa using hm
  | succ n ih =>
    rw [List.range_succ, List.foldl_append]
    simp only [List.foldl_cons, List.foldl_nil]
    constructor
    · intro hn
      have h1 := ih.1 (by omega)
      split_ifs with hc
      · exact hlt n (by omega) hc.1
      · exact h1
    · intro hn
      by_cases hun : u = n
      · subst hun
        have h1 := ih.1 (le_refl u)
        rw [if_pos ⟨hP, h1⟩]
      · have h1 := ih.2 (by omega)
        rw [h1, if_neg]
        rintro ⟨h2, h3⟩
        exact absurd h3 (not_lt.2 (hle n h2))

theorem astar_select_first (st : AStarState α) (u : Nat) (hu : u < ROOM_COUNT)
    (ho : st.open_set u = true) (hf : st.f_score u < INFINITY_COST)
    (hlt : ∀ i, i < u → st.open_set i = true → st.f_score u < st.f_score i)
    (hle : ∀ i, st.open_set i = true → st.f_score u ≤ st.f_score i) :
    (astar_select st).2 = (u : Int) := by
  unfold astar_select
  rw [(scan_fold_first (fun i => st.open_set i = true) st.f_score INFINITY_COST (-1) u ho hf
    hlt hle ROOM_COUNT).2 hu]

theorem dijkstra_select_first (st : PathfindingState α) (u : Nat) (hu : u < ROOM_COUNT)
    (ho : st.visited u = false) (hf : st.cost u < INFINITY_COST)
    (hlt : ∀ i, i < u → st.visited i = false → st.cost u < st.cost i)
    (hle : ∀ i, st.visited i = false → st.cost u ≤ st.cost i) :
    (dijkstra_select st).2 = (u : Int) := by
  unfold dijkstra_select
  rw [(scan_fold_first (fun i => st.visited i = false) st.cost INFINITY_COST (-1) u ho hf
    hlt hle ROOM_COUNT).2 hu]

end

/-! ## A*: every pass closes a room -/

section
variable {α : Type} [LinearOrderedField α]

theorem astar_loop_more (sqrt : α → α) (rooms : Nat → Room α) (e : RoomID)
    (r : Option (List RoomID)) :
    ∀ (fuel k : Nat) (st : AStarState α), astar_loop sqrt rooms e fuel st = some r →
      astar_loop sqrt rooms e (fuel + k) st = some r := by
  intro fuel
  induction fuel with
  | zero => intro k st h; rw [astar_loop] at h; cases h
  | succ n ih =>
    intro k st h
    have hk : n + 1 + k = (n + k) + 1 := by omega
    rw [hk]
    rw [astar_loop] at h ⊢
    split_ifs at h ⊢ with h1 h2
    · exact h
    · exact h
    · exact ih k _ h

theorem astar_reached_chains (sqrt : α → α) (rooms : Nat → Room α) (s e : RoomID)
    (st : AStarState α) (h : AStarReached sqrt rooms s e st) : AStarChains sqrt rooms s st := by
  induction h with
  | init => exact AStarChains_init sqrt rooms s e
  | @step st0 u _ hsel _ ih =>
    rcases astar_select_cases st0 with ⟨h1, _⟩ | ⟨w, h1, hw, ho, _⟩
    · rw [h1] at hsel; omega
    · have : w = u := by rw [h1] at hsel; omega
      subst this
      exact (AStarChains_expand sqrt rooms s e w st0 ih ho hw).1

theorem astar_reached_final (sqrt : α → α) (rooms : Nat → Room α) (s e : RoomID) (fuel : Nat)
    (p : List RoomID) (h : astar_pathfinding fuel sqrt rooms s e = some (some p)) :
    ∃ st, AStarReached sqrt rooms s e st ∧ (astar_select st).2 = (e : Int) ∧
      p = astar_reconstruct st.came_from e := by
  rcases astar_loop_spec sqrt rooms e (AStarReached sqrt rooms s e)
      (fun st u hI hsel hne => AStarReached.step hI hsel hne)
      fuel (astar_init sqrt rooms s e) AStarReached.init with h0 | ⟨st2, hI, h0⟩
  · rw [astar_pathfinding, h0] at h; cases h
  · rcases h0 with ⟨_, h0⟩ | ⟨hsel, h0⟩
    · rw [astar_pathfinding, h0] at h; cases h
    · rw [astar_pathfinding, h0] at h
      simp only [Option.some.injEq] at h
      exact ⟨st2, hI, hsel, h.symm⟩

end

/-- Claim C21: `astar_pathfinding` always terminates.  At the head of every pass
of its loop either the scan finds no room and the call returns `false`, or it
finds `end` and the call returns `true`, or it finds a room `u` that is open and
not closed, and the pass leaves `u` closed and not open, leaves every closed
room closed and not open, and so lowers the number of unclosed rooms; therefore
`ROOM_COUNT + 1` runs of the loop body always reach a `return`, and more fuel
gives the same result. -/
theorem astar_terminates {α : Type} [LinearOrderedField α] (sqrt : α → α)
    (rooms : Nat → Room α) (start end_ : RoomID) (st : AStarState α)
    (hst : AStarReached sqrt rooms start end_ st) :
    (((astar_select st).2 = -1 ∧
        ∀ fuel, astar_loop sqrt rooms end_ (fuel + 1) st = some none) ∨
      ((astar_select st).2 = (end_ : Int) ∧
        ∀ fuel, astar_loop sqrt rooms end_ (fuel + 1) st =
          some (some (astar_reconstruct st.came_from end_))) ∨
      ∃ u : Nat, (astar_select st).2 = (u : Int) ∧ u ≠ end_ ∧ u < ROOM_COUNT ∧
        st.open_set u = true ∧ st.closed_set u = false ∧
        (astar_expand sqrt rooms end_ u st).open_set u = false ∧
        (astar_expand sqrt rooms end_ u st).closed_set u = true ∧
        (∀ v, st.closed_set v = true →
          (astar_expand sqrt rooms end_ u st).closed_set v = true ∧
          (astar_expand sqrt rooms end_ u st).open_set v = false) ∧
        astar_unclosed (astar_expand sqrt rooms end_ u st) < astar_unclosed st ∧
        ∀ fuel, astar_loop sqrt rooms end_ (fuel + 1) st =
          astar_loop sqrt rooms end_ fuel (astar_expand sqrt rooms end_ u st)) ∧
    astar_pathfinding (ROOM_COUNT + 1) sqrt rooms start end_ ≠ none ∧
    ∀ fuel, ROOM_COUNT < fuel → astar_pathfinding fuel sqrt rooms start end_ =
      astar_pathfinding (ROOM_COUNT + 1) sqrt rooms start end_ := by
  have hI := astar_reached_chains sqrt rooms start end_ st hst
  have hfin := astar_not_starved sqrt rooms start end_ (ROOM_COUNT + 1) (Nat.lt_succ_self _)
  refine ⟨?_, hfin, ?_⟩
  · rcases astar_select_cases st with ⟨h1, _⟩ | ⟨u, h1, hu, ho, _⟩
    · left
      refine ⟨h1, fun fuel => ?_⟩
      rw [astar_loop, if_pos h1]
    · by_cases hue : u = end_
      · right; left
        subst hue
        refine ⟨h1, fun fuel => ?_⟩
        rw [astar_loop, if_neg (by rw [h1]; omega), if_pos h1]
      · right; right
        obtain ⟨hI2, hcl⟩ := AStarChains_expand sqrt rooms start end_ u st hI ho hu
        have hnc : st.closed_set u = false := by
          cases hc : st.closed_set u with
          | false => rfl
          | true => rw [hI.excl u hc] at ho; cases ho
        have hcu : (astar_expand sqrt rooms end_ u st).closed_set u = true := by
          rw [hcl, Function.update_same]
        refine ⟨u, h1, hue, hu, ho, hnc, hI2.excl u hcu, hcu, ?_,
          astar_unclosed_expand st _ u hu hnc hcl, fun fuel => ?_⟩
        · intro v hv
          have hcv : (astar_expand sqrt rooms end_ u st).closed_set v = true := by
            rw [hcl]
            by_cases hvu : v = u
            · rw [hvu, Function.update_same]
            · rw [Function.update_noteq hvu]; exact hv
          exact ⟨hcv, hI2.excl v hcv⟩
        · have hue2 : @Ne Nat u end_ := hue
          have hne1 : ¬ ((u : Int) = -1) := by omega
          have hne2 : ¬ ((u : Int) = (end_ : Int)) := by omega
          rw [astar_loop, h1]
          simp only [hne1, hne2, if_false, Int.toNat_ofNat]
  · intro fuel hf
    cases hr : astar_pathfinding (ROOM_COUNT + 1) sqrt rooms start end_ with
    | none => exact absurd hr hfin
    | some r =>
      have hk : fuel = ROOM_COUNT + 1 + (fuel - (ROOM_COUNT + 1)) := by omega
      rw [hk]
      exact astar_loop_more sqrt rooms end_ r _ _ _ hr

theorem astar_terminates_witness :
    AStarReached Real.sqrt (line_rooms 10) 0 1 (astar_init Real.sqrt (line_rooms 10) 0 1) ∧
    astar_pathfinding (ROOM_COUNT + 1) Real.sqrt (line_rooms 10) 0 1 ≠ none ∧
    ∀ fuel, ROOM_COUNT < fuel → astar_pathfinding fuel Real.sqrt (line_rooms 10) 0 1 =
      astar_pathfinding (ROOM_COUNT + 1) Real.sqrt (line_rooms 10) 0 1 :=
  ⟨AStarReached.init,
    (astar_terminates Real.sqrt (line_rooms 10) 0 1 (astar_init Real.sqrt (line_rooms 10) 0 1)
      AStarReached.init).2⟩

/-! ## A*: the walk back from the goal -/

theorem back_chain_end (cf : Nat → Int) :
    ∀ (l : List RoomID) (v : RoomID), back_chain cf (v :: l) → (v :: l).Nodup →
      ∀ x ∈ v :: l, (cf x = -1 ↔ (v :: l).getLast? = some x) := by
  intro l
  induction l with
  | nil =>
    intro v h _ x hx
    simp only [List.mem_singleton] at hx
    subst hx
    simp only [back_chain] at h
    simp [h]
  | cons u r ih =>
    intro v h hn x hx
    obtain ⟨h1, h2⟩ := h
    have hn2 := List.nodup_cons.1 hn
    rw [List.getLast?_cons_cons]
    rcases List.mem_cons.1 hx with hxv | hxr
    · subst hxv
      constructor
      · intro h3; rw [h1] at h3; omega
      · intro h3
        exact absurd (List.mem_of_getLast?_eq_some h3) hn2.1
    · exact ih u h2 hn2.2 x hxr

/-- Claim C22: the path reconstruction of `astar_pathfinding` never reaches the
`MAX_PATH_LENGTH` cutoff.  When the call returns `true` with path `p`, the walk
back from `end` along `came_from` writes `p.length` entries, which is at most
`ROOM_COUNT` and so below `MAX_PATH_LENGTH`; the rooms walked (the path read
backwards) follow `came_from` down to an entry `-1`, no room occurs twice, the
path begins with `start`, and `start` is the only room on it whose `came_from`
entry is `-1`. -/
theorem astar_walk_within_cutoff {α : Type} [LinearOrderedField α] (sqrt : α → α)
    (rooms : Nat → Room α) (start end_ : RoomID) (fuel : Nat) (p : List RoomID)
    (h : astar_pathfinding fuel sqrt rooms start end_ = some (some p)) :
    ∃ st, AStarReached sqrt rooms start end_ st ∧ (astar_select st).2 = (end_ : Int) ∧
      p = astar_reconstruct st.came_from end_ ∧
      (astar_walk st.came_from MAX_PATH_LENGTH (end_ : Int) (fun _ => 0) 0).2 = p.length ∧
      p.length ≤ ROOM_COUNT ∧ p.length < MAX_PATH_LENGTH ∧
      back_chain st.came_from p.reverse ∧ p.Nodup ∧ p.head? = some start ∧
      ∀ x ∈ p, (st.came_from x = -1 ↔ x = start) := by
  obtain ⟨st, hst, hsel, hp⟩ := astar_reached_final sqrt rooms start end_ fuel p h
  have hI := astar_reached_chains sqrt rooms start end_ st hst
  have hcount : (astar_walk st.came_from MAX_PATH_LENGTH (end_ : Int) (fun _ => 0) 0).2 =
      p.length := by
    rw [hp]; simp [astar_reconstruct]
  rcases astar_select_cases st with ⟨h1, _⟩ | ⟨w, h1, hw, ho, _⟩
  · rw [h1] at hsel; omega
  · have : w = end_ := by rw [h1] at hsel; omega
    subst this
    obtain ⟨l, c1, c2, c3, c4, _⟩ := hI.chain w (Or.inl ho)
    have hlt : ∀ x ∈ w :: l, x < ROOM_COUNT := by
      intro x hx
      rcases List.mem_cons.1 hx with rfl | hx
      · exact hw
      · exact hI.closed_lt x (c2 x hx)
    have hlen := nodup_length_le ROOM_COUNT (w :: l) c3 hlt
    have hl : l.length < MAX_PATH_LENGTH := by
      simp only [List.length_cons, ROOM_COUNT] at hlen
      simp only [MAX_PATH_LENGTH]; omega
    have hpe : p = (w :: l).reverse := by
      rw [hp, astar_reconstruct_chain _ w l c1 hl]
    have hlast : (w :: l).getLast? = some start := by
      have := c4.1
      rwa [List.head?_reverse] at this
    refine ⟨st, hst, hsel, hp, hcount, ?_, ?_, ?_, ?_, ?_, ?_⟩
    · rw [hpe, List.length_reverse]; exact hlen
    · rw [hpe, List.length_reverse]
      simp only [List.length_cons, ROOM_COUNT] at hlen
      simp only [List.length_cons, MAX_PATH_LENGTH]; omega
    · rw [hpe, List.reverse_reverse]; exact c1
    · rw [hpe]; exact List.nodup_reverse.2 c3
    · rw [hpe]; exact c4.1
    · intro x hx
      rw [hpe, List.mem_reverse] at hx
      rw [back_chain_end st.came_from l w c1 c3 x hx, hlast]
      simp only [Option.some.injEq]
      exact eq_comm

theorem astar_walk_within_cutoff_witness :
    astar_pathfinding 11 Real.sqrt (line_rooms 10) 0 1 = some (some [0, 1]) ∧
    ∃ st, AStarReached Real.sqrt (line_rooms 10) 0 1 st ∧ (astar_select st).2 = ((1 : Nat) : Int) ∧
      [0, 1] = astar_reconstruct st.came_from 1 ∧
      (astar_walk st.came_from MAX_PATH_LENGTH ((1 : Nat) : Int) (fun _ => 0) 0).2 =
        ([0, 1] : List RoomID).length ∧
      ([0, 1] : List RoomID).length ≤ ROOM_COUNT ∧
      ([0, 1] : List RoomID).length < MAX_PATH_LENGTH ∧
      back_chain st.came_from ([0, 1] : List RoomID).reverse ∧ ([0, 1] : List RoomID).Nodup ∧
      ([0, 1] : List RoomID).head? = some 0 ∧
      ∀ x ∈ ([0, 1] : List RoomID), (st.came_from x = -1 ↔ x = 0) :=
  ⟨line_rooms_ten, astar_walk_within_cutoff Real.sqrt (line_rooms 10) 0 1 11 [0, 1] line_rooms_ten⟩

/-! ## Dijkstra: the predecessor entries -/

section
variable {α : Type} [LinearOrderedField α]

theorem DijkstraParents_init (sqrt : α → α) (rooms : Nat → Room α) (s : RoomID) :
    DijkstraParents sqrt rooms (dijkstra_init s) :=
  fun _ => Or.inl rfl

theorem DijkstraParents_relax (sqrt : α → α) (rooms : Nat → Room α) (u : RoomID)
    (st : PathfindingState α) (dir : Nat) (hd : dir < DIR_COUNT) (hu : st.visited u = true)
    (h : DijkstraParents sqrt rooms st) :
    DijkstraParents sqrt rooms (dijkstra_relax sqrt rooms u st dir) := by
  rcases dijkstra_relax_cases sqrt rooms u st dir with ⟨h1, _⟩ | ⟨hne, hnv, _, h1⟩
  · rw [h1]; exact h
  · rw [h1]
    intro n
    by_cases hn : n = (rooms u).connections dir
    · right
      subst hn
      have hun : u ≠ (rooms u).connections dir := fun e => hne e.symm
      refine ⟨u, ?_, hun, hu, ⟨hne, dir, hd, rfl⟩, ?_⟩
      · simp only [Function.update_same]
      · simp only [Function.update_same, Function.update_noteq hun]
    · rcases h n with h2 | ⟨p, h2, h3, h4, h5, h6⟩
      · left
        simp only [Function.update_noteq hn]
        exact h2
      · right
        have hpn : p ≠ (rooms u).connections dir := by
          intro e
          rw [e, hnv] at h4
          cases h4
        refine ⟨p, ?_, h3, h4, h5, ?_⟩
        · simp only [Function.update_noteq hn]; exact h2
        · simp only [Function.update_noteq hn, Function.update_noteq hpn]; exact h6

theorem DijkstraParents_visit (sqrt : α → α) (rooms : Nat → Room α) (u : RoomID)
    (st : PathfindingState α) (h : DijkstraParents sqrt rooms st) :
    DijkstraParents sqrt rooms (dijkstra_visit sqrt rooms u st) := by
  unfold dijkstra_visit
  have key : ∀ (l : List Nat) (s0 : PathfindingState α), (∀ d ∈ l, d < DIR_COUNT) →
      s0.visited u = true → DijkstraParents sqrt rooms s0 →
      DijkstraParents sqrt rooms (l.foldl (dijkstra_relax sqrt rooms u) s0) := by
    intro l
    induction l with
    | nil => intro s0 _ _ h0; exact h0
    | cons d t ih =>
      intro s0 hl hv0 h0
      rw [List.foldl_cons]
      apply ih
      · exact fun x hx => hl x (List.mem_cons_of_mem d hx)
      · rw [dijkstra_relax_visited]; exact hv0
      · exact DijkstraParents_relax sqrt rooms u s0 d (hl d (List.mem_cons_self d t)) hv0 h0
  apply key
  · exact fun d hd => List.mem_range.1 hd
  · simp only [Function.update_same]
  · intro n
    rcases h n with h2 | ⟨p, h2, h3, h4, h5, h6⟩
    · exact Or.inl h2
    · right
      refine ⟨p, h2, h3, ?_, h5, h6⟩
      show Function.update st.visited u true p = true
      by_cases hp : p = u
      · rw [hp, Function.update_same]
      · rw [Function.update_noteq hp]; exact h4

theorem DijkstraParents_loop (sqrt : α → α) (rooms : Nat → Room α) (e : RoomID) :
    ∀ (n : Nat) (st : PathfindingState α), DijkstraParents sqrt rooms st →
      DijkstraParents sqrt rooms (dijkstra_loop sqrt rooms e n st) := by
  intro n
  induction n with
  | zero => intro st h; exact h
  | succ n ih =>
    intro st h
    rw [dijkstra_loop]
    split_ifs with hc
    · exact h
    · exact ih _ (DijkstraParents_visit sqrt rooms _ st h)

end

/-- Claim C24: in the table that `dijkstra_shortest_path` leaves, a room `n` whose
`parent` entry is a room `p` (not `-1`) has `p != n`, `p` marked visited, `n`
among the four connections of `p`, and `cost[n]` equal to `cost[p]` plus the
Euclidean distance between `p` and `n`.  A connection that leads back to the
room being processed changes nothing in the table, so a self-loop is never
recorded as a predecessor nor added to a cost. -/
theorem dijkstra_predecessors {α : Type} [LinearOrderedField α] (sqrt : α → α)
    (rooms : Nat → Room α) (start end_ : RoomID) (n : RoomID) (p : Nat)
    (h : (dijkstra_shortest_path sqrt rooms start end_).parent n = (p : Int)) :
    p ≠ n ∧ (dijkstra_shortest_path sqrt rooms start end_).visited p = true ∧
    (∃ dir, dir < DIR_COUNT ∧ (rooms p).connections dir = n) ∧
    (dijkstra_shortest_path sqrt rooms start end_).cost n =
      (dijkstra_shortest_path sqrt rooms start end_).cost p +
        heuristic_distance sqrt (rooms p).coordinates (rooms n).coordinates ∧
    (∀ (st : PathfindingState α) (u dir : Nat), (rooms u).connections dir = u →
      dijkstra_relax sqrt rooms u st dir = st) := by
  have hI : DijkstraParents sqrt rooms (dijkstra_shortest_path sqrt rooms start end_) :=
    DijkstraParents_loop sqrt rooms end_ ROOM_COUNT _ (DijkstraParents_init sqrt rooms start)
  rcases hI n with h2 | ⟨q, h2, h3, h4, h5, h6⟩
  · rw [h2] at h; omega
  · have hq : q = p := by rw [h2] at h; omega
    subst hq
    refine ⟨h3, h4, h5.2, h6, ?_⟩
    intro st u dir hself
    unfold dijkstra_relax
    simp only [hself, ne_eq, not_true_eq_false, false_and, if_false]

theorem dijkstra_predecessors_witness :
    (dijkstra_shortest_path Real.sqrt (line_rooms 10) 0 1).parent 1 = ((0 : Nat) : Int) ∧
    (0 : Nat) ≠ (1 : RoomID) ∧
    (dijkstra_shortest_path Real.sqrt (line_rooms 10) 0 1).visited 0 = true ∧
    (∃ dir, dir < DIR_COUNT ∧ (line_rooms (10 : ℝ) 0).connections dir = 1) ∧
    (dijkstra_shortest_path Real.sqrt (line_rooms 10) 0 1).cost 1 =
      (dijkstra_shortest_path Real.sqrt (line_rooms 10) 0 1).cost 0 +
        heuristic_distance Real.sqrt (line_rooms (10 : ℝ) 0).coordinates
          (line_rooms (10 : ℝ) 1).coordinates ∧
    (∀ (st : PathfindingState ℝ) (u dir : Nat), (line_rooms (10 : ℝ) u).connections dir = u →
      dijkstra_relax Real.sqrt (line_rooms 10) u st dir = st) :=
  have h0 : (dijkstra_shortest_path Real.sqrt (line_rooms 10) 0 1).parent 1 = ((0 : Nat) : Int) :=
    (two_room_dijkstra Real.sqrt (line_rooms 10) 0 1 (by decide) (by decide) (by decide)
      (fun d _ => line_rooms_only 10 d) ⟨2, by decide, rfl⟩
      (by rw [line_rooms_length 10 (by norm_num)]; norm_num [INFINITY_COST])).2.1
  ⟨h0, dijkstra_predecessors Real.sqrt (line_rooms 10) 0 1 1 0 h0⟩

/-! ## Array indices -/

section
variable {α : Type} [LinearOrderedField α]

theorem astar_goal_walk (sqrt : α → α) (rooms : Nat → Room α) (s e : RoomID)
    (st : AStarState α) (hst : AStarReached sqrt rooms s e st)
    (hsel : (astar_select st).2 = (e : Int)) :
    ∃ l : List RoomID, astar_reconstruct st.came_from e = (e :: l).reverse ∧
      (e :: l).length ≤ ROOM_COUNT ∧ ∀ x ∈ e :: l, x < ROOM_COUNT := by
  have hI := astar_reached_chains sqrt rooms s e st hst
  rcases astar_select_cases st with ⟨h1, _⟩ | ⟨w, h1, hw, ho, _⟩
  · rw [h1] at hsel; omega
  · have : w = e := by rw [h1] at hsel; omega
    subst this
    obtain ⟨l, c1, c2, c3, _, _⟩ := hI.chain w (Or.inl ho)
    have hlt : ∀ x ∈ w :: l, x < ROOM_COUNT := by
      intro x hx
      rcases List.mem_cons.1 hx with rfl | hx
      · exact hw
      · exact hI.closed_lt x (c2 x hx)
    have hlen := nodup_length_le ROOM_COUNT (w :: l) c3 hlt
    have hl : l.length < MAX_PATH_LENGTH := by
      simp only [List.length_cons, ROOM_COUNT] at hlen
      simp only [MAX_PATH_LENGTH]; omega
    exact ⟨l, astar_reconstruct_chain _ w l c1 hl, hlen, hlt⟩

end

/-- Claim C25: when `start` and `end` are below `ROOM_COUNT` and every connection
of the rooms `0 .. ROOM_COUNT-1` is below `ROOM_COUNT`, the indices used by the
two search routines are in bounds.  The scans run over `i < ROOM_COUNT`, which is
at most `MAX_ROOMS`; `start` and `end` are below `MAX_ROOMS`; the room a scan
selects (`current`, `min_node`) is below `MAX_ROOMS` and so is each of its four
connections (`neighbor`); and when A* reconstructs the path, the number of
entries written is at most `ROOM_COUNT`, hence every write index is below
`MAX_PATH_LENGTH`, and every room walked (an index into `came_from`) is below
`MAX_ROOMS`. -/
theorem search_indices_in_bounds {α : Type} [LinearOrderedField α] (sqrt : α → α)
    (rooms : Nat → Room α) (start end_ : RoomID) (hv : valid_connections rooms)
    (hs : start < ROOM_COUNT) (he : end_ < ROOM_COUNT) :
    ROOM_COUNT ≤ MAX_ROOMS ∧ DIR_COUNT ≤ 4 ∧ start < MAX_ROOMS ∧ end_ < MAX_ROOMS ∧
    (∀ st : AStarState α, (astar_select st).2 = -1 ∨
      ∃ u : Nat, (astar_select st).2 = (u : Int) ∧ u < MAX_ROOMS ∧
        ∀ dir, dir < DIR_COUNT → (rooms u).connections dir < MAX_ROOMS) ∧
    (∀ st : PathfindingState α, (dijkstra_select st).2 = -1 ∨
      ∃ u : Nat, (dijkstra_select st).2 = (u : Int) ∧ u < MAX_ROOMS ∧
        ∀ dir, dir < DIR_COUNT → (rooms u).connections dir < MAX_ROOMS) ∧
    (∀ st : AStarState α, AStarReached sqrt rooms start end_ st →
      (astar_select st).2 = (end_ : Int) →
      (astar_walk st.came_from MAX_PATH_LENGTH (end_ : Int) (fun _ => 0) 0).2 ≤ ROOM_COUNT ∧
      (astar_walk st.came_from MAX_PATH_LENGTH (end_ : Int) (fun _ => 0) 0).2 <
        MAX_PATH_LENGTH ∧
      ∀ x ∈ astar_reconstruct st.came_from end_, x < MAX_ROOMS) := by
  have hRM : ROOM_COUNT ≤ MAX_ROOMS := by decide
  refine ⟨hRM, by decide, lt_of_lt_of_le hs hRM, lt_of_lt_of_le he hRM, ?_, ?_, ?_⟩
  · intro st
    rcases astar_select_cases st with ⟨h1, _⟩ | ⟨u, h1, hu, _⟩
    · exact Or.inl h1
    · exact Or.inr ⟨u, h1, lt_of_lt_of_le hu hRM,
        fun dir hd => lt_of_lt_of_le (hv u hu dir hd) hRM⟩
  · intro st
    rcases dijkstra_select_cases st with ⟨h1, _⟩ | ⟨u, h1, hu, _⟩
    · exact Or.inl h1
    · exact Or.inr ⟨u, h1, lt_of_lt_of_le hu hRM,
        fun dir hd => lt_of_lt_of_le (hv u hu dir hd) hRM⟩
  · intro st hst hsel
    obtain ⟨l, h1, h2, h3⟩ := astar_goal_walk sqrt rooms start end_ st hst hsel
    have hcount : (astar_walk st.came_from MAX_PATH_LENGTH (end_ : Int) (fun _ => 0) 0).2 =
        (end_ :: l).length := by
      have := congrArg List.length h1
      simpa [astar_reconstruct] using this
    refine ⟨by rw [hcount]; exact h2, ?_, ?_⟩
    · rw [hcount]
      simp only [ROOM_COUNT] at h2
      simp only [MAX_PATH_LENGTH]; omega
    · intro x hx
      rw [h1, List.mem_reverse] at hx
      exact lt_of_lt_of_le (h3 x hx) hRM

theorem search_indices_in_bounds_witness :
    valid_connections (line_rooms (10 : ℝ)) ∧ (0 : RoomID) < ROOM_COUNT ∧
    (1 : RoomID) < ROOM_COUNT ∧
    ROOM_COUNT ≤ MAX_ROOMS ∧ DIR_COUNT ≤ 4 ∧ (0 : RoomID) < MAX_ROOMS ∧ (1 : RoomID) < MAX_ROOMS ∧
    (∀ st : AStarState ℝ, (astar_select st).2 = -1 ∨
      ∃ u : Nat, (astar_select st).2 = (u : Int) ∧ u < MAX_ROOMS ∧
        ∀ dir, dir < DIR_COUNT → (line_rooms (10 : ℝ) u).connections dir < MAX_ROOMS) ∧
    (∀ st : PathfindingState ℝ, (dijkstra_select st).2 = -1 ∨
      ∃ u : Nat, (dijkstra_select st).2 = (u : Int) ∧ u < MAX_ROOMS ∧
        ∀ dir, dir < DIR_COUNT → (line_rooms (10 : ℝ) u).connections dir < MAX_ROOMS) ∧
    (∀ st : AStarState ℝ, AStarReached Real.sqrt (line_rooms 10) 0 1 st →
      (astar_select st).2 = ((1 : Nat) : Int) →
      (astar_walk st.came_from MAX_PATH_LENGTH ((1 : Nat) : Int) (fun _ => 0) 0).2 ≤ ROOM_COUNT ∧
      (astar_walk st.came_from MAX_PATH_LENGTH ((1 : Nat) : Int) (fun _ => 0) 0).2 <
        MAX_PATH_LENGTH ∧
      ∀ x ∈ astar_reconstruct st.came_from 1, x < MAX_ROOMS) :=
  ⟨line_rooms_valid 10, by decide, by decide,
    search_indices_in_bounds Real.sqrt (line_rooms 10) 0 1 (line_rooms_valid 10)
      (by decide) (by decide)⟩

/-! ## The built-in map -/

theorem init_rooms_valid {α : Type} [LinearOrderedField α] :
    valid_connections (init_rooms : Nat → Room α) := by
  intro i hi dir hd
  simp only [ROOM_COUNT] at hi
  simp only [DIR_COUNT] at hd
  interval_cases i <;> interval_cases dir <;> simp [init_rooms, connections_of, ROOM_COUNT]

theorem builtin_route_rooms :
    ∀ s, s < 10 → ∀ g, g < 10 → ∀ x ∈ builtin_route s g, x < 10 := by
  decide

theorem builtin_route_is_route (s g : RoomID) (hs : s < ROOM_COUNT) (hg : g < ROOM_COUNT) :
    is_route (init_rooms : Nat → Room ℝ) s g (builtin_route s g) := by
  simp only [ROOM_COUNT] at hs hg
  interval_cases s <;> interval_cases g <;>
    (refine ⟨rfl, rfl, ?_⟩
     simp only [builtin_route, List.cons_append, List.nil_append, List.chain'_cons,
       List.chain'_singleton, and_true] <;> decide)

theorem init_rooms_edge (u v : RoomID) (hu : u < ROOM_COUNT)
    (h : passage (init_rooms : Nat → Room ℝ) u v) :
    edge_length Real.sqrt (init_rooms : Nat → Room ℝ) u v = 10 := by
  have key : ∀ a b : Point2D ℝ,
      (a.x - b.x) * (a.x - b.x) + (a.y - b.y) * (a.y - b.y) = 10 * 10 →
      heuristic_distance Real.sqrt a b = 10 := by
    intro a b hab
    simp only [heuristic_distance]
    rw [hab, Real.sqrt_mul_self (by norm_num)]
  obtain ⟨hne, dir, hd, hc⟩ := h
  subst hc
  simp only [ROOM_COUNT] at hu
  simp only [DIR_COUNT] at hd
  unfold edge_length
  interval_cases u <;> interval_cases dir <;>
    first
    | exact absurd rfl hne
    | (apply key; simp only [init_rooms, connections_of]; norm_num)

theorem init_rooms_route_length :
    ∀ p : List RoomID, (∀ x ∈ p, x < ROOM_COUNT) →
      p.Chain' (passage (init_rooms : Nat → Room ℝ)) →
      route_length Real.sqrt (init_rooms : Nat → Room ℝ) p ≤ 10 * (p.length : ℝ) := by
  intro p
  induction p with
  | nil => intro _ _; simp [route_length]
  | cons a t ih =>
    intro hlt hc
    cases t with
    | nil => simp [route_length]
    | cons b r =>
      rw [List.chain'_cons] at hc
      have h1 := init_rooms_edge a b (hlt a (List.mem_cons_self a _)) hc.1
      have h2 := ih (fun x hx => hlt x (List.mem_cons_of_mem a hx)) hc.2
      simp only [route_length, h1]
      simp only [List.length_cons, Nat.cast_add, Nat.cast_one] at h2 ⊢
      linarith

theorem builtin_route_short (s g : RoomID) (hs : s < ROOM_COUNT) (hg : g < ROOM_COUNT) :
    route_length Real.sqrt (init_rooms : Nat → Room ℝ) (builtin_route s g) < INFINITY_COST := by
  have hlen : ∀ s, s < 10 → ∀ g, g < 10 → (builtin_route s g).length ≤ 7 := by decide
  have h1 := init_rooms_route_length (builtin_route s g)
    (fun x hx => builtin_route_rooms s hs g hg x hx) (builtin_route_is_route s g hs hg).2.2
  have h2 : ((builtin_route s g).length : ℝ) ≤ 7 := by exact_mod_cast hlen s hs g hg
  simp only [INFINITY_COST]
  linarith

/-- Claim C27: on the map that `init_rooms` builds, every connection of each of
the ten rooms is a room id below `ROOM_COUNT`; for every ordered pair of the ten
rooms a sequence of connections none of which is a self-loop leads from the
first to the second (`builtin_route` is one); and `astar_pathfinding` returns
`true` for the pair. -/
theorem builtin_map_connected (s g : RoomID) (hs : s < ROOM_COUNT) (hg : g < ROOM_COUNT)
    (fuel : Nat) (hf : ROOM_COUNT < fuel) :
    valid_connections (init_rooms : Nat → Room ℝ) ∧
    is_route (init_rooms : Nat → Room ℝ) s g (builtin_route s g) ∧
    ∃ p, astar_pathfinding fuel Real.sqrt init_rooms s g = some (some p) :=
  ⟨init_rooms_valid, builtin_route_is_route s g hs hg,
    astar_finds_short Real.sqrt init_rooms s g real_metric init_rooms_valid hs fuel hf
      (builtin_route s g) (builtin_route_is_route s g hs hg) (builtin_route_short s g hs hg)⟩

theorem builtin_map_connected_witness :
    ROOM_TESTING_TRACK < ROOM_COUNT ∧ ROOM_OFFICE < ROOM_COUNT ∧ ROOM_COUNT < 11 ∧
    valid_connections (init_rooms : Nat → Room ℝ) ∧
    is_route (init_rooms : Nat → Room ℝ) ROOM_TESTING_TRACK ROOM_OFFICE
      (builtin_route ROOM_TESTING_TRACK ROOM_OFFICE) ∧
    ∃ p, astar_pathfinding 11 Real.sqrt init_rooms ROOM_TESTING_TRACK ROOM_OFFICE =
      some (some p) :=
  ⟨by decide, by decide, by decide,
    builtin_map_connected ROOM_TESTING_TRACK ROOM_OFFICE (by decide) (by decide) 11 (by decide)⟩

/-! ## Single steps of the A* loop -/

section
variable {α : Type} [LinearOrderedField α]

theorem astar_expand_dirs (sqrt : α → α) (rooms : Nat → Room α) (e : RoomID) (u : Nat)
    (st : AStarState α) :
    astar_expand sqrt rooms e u st =
      astar_neighbor sqrt rooms e u
        (astar_neighbor sqrt rooms e u
          (astar_neighbor sqrt rooms e u
            (astar_neighbor sqrt rooms e u (astar_close u st) 0) 1) 2) 3 :=
  rfl

theorem astar_neighbor_skip (sqrt : α → α) (rooms : Nat → Room α) (e : RoomID) (u : Nat)
    (st : AStarState α) (dir : Nat)
    (h : (rooms u).connections dir = u ∨ st.closed_set ((rooms u).connections dir) = true) :
    astar_neighbor sqrt rooms e u st dir = st := by
  unfold astar_neighbor
  simp only []
  rw [if_pos h]

theorem astar_neighbor_fresh (sqrt : α → α) (rooms : Nat → Room α) (e : RoomID) (u : Nat)
    (st : AStarState α) (dir nb : Nat) (g : α) (hnb : (rooms u).connections dir = nb)
    (hne : nb ≠ u) (hc : st.closed_set nb = false) (ho : st.open_set nb = false)
    (hg : st.g_score u +
      heuristic_distance sqrt (rooms u).coordinates (rooms nb).coordinates = g) :
    astar_neighbor sqrt rooms e u st dir = astar_open sqrt rooms e u nb g st := by
  subst hnb
  unfold astar_neighbor
  simp only []
  have h1 : ¬ ((rooms u).connections dir = u ∨
      st.closed_set ((rooms u).connections dir) = true) := by
    rw [hc]
    simp only [Bool.false_eq_true, or_false]
    exact hne
  rw [if_neg h1, if_pos ho, hg]
  rfl

theorem astar_neighbor_keep (sqrt : α → α) (rooms : Nat → Room α) (e : RoomID) (u : Nat)
    (st : AStarState α) (dir nb : Nat) (hnb : (rooms u).connections dir = nb)
    (hne : nb ≠ u) (hc : st.closed_set nb = false) (ho : st.open_set nb = true)
    (hg : st.g_score u +
      heuristic_distance sqrt (rooms u).coordinates (rooms nb).coordinates ≥ st.g_score nb) :
    astar_neighbor sqrt rooms e u st dir = st := by
  subst hnb
  unfold astar_neighbor
  simp only []
  have h1 : ¬ ((rooms u).connections dir = u ∨
      st.closed_set ((rooms u).connections dir) = true) := by
    rw [hc]
    simp only [Bool.false_eq_true, or_false]
    exact hne
  have h2 : ¬ (st.open_set ((rooms u).connections dir) = false) := by
    rw [ho]; simp
  rw [if_neg h1, if_neg h2, if_pos hg]

theorem astar_loop_step (sqrt : α → α) (rooms : Nat → Room α) (e : RoomID) (fuel : Nat)
    (st : AStarState α) (u : Nat) (hsel : (astar_select st).2 = (u : Int)) (hne : u ≠ e) :
    astar_loop sqrt rooms e (fuel + 1) st =
      astar_loop sqrt rooms e fuel (astar_expand sqrt rooms e u st) := by
  have hue : @Ne Nat u e := hne
  have hne1 : ¬ ((u : Int) = -1) := by omega
  have hne2 : ¬ ((u : Int) = (e : Int)) := by omega
  rw [astar_loop, hsel]
  simp only [hne1, hne2, if_false, Int.toNat_ofNat]

theorem astar_loop_goal (sqrt : α → α) (rooms : Nat → Room α) (e : RoomID) (fuel : Nat)
    (st : AStarState α) (hsel : (astar_select st).2 = (e : Int)) :
    astar_loop sqrt rooms e (fuel + 1) st =
      some (some (astar_reconstruct st.came_from e)) := by
  rw [astar_loop, if_neg (by rw [hsel]; omega), if_pos hsel]

end

/-! ## Square roots met on the built-in map -/

theorem sqrt_100 : Real.sqrt 100 = 10 := by
  have : (100 : ℝ) = 10 * 10 := by norm_num
  rw [this, Real.sqrt_mul_self (by norm_num)]

theorem sqrt_400 : Real.sqrt 400 = 20 := by
  have : (400 : ℝ) = 20 * 20 := by norm_num
  rw [this, Real.sqrt_mul_self (by norm_num)]

theorem sqrt_200_bounds : 14 < Real.sqrt 200 ∧ Real.sqrt 200 < 15 :=
  ⟨(Real.lt_sqrt (by norm_num)).2 (by norm_num), (Real.sqrt_lt' (by norm_num)).2 (by norm_num)⟩

theorem sqrt_500_bounds : 22 < Real.sqrt 500 ∧ Real.sqrt 500 < 23 :=
  ⟨(Real.lt_sqrt (by norm_num)).2 (by norm_num), (Real.sqrt_lt' (by norm_num)).2 (by norm_num)⟩

theorem sqrt_800_bounds : 28 < Real.sqrt 800 ∧ Real.sqrt 800 < 29 :=
  ⟨(Real.lt_sqrt (by norm_num)).2 (by norm_num), (Real.sqrt_lt' (by norm_num)).2 (by norm_num)⟩

theorem sqrt_1000_bounds : 31 < Real.sqrt 1000 ∧ Real.sqrt 1000 < 32 :=
  ⟨(Real.lt_sqrt (by norm_num)).2 (by norm_num), (Real.sqrt_lt' (by norm_num)).2 (by norm_num)⟩

theorem showroom_edge (st : AStarState ℝ) (u v : Nat) (a b : ℝ) (hg : st.g_score u = a)
    (hu : u < ROOM_COUNT) (hp : passage (init_rooms : Nat → Room ℝ) u v) (hab : a + 10 = b) :
    st.g_score u + heuristic_distance Real.sqrt (init_rooms u : Room ℝ).coordinates
      (init_rooms v : Room ℝ).coordinates = b := by
  have := init_rooms_edge u v hu hp
  unfold edge_length at this
  rw [hg, this, hab]

/-! ## The passes of the search from the Garage Entrance to the Showroom -/

theorem showroom_h (k : Nat) (c : ℝ)
    (h : ((init_rooms k : Room ℝ).coordinates.x - 20) *
        ((init_rooms k : Room ℝ).coordinates.x - 20) +
      ((init_rooms k : Room ℝ).coordinates.y - 20) *
        ((init_rooms k : Room ℝ).coordinates.y - 20) = c) :
    heuristic_distance Real.sqrt (init_rooms k : Room ℝ).coordinates
      (init_rooms 9 : Room ℝ).coordinates = Real.sqrt c := by
  rw [← h]
  rfl

theorem astar_open_set_cases (sqrt : ℝ → ℝ) (rooms : Nat → Room ℝ) (e : RoomID)
    (u nb : Nat) (g : ℝ) (st : AStarState ℝ) (i : Nat)
    (h : (astar_open sqrt rooms e u nb g st).open_set i = true) :
    i = nb ∨ st.open_set i = true := by
  by_cases hi : i = nb
  · exact Or.inl hi
  · right
    simpa [astar_open, astar_record, Function.update_noteq hi] using h

theorem astar_close_set_cases (u : Nat) (st : AStarState ℝ) (i : Nat)
    (h : (astar_close u st).open_set i = true) : i ≠ u ∧ st.open_set i = true := by
  by_cases hi : i = u
  · subst hi
    simp [astar_close] at h
  · refine ⟨hi, ?_⟩
    simpa [astar_close, Function.update_noteq hi] using h

theorem showroom_open0 (i : Nat) (hi : (astar_init Real.sqrt init_rooms 0 9).open_set i = true) :
    i = 0 := by
  by_contra hne
  simp [astar_init, Function.update_apply, hne] at hi

theorem showroom_f0_0 : (astar_init Real.sqrt init_rooms 0 9).f_score 0 = Real.sqrt 800 := by
  have h := showroom_h 0 800 (by simp only [init_rooms]; norm_num)
  simp only [astar_open, astar_record, astar_close, astar_init,
    Function.update_apply, HEURISTIC_WEIGHT]
  norm_num [h, sqrt_100, sqrt_400]

theorem showroom_select0 :
    (astar_select (astar_init Real.sqrt init_rooms 0 9)).2 = ((0 : Nat) : Int) := by
  apply astar_select_first _ 0 (by decide) rfl
  · rw [showroom_f0_0]
    simp only [INFINITY_COST]
    linarith [sqrt_200_bounds.1, sqrt_200_bounds.2, sqrt_500_bounds.1, sqrt_500_bounds.2,
      sqrt_800_bounds.1,
        sqrt_800_bounds.2, sqrt_1000_bounds.1, sqrt_1000_bounds.2]
  · intro i hi ho
    have hio := showroom_open0 i ho
    subst hio
    omega
  · intro i ho
    have hio := showroom_open0 i ho
    subst hio
    exact le_refl _

theorem showroom_expand0 :
    astar_expand Real.sqrt init_rooms 9 0 (astar_init Real.sqrt init_rooms 0 9) =
      (showroom_pass1 Real.sqrt) := by
  have e0 := astar_neighbor_fresh Real.sqrt init_rooms 9 0
    (astar_close 0 (astar_init Real.sqrt init_rooms 0 9)) 0 1 10 rfl (by decide) rfl rfl
    (showroom_edge _ 0 1 0 10
      (by simp [astar_open, astar_record, astar_close, astar_init])
      (by decide) (by decide) (by norm_num))
  have e1 := astar_neighbor_skip Real.sqrt init_rooms 9 0
    (astar_open Real.sqrt init_rooms 9 0 1 10
      (astar_close 0 (astar_init Real.sqrt init_rooms 0 9))) 1 (Or.inl rfl)
  have e2 := astar_neighbor_fresh Real.sqrt init_rooms 9 0
    (astar_open Real.sqrt init_rooms 9 0 1 10
      (astar_close 0 (astar_init Real.sqrt init_rooms 0 9))) 2 6 10 rfl (by decide) rfl rfl
    (showroom_edge _ 0 6 0 10
      (by simp [astar_open, astar_record, astar_close, astar_init])
      (by decide) (by decide) (by norm_num))
  have e3 := astar_neighbor_skip Real.sqrt init_rooms 9 0
    (astar_open Real.sqrt init_rooms 9 0 6 10
      (astar_open Real.sqrt init_rooms 9 0 1 10
      (astar_close 0 (astar_init Real.sqrt init_rooms 0 9)))) 3 (Or.inl rfl)
  rw [astar_expand_dirs, e0, e1, e2, e3]
  rfl

theorem showroom_open1 (i : Nat) (hi : (showroom_pass1 Real.sqrt).open_set i = true) :
    i = 1 ∨ i = 6 := by
  rcases astar_open_set_cases _ _ _ _ _ _ _ i hi with h | h
  · omega
  · rcases astar_open_set_cases _ _ _ _ _ _ _ i h with h | h
    · omega
    · obtain ⟨hne, h2⟩ := astar_close_set_cases _ _ i h
      have h3 := showroom_open0 i h2
      omega

theorem showroom_f1_1 : (showroom_pass1 Real.sqrt).f_score 1 = 10 + Real.sqrt 500 := by
  have h := showroom_h 1 500 (by simp only [init_rooms]; norm_num)
  simp only [showroom_pass1, astar_open, astar_record, astar_close, astar_init,
    Function.update_apply, HEURISTIC_WEIGHT]
  norm_num [h, sqrt_100, sqrt_400]

theorem showroom_f1_6 : (showroom_pass1 Real.sqrt).f_score 6 = 10 + Real.sqrt 500 := by
  have h := showroom_h 6 500 (by simp only [init_rooms]; norm_num)
  simp only [showroom_pass1, astar_open, astar_record, astar_close, astar_init,
    Function.update_apply, HEURISTIC_WEIGHT]
  norm_num [h, sqrt_100, sqrt_400]

theorem showroom_select1 :
    (astar_select (showroom_pass1 Real.sqrt)).2 = ((1 : Nat) : Int) := by
  apply astar_select_first _ 1 (by decide) rfl
  · rw [showroom_f1_1]
    simp only [INFINITY_COST]
    linarith [sqrt_200_bounds.1, sqrt_200_bounds.2, sqrt_500_bounds.1, sqrt_500_bounds.2,
      sqrt_800_bounds.1,
        sqrt_800_bounds.2, sqrt_1000_bounds.1, sqrt_1000_bounds.2]
  · intro i hi ho
    rcases showroom_open1 i ho with rfl | rfl
    · omega
    · omega
  · intro i ho
    rcases showroom_open1 i ho with rfl | rfl
    · exact le_refl _
    · linarith [showroom_f1_1, showroom_f1_6, sqrt_200_bounds.1, sqrt_200_bounds.2,
      sqrt_500_bounds.1, sqrt_500_bounds.2, sqrt_800_bounds.1,
        sqrt_800_bounds.2, sqrt_1000_bounds.1, sqrt_1000_bounds.2]

theorem showroom_expand1 :
    astar_expand Real.sqrt init_rooms 9 1 (showroom_pass1 Real.sqrt) =
      (showroom_pass2 Real.sqrt) := by
  have e0 := astar_neighbor_fresh Real.sqrt init_rooms 9 1
    (astar_close 1 (showroom_pass1 Real.sqrt)) 0 2 20 rfl (by decide) rfl rfl
    (showroom_edge _ 1 2 10 20
      (by simp [showroom_pass1, astar_open, astar_record, astar_close, astar_init])
      (by decide) (by decide) (by norm_num))
  have e1 := astar_neighbor_skip Real.sqrt init_rooms 9 1
    (astar_open Real.sqrt init_rooms 9 1 2 20
      (astar_close 1 (showroom_pass1 Real.sqrt))) 1 (Or.inr rfl)
  have e2 := astar_neighbor_fresh Real.sqrt init_rooms 9 1
    (astar_open Real.sqrt init_rooms 9 1 2 20
      (astar_close 1 (showroom_pass1 Real.sqrt))) 2 3 20 rfl (by decide) rfl rfl
    (showroom_edge _ 1 3 10 20
      (by simp [showroom_pass1, astar_open, astar_record, astar_close, astar_init])
      (by decide) (by decide) (by norm_num))
  have e3 := astar_neighbor_fresh Real.sqrt init_rooms 9 1
    (astar_open Real.sqrt init_rooms 9 1 3 20
      (astar_open Real.sqrt init_rooms 9 1 2 20
      (astar_close 1 (showroom_pass1 Real.sqrt)))) 3 7 20 rfl (by decide) rfl rfl
    (showroom_edge _ 1 7 10 20
      (by simp [showroom_pass1, astar_open, astar_record, astar_close, astar_init])
      (by decide) (by decide) (by norm_num))
  rw [astar_expand_dirs, e0, e1, e2, e3]
  rfl

theorem showroom_open2 (i : Nat) (hi : (showroom_pass2 Real.sqrt).open_set i = true) :
    i = 2 ∨ i = 3 ∨ i = 6 ∨ i = 7 := by
  rcases astar_open_set_cases _ _ _ _ _ _ _ i hi with h | h
  · omega
  · rcases astar_open_set_cases _ _ _ _ _ _ _ i h with h | h
    · omega
    · rcases astar_open_set_cases _ _ _ _ _ _ _ i h with h | h
      · omega
      · obtain ⟨hne, h2⟩ := astar_close_set_cases _ _ i h
        rcases showroom_open1 i h2 with h3 | h3 <;> omega

theorem showroom_f2_2 : (showroom_pass2 Real.sqrt).f_score 2 = 40 := by
  have h := showroom_h 2 400 (by simp only [init_rooms]; norm_num)
  simp only [showroom_pass2, showroom_pass1, astar_open, astar_record, astar_close, astar_init,
    Function.update_apply, HEURISTIC_WEIGHT]
  norm_num [h, sqrt_100, sqrt_400]

theorem showroom_f2_3 : (showroom_pass2 Real.sqrt).f_score 3 = 20 + Real.sqrt 200 := by
  have h := showroom_h 3 200 (by simp only [init_rooms]; norm_num)
  simp only [showroom_pass2, showroom_pass1, astar_open, astar_record, astar_close, astar_init,
    Function.update_apply, HEURISTIC_WEIGHT]
  norm_num [h, sqrt_100, sqrt_400]

theorem showroom_f2_6 : (showroom_pass2 Real.sqrt).f_score 6 = 10 + Real.sqrt 500 := by
  have h := showroom_h 6 500 (by simp only [init_rooms]; norm_num)
  simp only [showroom_pass2, showroom_pass1, astar_open, astar_record, astar_close, astar_init,
    Function.update_apply, HEURISTIC_WEIGHT]
  norm_num [h, sqrt_100, sqrt_400]

theorem showroom_f2_7 : (showroom_pass2 Real.sqrt).f_score 7 = 20 + Real.sqrt 1000 := by
  have h := showroom_h 7 1000 (by simp only [init_rooms]; norm_num)
  simp only [showroom_pass2, showroom_pass1, astar_open, astar_record, astar_close, astar_init,
    Function.update_apply, HEURISTIC_WEIGHT]
  norm_num [h, sqrt_100, sqrt_400]

theorem showroom_select2 :
    (astar_select (showroom_pass2 Real.sqrt)).2 = ((6 : Nat) : Int) := by
  apply astar_select_first _ 6 (by decide) rfl
  · rw [showroom_f2_6]
    simp only [INFINITY_COST]
    linarith [sqrt_200_bounds.1, sqrt_200_bounds.2, sqrt_500_bounds.1, sqrt_500_bounds.2,
      sqrt_800_bounds.1,
        sqrt_800_bounds.2, sqrt_1000_bounds.1, sqrt_1000_bounds.2]
  · intro i hi ho
    rcases showroom_open2 i ho with rfl | rfl | rfl | rfl
    · linarith [showroom_f2_6, showroom_f2_2, sqrt_200_bounds.1, sqrt_200_bounds.2,
      sqrt_500_bounds.1, sqrt_500_bounds.2, sqrt_800_bounds.1,
        sqrt_800_bounds.2, sqrt_1000_bounds.1, sqrt_1000_bounds.2]
    · linarith [showroom_f2_6, showroom_f2_3, sqrt_200_bounds.1, sqrt_200_bounds.2,
      sqrt_500_bounds.1, sqrt_500_bounds.2, sqrt_800_bounds.1,
        sqrt_800_bounds.2, sqrt_1000_bounds.1, sqrt_1000_bounds.2]
    · omega
    · omega
  · intro i ho
    rcases showroom_open2 i ho with rfl | rfl | rfl | rfl
    · linarith [showroom_f2_6, showroom_f2_2, sqrt_200_bounds.1, sqrt_200_bounds.2,
      sqrt_500_bounds.1, sqrt_500_bounds.2, sqrt_800_bounds.1,
        sqrt_800_bounds.2, sqrt_1000_bounds.1, sqrt_1000_bounds.2]
    · linarith [showroom_f2_6, showroom_f2_3, sqrt_200_bounds.1, sqrt_200_bounds.2,
      sqrt_500_bounds.1, sqrt_500_bounds.2, sqrt_800_bounds.1,
        sqrt_800_bounds.2, sqrt_1000_bounds.1, sqrt_1000_bounds.2]
    · exact le_refl _
    · linarith [showroom_f2_6, showroom_f2_7, sqrt_200_bounds.1, sqrt_200_bounds.2,
      sqrt_500_bounds.1, sqrt_500_bounds.2, sqrt_800_bounds.1,
        sqrt_800_bounds.2, sqrt_1000_bounds.1, sqrt_1000_bounds.2]

theorem showroom_expand2 :
    astar_expand Real.sqrt init_rooms 9 6 (showroom_pass2 Real.sqrt) =
      (showroom_pass3 Real.sqrt) := by
  have e0 := astar_neighbor_skip Real.sqrt init_rooms 9 6
    (astar_close 6 (showroom_pass2 Real.sqrt)) 0 (Or.inl rfl)
  have e1 := astar_neighbor_skip Real.sqrt init_rooms 9 6
    (astar_close 6 (showroom_pass2 Real.sqrt)) 1 (Or.inl rfl)
  have e2 := astar_neighbor_skip Real.sqrt init_rooms 9 6
    (astar_close 6 (showroom_pass2 Real.sqrt)) 2 (Or.inl rfl)
  have e3 := astar_neighbor_skip Real.sqrt init_rooms 9 6
    (astar_close 6 (showroom_pass2 Real.sqrt)) 3 (Or.inr rfl)
  rw [astar_expand_dirs, e0, e1, e2, e3]
  rfl

theorem showroom_open3 (i : Nat) (hi : (showroom_pass3 Real.sqrt).open_set i = true) :
    i = 2 ∨ i = 3 ∨ i = 7 := by
  obtain ⟨hne, h2⟩ := astar_close_set_cases _ _ i hi
  rcases showroom_open2 i h2 with h3 | h3 | h3 | h3 <;> omega

theorem showroom_f3_2 : (showroom_pass3 Real.sqrt).f_score 2 = 40 := by
  have h := showroom_h 2 400 (by simp only [init_rooms]; norm_num)
  simp only [showroom_pass3, showroom_pass2, showroom_pass1, astar_open, astar_record,
    astar_close, astar_init,
    Function.update_apply, HEURISTIC_WEIGHT]
  norm_num [h, sqrt_100, sqrt_400]

theorem showroom_f3_3 : (showroom_pass3 Real.sqrt).f_score 3 = 20 + Real.sqrt 200 := by
  have h := showroom_h 3 200 (by simp only [init_rooms]; norm_num)
  simp only [showroom_pass3, showroom_pass2, showroom_pass1, astar_open, astar_record,
    astar_close, astar_init,
    Function.update_apply, HEURISTIC_WEIGHT]
  norm_num [h, sqrt_100, sqrt_400]

theorem showroom_f3_7 : (showroom_pass3 Real.sqrt).f_score 7 = 20 + Real.sqrt 1000 := by
  have h := showroom_h 7 1000 (by simp only [init_rooms]; norm_num)
  simp only [showroom_pass3, showroom_pass2, showroom_pass1, astar_open, astar_record,
    astar_close, astar_init,
    Function.update_apply, HEURISTIC_WEIGHT]
  norm_num [h, sqrt_100, sqrt_400]

theorem showroom_select3 :
    (astar_select (showroom_pass3 Real.sqrt)).2 = ((3 : Nat) : Int) := by
  apply astar_select_first _ 3 (by decide) rfl
  · rw [showroom_f3_3]
    simp only [INFINITY_COST]
    linarith [sqrt_200_bounds.1, sqrt_200_bounds.2, sqrt_500_bounds.1, sqrt_500_bounds.2,
      sqrt_800_bounds.1,
        sqrt_800_bounds.2, sqrt_1000_bounds.1, sqrt_1000_bounds.2]
  · intro i hi ho
    rcases showroom_open3 i ho with rfl | rfl | rfl
    · linarith [showroom_f3_3, showroom_f3_2, sqrt_200_bounds.1, sqrt_200_bounds.2,
      sqrt_500_bounds.1, sqrt_500_bounds.2, sqrt_800_bounds.1,
        sqrt_800_bounds.2, sqrt_1000_bounds.1, sqrt_1000_bounds.2]
    · omega
    · omega
  · intro i ho
    rcases showroom_open3 i ho with rfl | rfl | rfl
    · linarith [showroom_f3_3, showroom_f3_2, sqrt_200_bounds.1, sqrt_200_bounds.2,
      sqrt_500_bounds.1, sqrt_500_bounds.2, sqrt_800_bounds.1,
        sqrt_800_bounds.2, sqrt_1000_bounds.1, sqrt_1000_bounds.2]
    · exact le_refl _
    · linarith [showroom_f3_3, showroom_f3_7, sqrt_200_bounds.1, sqrt_200_bounds.2,
      sqrt_500_bounds.1, sqrt_500_bounds.2, sqrt_800_bounds.1,
        sqrt_800_bounds.2, sqrt_1000_bounds.1, sqrt_1000_bounds.2]

theorem showroom_expand3 :
    astar_expand Real.sqrt init_rooms 9 3 (showroom_pass3 Real.sqrt) =
      (showroom_pass4 Real.sqrt) := by
  have e0 := astar_neighbor_fresh Real.sqrt init_rooms 9 3
    (astar_close 3 (showroom_pass3 Real.sqrt)) 0 8 30 rfl (by decide) rfl rfl
    (showroom_edge _ 3 8 20 30
      (by simp [showroom_pass3, showroom_pass2, showroom_pass1, astar_open, astar_record,
        astar_close, astar_init])
      (by decide) (by decide) (by norm_num))
  have e1 := astar_neighbor_skip Real.sqrt init_rooms 9 3
    (astar_open Real.sqrt init_rooms 9 3 8 30
      (astar_close 3 (showroom_pass3 Real.sqrt))) 1 (Or.inl rfl)
  have e2 := astar_neighbor_skip Real.sqrt init_rooms 9 3
    (astar_open Real.sqrt init_rooms 9 3 8 30
      (astar_close 3 (showroom_pass3 Real.sqrt))) 2 (Or.inl rfl)
  have e3 := astar_neighbor_skip Real.sqrt init_rooms 9 3
    (astar_open Real.sqrt init_rooms 9 3 8 30
      (astar_close 3 (showroom_pass3 Real.sqrt))) 3 (Or.inr rfl)
  rw [astar_expand_dirs, e0, e1, e2, e3]
  rfl

theorem showroom_open4 (i : Nat) (hi : (showroom_pass4 Real.sqrt).open_set i = true) :
    i = 2 ∨ i = 7 ∨ i = 8 := by
  rcases astar_open_set_cases _ _ _ _ _ _ _ i hi with h | h
  · omega
  · obtain ⟨hne, h2⟩ := astar_close_set_cases _ _ i h
    rcases showroom_open3 i h2 with h3 | h3 | h3 <;> omega

theorem showroom_f4_2 : (showroom_pass4 Real.sqrt).f_score 2 = 40 := by
  have h := showroom_h 2 400 (by simp only [init_rooms]; norm_num)
  simp only [showroom_pass4, showroom_pass3, showroom_pass2, showroom_pass1, astar_open,
    astar_record, astar_close, astar_init,
    Function.update_apply, HEURISTIC_WEIGHT]
  norm_num [h, sqrt_100, sqrt_400]

theorem showroom_f4_7 : (showroom_pass4 Real.sqrt).f_score 7 = 20 + Real.sqrt 1000 := by
  have h := showroom_h 7 1000 (by simp only [init_rooms]; norm_num)
  simp only [showroom_pass4, showroom_pass3, showroom_pass2, showroom_pass1, astar_open,
    astar_record, astar_close, astar_init,
    Function.update_apply, HEURISTIC_WEIGHT]
  norm_num [h, sqrt_100, sqrt_400]

theorem showroom_f4_8 : (showroom_pass4 Real.sqrt).f_score 8 = 40 := by
  have h := showroom_h 8 100 (by simp only [init_rooms]; norm_num)
  simp only [showroom_pass4, showroom_pass3, showroom_pass2, showroom_pass1, astar_open,
    astar_record, astar_close, astar_init,
    Function.update_apply, HEURISTIC_WEIGHT]
  norm_num [h, sqrt_100, sqrt_400]

theorem showroom_select4 :
    (astar_select (showroom_pass4 Real.sqrt)).2 = ((2 : Nat) : Int) := by
  apply astar_select_first _ 2 (by decide) rfl
  · rw [showroom_f4_2]
    simp only [INFINITY_COST]
    linarith [sqrt_200_bounds.1, sqrt_200_bounds.2, sqrt_500_bounds.1, sqrt_500_bounds.2,
      sqrt_800_bounds.1,
        sqrt_800_bounds.2, sqrt_1000_bounds.1, sqrt_1000_bounds.2]
  · intro i hi ho
    rcases showroom_open4 i ho with rfl | rfl | rfl
    · omega
    · omega
    · omega
  · intro i ho
    rcases showroom_open4 i ho with rfl | rfl | rfl
    · exact le_refl _
    · linarith [showroom_f4_2, showroom_f4_7, sqrt_200_bounds.1, sqrt_200_bounds.2,
      sqrt_500_bounds.1, sqrt_500_bounds.2, sqrt_800_bounds.1,
        sqrt_800_bounds.2, sqrt_1000_bounds.1, sqrt_1000_bounds.2]
    · linarith [showroom_f4_2, showroom_f4_8, sqrt_200_bounds.1, sqrt_200_bounds.2,
      sqrt_500_bounds.1, sqrt_500_bounds.2, sqrt_800_bounds.1,
        sqrt_800_bounds.2, sqrt_1000_bounds.1, sqrt_1000_bounds.2]

theorem showroom_expand4 :
    astar_expand Real.sqrt init_rooms 9 2 (showroom_pass4 Real.sqrt) =
      (showroom_pass5 Real.sqrt) := by
  have e0 := astar_neighbor_skip Real.sqrt init_rooms 9 2
    (astar_close 2 (showroom_pass4 Real.sqrt)) 0 (Or.inl rfl)
  have e1 := astar_neighbor_skip Real.sqrt init_rooms 9 2
    (astar_close 2 (showroom_pass4 Real.sqrt)) 1 (Or.inr rfl)
  have e2 := astar_neighbor_fresh Real.sqrt init_rooms 9 2
    (astar_close 2 (showroom_pass4 Real.sqrt)) 2 4 30 rfl (by decide) rfl rfl
    (showroom_edge _ 2 4 20 30
      (by simp [showroom_pass4, showroom_pass3, showroom_pass2, showroom_pass1, astar_open,
        astar_record, astar_close, astar_init])
      (by decide) (by decide) (by norm_num))
  have e3 := astar_neighbor_skip Real.sqrt init_rooms 9 2
    (astar_open Real.sqrt init_rooms 9 2 4 30
      (astar_close 2 (showroom_pass4 Real.sqrt))) 3 (Or.inl rfl)
  rw [astar_expand_dirs, e0, e1, e2, e3]
  rfl

theorem showroom_open5 (i : Nat) (hi : (showroom_pass5 Real.sqrt).open_set i = true) :
    i = 4 ∨ i = 7 ∨ i = 8 := by
  rcases astar_open_set_cases _ _ _ _ _ _ _ i hi with h | h
  · omega
  · obtain ⟨hne, h2⟩ := astar_close_set_cases _ _ i h
    rcases showroom_open4 i h2 with h3 | h3 | h3 <;> omega

theorem showroom_f5_4 : (showroom_pass5 Real.sqrt).f_score 4 = 40 := by
  have h := showroom_h 4 100 (by simp only [init_rooms]; norm_num)
  simp only [showroom_pass5, showroom_pass4, showroom_pass3, showroom_pass2, showroom_pass1,
    astar_open, astar_record, astar_close, astar_init,
    Function.update_apply, HEURISTIC_WEIGHT]
  norm_num [h, sqrt_100, sqrt_400]

theorem showroom_f5_7 : (showroom_pass5 Real.sqrt).f_score 7 = 20 + Real.sqrt 1000 := by
  have h := showroom_h 7 1000 (by simp only [init_rooms]; norm_num)
  simp only [showroom_pass5, showroom_pass4, showroom_pass3, showroom_pass2, showroom_pass1,
    astar_open, astar_record, astar_close, astar_init,
    Function.update_apply, HEURISTIC_WEIGHT]
  norm_num [h, sqrt_100, sqrt_400]

theorem showroom_f5_8 : (showroom_pass5 Real.sqrt).f_score 8 = 40 := by
  have h := showroom_h 8 100 (by simp only [init_rooms]; norm_num)
  simp only [showroom_pass5, showroom_pass4, showroom_pass3, showroom_pass2, showroom_pass1,
    astar_open, astar_record, astar_close, astar_init,
    Function.update_apply, HEURISTIC_WEIGHT]
  norm_num [h, sqrt_100, sqrt_400]

theorem showroom_select5 :
    (astar_select (showroom_pass5 Real.sqrt)).2 = ((4 : Nat) : Int) := by
  apply astar_select_first _ 4 (by decide) rfl
  · rw [showroom_f5_4]
    simp only [INFINITY_COST]
    linarith [sqrt_200_bounds.1, sqrt_200_bounds.2, sqrt_500_bounds.1, sqrt_500_bounds.2,
      sqrt_800_bounds.1,
        sqrt_800_bounds.2, sqrt_1000_bounds.1, sqrt_1000_bounds.2]
  · intro i hi ho
    rcases showroom_open5 i ho with rfl | rfl | rfl
    · omega
    · omega
    · omega
  · intro i ho
    rcases showroom_open5 i ho with rfl | rfl | rfl
    · exact le_refl _
    · linarith [showroom_f5_4, showroom_f5_7, sqrt_200_bounds.1, sqrt_200_bounds.2,
      sqrt_500_bounds.1, sqrt_500_bounds.2, sqrt_800_bounds.1,
        sqrt_800_bounds.2, sqrt_1000_bounds.1, sqrt_1000_bounds.2]
    · linarith [showroom_f5_4, showroom_f5_8, sqrt_200_bounds.1, sqrt_200_bounds.2,
      sqrt_500_bounds.1, sqrt_500_bounds.2, sqrt_800_bounds.1,
        sqrt_800_bounds.2, sqrt_1000_bounds.1, sqrt_1000_bounds.2]

theorem showroom_expand5 :
    astar_expand Real.sqrt init_rooms 9 4 (showroom_pass5 Real.sqrt) =
      (showroom_pass6 Real.sqrt) := by
  have e0 := astar_neighbor_fresh Real.sqrt init_rooms 9 4
    (astar_close 4 (showroom_pass5 Real.sqrt)) 0 5 40 rfl (by decide) rfl rfl
    (showroom_edge _ 4 5 30 40
      (by simp [showroom_pass5, showroom_pass4, showroom_pass3, showroom_pass2, showroom_pass1,
        astar_open, astar_record, astar_close, astar_init])
      (by decide) (by decide) (by norm_num))
  have e1 := astar_neighbor_skip Real.sqrt init_rooms 9 4
    (astar_open Real.sqrt init_rooms 9 4 5 40
      (astar_close 4 (showroom_pass5 Real.sqrt))) 1 (Or.inl rfl)
  have e2 := astar_neighbor_fresh Real.sqrt init_rooms 9 4
    (astar_open Real.sqrt init_rooms 9 4 5 40
      (astar_close 4 (showroom_pass5 Real.sqrt))) 2 9 40 rfl (by decide) rfl rfl
    (showroom_edge _ 4 9 30 40
      (by simp [showroom_pass5, showroom_pass4, showroom_pass3, showroom_pass2, showroom_pass1,
        astar_open, astar_record, astar_close, astar_init])
      (by decide) (by decide) (by norm_num))
  have e3 := astar_neighbor_skip Real.sqrt init_rooms 9 4
    (astar_open Real.sqrt init_rooms 9 4 9 40
      (astar_open Real.sqrt init_rooms 9 4 5 40
      (astar_close 4 (showroom_pass5 Real.sqrt)))) 3 (Or.inr rfl)
  rw [astar_expand_dirs, e0, e1, e2, e3]
  rfl

theorem showroom_open6 (i : Nat) (hi : (showroom_pass6 Real.sqrt).open_set i = true) :
    i = 5 ∨ i = 7 ∨ i = 8 ∨ i = 9 := by
  rcases astar_open_set_cases _ _ _ _ _ _ _ i hi with h | h
  · omega
  · rcases astar_open_set_cases _ _ _ _ _ _ _ i h with h | h
    · omega
    · obtain ⟨hne, h2⟩ := astar_close_set_cases _ _ i h
      rcases showroom_open5 i h2 with h3 | h3 | h3 <;> omega

theorem showroom_f6_5 : (showroom_pass6 Real.sqrt).f_score 5 = 40 + Real.sqrt 200 := by
  have h := showroom_h 5 200 (by simp only [init_rooms]; norm_num)
  simp only [showroom_pass6, showroom_pass5, showroom_pass4, showroom_pass3, showroom_pass2,
    showroom_pass1, astar_open, astar_record, astar_close, astar_init,
    Function.update_apply, HEURISTIC_WEIGHT]
  norm_num [h, sqrt_100, sqrt_400]

theorem showroom_f6_7 : (showroom_pass6 Real.sqrt).f_score 7 = 20 + Real.sqrt 1000 := by
  have h := showroom_h 7 1000 (by simp only [init_rooms]; norm_num)
  simp only [showroom_pass6, showroom_pass5, showroom_pass4, showroom_pass3, showroom_pass2,
    showroom_pass1, astar_open, astar_record, astar_close, astar_init,
    Function.update_apply, HEURISTIC_WEIGHT]
  norm_num [h, sqrt_100, sqrt_400]

theorem showroom_f6_8 : (showroom_pass6 Real.sqrt).f_score 8 = 40 := by
  have h := showroom_h 8 100 (by simp only [init_rooms]; norm_num)
  simp only [showroom_pass6, showroom_pass5, showroom_pass4, showroom_pass3, showroom_pass2,
    showroom_pass1, astar_open, astar_record, astar_close, astar_init,
    Function.update_apply, HEURISTIC_WEIGHT]
  norm_num [h, sqrt_100, sqrt_400]

theorem showroom_f6_9 : (showroom_pass6 Real.sqrt).f_score 9 = 40 := by
  have h := showroom_h 9 0 (by simp only [init_rooms]; norm_num)
  simp only [showroom_pass6, showroom_pass5, showroom_pass4, showroom_pass3, showroom_pass2,
    showroom_pass1, astar_open, astar_record, astar_close, astar_init,
    Function.update_apply, HEURISTIC_WEIGHT]
  norm_num [h, sqrt_100, sqrt_400]

theorem showroom_select6 :
    (astar_select (showroom_pass6 Real.sqrt)).2 = ((8 : Nat) : Int) := by
  apply astar_select_first _ 8 (by decide) rfl
  · rw [showroom_f6_8]
    simp only [INFINITY_COST]
    linarith [sqrt_200_bounds.1, sqrt_200_bounds.2, sqrt_500_bounds.1, sqrt_500_bounds.2,
      sqrt_800_bounds.1,
        sqrt_800_bounds.2, sqrt_1000_bounds.1, sqrt_1000_bounds.2]
  · intro i hi ho
    rcases showroom_open6 i ho with rfl | rfl | rfl | rfl
    · linarith [showroom_f6_8, showroom_f6_5, sqrt_200_bounds.1, sqrt_200_bounds.2,
      sqrt_500_bounds.1, sqrt_500_bounds.2, sqrt_800_bounds.1,
        sqrt_800_bounds.2, sqrt_1000_bounds.1, sqrt_1000_bounds.2]
    · linarith [showroom_f6_8, showroom_f6_7, sqrt_200_bounds.1, sqrt_200_bounds.2,
      sqrt_500_bounds.1, sqrt_500_bounds.2, sqrt_800_bounds.1,
        sqrt_800_bounds.2, sqrt_1000_bounds.1, sqrt_1000_bounds.2]
    · omega
    · omega
  · intro i ho
    rcases showroom_open6 i ho with rfl | rfl | rfl | rfl
    · linarith [showroom_f6_8, showroom_f6_5, sqrt_200_bounds.1, sqrt_200_bounds.2,
      sqrt_500_bounds.1, sqrt_500_bounds.2, sqrt_800_bounds.1,
        sqrt_800_bounds.2, sqrt_1000_bounds.1, sqrt_1000_bounds.2]
    · linarith [showroom_f6_8, showroom_f6_7, sqrt_200_bounds.1, sqrt_200_bounds.2,
      sqrt_500_bounds.1, sqrt_500_bounds.2, sqrt_800_bounds.1,
        sqrt_800_bounds.2, sqrt_1000_bounds.1, sqrt_1000_bounds.2]
    · exact le_refl _
    · linarith [showroom_f6_8, showroom_f6_9, sqrt_200_bounds.1, sqrt_200_bounds.2,
      sqrt_500_bounds.1, sqrt_500_bounds.2, sqrt_800_bounds.1,
        sqrt_800_bounds.2, sqrt_1000_bounds.1, sqrt_1000_bounds.2]

theorem showroom_expand6 :
    astar_expand Real.sqrt init_rooms 9 8 (showroom_pass6 Real.sqrt) =
      (showroom_pass7 Real.sqrt) := by
  have e0 := astar_neighbor_skip Real.sqrt init_rooms 9 8
    (astar_close 8 (showroom_pass6 Real.sqrt)) 0 (Or.inl rfl)
  have e1 := astar_neighbor_skip Real.sqrt init_rooms 9 8
    (astar_close 8 (showroom_pass6 Real.sqrt)) 1 (Or.inr rfl)
  have e2 := astar_neighbor_keep Real.sqrt init_rooms 9 8
    (astar_close 8 (showroom_pass6 Real.sqrt)) 2 9 rfl (by decide) rfl rfl
    (by
      rw [showroom_edge _ 8 9 30 40
        (by simp [showroom_pass6, showroom_pass5, showroom_pass4, showroom_pass3, showroom_pass2,
          showroom_pass1, astar_open, astar_record, astar_close, astar_init])
        (by decide) (by decide) (by norm_num)]
      simp [showroom_pass6, showroom_pass5, showroom_pass4, showroom_pass3, showroom_pass2,
        showroom_pass1, astar_open, astar_record, astar_close, astar_init])
  have e3 := astar_neighbor_skip Real.sqrt init_rooms 9 8
    (astar_close 8 (showroom_pass6 Real.sqrt)) 3 (Or.inl rfl)
  rw [astar_expand_dirs, e0, e1, e2, e3]
  rfl

theorem showroom_open7 (i : Nat) (hi : (showroom_pass7 Real.sqrt).open_set i = true) :
    i = 5 ∨ i = 7 ∨ i = 9 := by
  obtain ⟨hne, h2⟩ := astar_close_set_cases _ _ i hi
  rcases showroom_open6 i h2 with h3 | h3 | h3 | h3 <;> omega

theorem showroom_f7_5 : (showroom_pass7 Real.sqrt).f_score 5 = 40 + Real.sqrt 200 := by
  have h := showroom_h 5 200 (by simp only [init_rooms]; norm_num)
  simp only [showroom_pass7, showroom_pass6, showroom_pass5, showroom_pass4, showroom_pass3,
    showroom_pass2, showroom_pass1, astar_open, astar_record, astar_close, astar_init,
    Function.update_apply, HEURISTIC_WEIGHT]
  norm_num [h, sqrt_100, sqrt_400]

theorem showroom_f7_7 : (showroom_pass7 Real.sqrt).f_score 7 = 20 + Real.sqrt 1000 := by
  have h := showroom_h 7 1000 (by simp only [init_rooms]; norm_num)
  simp only [showroom_pass7, showroom_pass6, showroom_pass5, showroom_pass4, showroom_pass3,
    showroom_pass2, showroom_pass1, astar_open, astar_record, astar_close, astar_init,
    Function.update_apply, HEURISTIC_WEIGHT]
  norm_num [h, sqrt_100, sqrt_400]

theorem showroom_f7_9 : (showroom_pass7 Real.sqrt).f_score 9 = 40 := by
  have h := showroom_h 9 0 (by simp only [init_rooms]; norm_num)
  simp only [showroom_pass7, showroom_pass6, showroom_pass5, showroom_pass4, showroom_pass3,
    showroom_pass2, showroom_pass1, astar_open, astar_record, astar_close, astar_init,
    Function.update_apply, HEURISTIC_WEIGHT]
  norm_num [h, sqrt_100, sqrt_400]

theorem showroom_select7 :
    (astar_select (showroom_pass7 Real.sqrt)).2 = ((9 : Nat) : Int) := by
  apply astar_select_first _ 9 (by decide) rfl
  · rw [showroom_f7_9]
    simp only [INFINITY_COST]
    linarith [sqrt_200_bounds.1, sqrt_200_bounds.2, sqrt_500_bounds.1, sqrt_500_bounds.2,
      sqrt_800_bounds.1,
        sqrt_800_bounds.2, sqrt_1000_bounds.1, sqrt_1000_bounds.2]
  · intro i hi ho
    rcases showroom_open7 i ho with rfl | rfl | rfl
    · linarith [showroom_f7_9, showroom_f7_5, sqrt_200_bounds.1, sqrt_200_bounds.2,
      sqrt_500_bounds.1, sqrt_500_bounds.2, sqrt_800_bounds.1,
        sqrt_800_bounds.2, sqrt_1000_bounds.1, sqrt_1000_bounds.2]
    · linarith [showroom_f7_9, showroom_f7_7, sqrt_200_bounds.1, sqrt_200_bounds.2,
      sqrt_500_bounds.1, sqrt_500_bounds.2, sqrt_800_bounds.1,
        sqrt_800_bounds.2, sqrt_1000_bounds.1, sqrt_1000_bounds.2]
    · omega
  · intro i ho
    rcases showroom_open7 i ho with rfl | rfl | rfl
    · linarith [showroom_f7_9, showroom_f7_5, sqrt_200_bounds.1, sqrt_200_bounds.2,
      sqrt_500_bounds.1, sqrt_500_bounds.2, sqrt_800_bounds.1,
        sqrt_800_bounds.2, sqrt_1000_bounds.1, sqrt_1000_bounds.2]
    · linarith [showroom_f7_9, showroom_f7_7, sqrt_200_bounds.1, sqrt_200_bounds.2,
      sqrt_500_bounds.1, sqrt_500_bounds.2, sqrt_800_bounds.1,
        sqrt_800_bounds.2, sqrt_1000_bounds.1, sqrt_1000_bounds.2]
    · exact le_refl _

/-! ## The route to the Showroom -/

theorem showroom_reached4 :
    AStarReached Real.sqrt init_rooms 0 9 (showroom_pass4 Real.sqrt) := by
  have r1 : AStarReached Real.sqrt init_rooms 0 9 (showroom_pass1 Real.sqrt) := by
    rw [← showroom_expand0]
    exact AStarReached.step AStarReached.init showroom_select0 (by decide)
  have r2 : AStarReached Real.sqrt init_rooms 0 9 (showroom_pass2 Real.sqrt) := by
    rw [← showroom_expand1]
    exact AStarReached.step r1 showroom_select1 (by decide)
  have r3 : AStarReached Real.sqrt init_rooms 0 9 (showroom_pass3 Real.sqrt) := by
    rw [← showroom_expand2]
    exact AStarReached.step r2 showroom_select2 (by decide)
  rw [← showroom_expand3]
  exact AStarReached.step r3 showroom_select3 (by decide)

theorem showroom_reached7 :
    AStarReached Real.sqrt init_rooms 0 9 (showroom_pass7 Real.sqrt) := by
  have r5 : AStarReached Real.sqrt init_rooms 0 9 (showroom_pass5 Real.sqrt) := by
    rw [← showroom_expand4]
    exact AStarReached.step showroom_reached4 showroom_select4 (by decide)
  have r6 : AStarReached Real.sqrt init_rooms 0 9 (showroom_pass6 Real.sqrt) := by
    rw [← showroom_expand5]
    exact AStarReached.step r5 showroom_select5 (by decide)
  rw [← showroom_expand6]
  exact AStarReached.step r6 showroom_select6 (by decide)

theorem showroom_search (fuel : Nat) :
    astar_pathfinding (fuel + 8) Real.sqrt init_rooms 0 9 = some (some [0, 1, 2, 4, 9]) := by
  unfold astar_pathfinding
  show astar_loop Real.sqrt init_rooms 9 (fuel + 7 + 1) _ = _
  rw [astar_loop_step _ _ _ _ _ 0 showroom_select0 (by decide), showroom_expand0]
  show astar_loop Real.sqrt init_rooms 9 (fuel + 6 + 1) _ = _
  rw [astar_loop_step _ _ _ _ _ 1 showroom_select1 (by decide), showroom_expand1]
  show astar_loop Real.sqrt init_rooms 9 (fuel + 5 + 1) _ = _
  rw [astar_loop_step _ _ _ _ _ 6 showroom_select2 (by decide), showroom_expand2]
  show astar_loop Real.sqrt init_rooms 9 (fuel + 4 + 1) _ = _
  rw [astar_loop_step _ _ _ _ _ 3 showroom_select3 (by decide), showroom_expand3]
  show astar_loop Real.sqrt init_rooms 9 (fuel + 3 + 1) _ = _
  rw [astar_loop_step _ _ _ _ _ 2 showroom_select4 (by decide), showroom_expand4]
  show astar_loop Real.sqrt init_rooms 9 (fuel + 2 + 1) _ = _
  rw [astar_loop_step _ _ _ _ _ 4 showroom_select5 (by decide), showroom_expand5]
  show astar_loop Real.sqrt init_rooms 9 (fuel + 1 + 1) _ = _
  rw [astar_loop_step _ _ _ _ _ 8 showroom_select6 (by decide), showroom_expand6]
  rw [astar_loop_goal _ _ _ _ _ showroom_select7]
  rw [astar_reconstruct_chain (showroom_pass7 Real.sqrt).came_from 9 [4, 2, 1, 0]
    ⟨rfl, rfl, rfl, rfl, rfl⟩ (by decide)]
  rfl

theorem showroom_route_lengths :
    route_length Real.sqrt (init_rooms : Nat → Room ℝ) [0, 1, 2, 4, 9] = 40 ∧
    route_length Real.sqrt (init_rooms : Nat → Room ℝ) [0, 1, 3, 8, 9] = 40 := by
  simp only [route_length]
  rw [init_rooms_edge 0 1 (by decide) (by decide), init_rooms_edge 1 2 (by decide) (by decide),
    init_rooms_edge 2 4 (by decide) (by decide), init_rooms_edge 4 9 (by decide) (by decide),
    init_rooms_edge 1 3 (by decide) (by decide), init_rooms_edge 3 8 (by decide) (by decide),
    init_rooms_edge 8 9 (by decide) (by decide)]
  norm_num

/-- Claim C28: on the map that `init_rooms` builds, `astar_pathfinding` from the
Garage Entrance to the Showroom returns `true` (within eight passes of its loop)
with the path Garage Entrance, Main Garage, Workshop, Paint Booth, Showroom, of
total length 40.  The route through Parts Storage and Computer Lab has the same
length 40.  The arrays reach the state `showroom_pass4`, in which the Workshop and
the Computer Lab are both open with the same `f_score`, and the scan takes the
Workshop, the first of the two; one pass later the Paint Booth and the Computer
Lab tie and the scan takes the Paint Booth; and when the goal is found, its
`came_from` entry is the Paint Booth. -/
theorem showroom_route_found (fuel : Nat) :
    astar_pathfinding (fuel + 8) Real.sqrt init_rooms ROOM_GARAGE_ENTRANCE ROOM_SHOWROOM =
      some (some [ROOM_GARAGE_ENTRANCE, ROOM_MAIN_GARAGE, ROOM_WORKSHOP, ROOM_PAINT_BOOTH,
        ROOM_SHOWROOM]) ∧
    route_length Real.sqrt (init_rooms : Nat → Room ℝ) [ROOM_GARAGE_ENTRANCE, ROOM_MAIN_GARAGE,
      ROOM_WORKSHOP, ROOM_PAINT_BOOTH, ROOM_SHOWROOM] = 40 ∧
    is_route (init_rooms : Nat → Room ℝ) ROOM_GARAGE_ENTRANCE ROOM_SHOWROOM
      [ROOM_GARAGE_ENTRANCE, ROOM_MAIN_GARAGE, ROOM_PARTS_STORAGE, ROOM_COMPUTER_LAB,
        ROOM_SHOWROOM] ∧
    route_length Real.sqrt (init_rooms : Nat → Room ℝ) [ROOM_GARAGE_ENTRANCE, ROOM_MAIN_GARAGE,
      ROOM_PARTS_STORAGE, ROOM_COMPUTER_LAB, ROOM_SHOWROOM] = 40 ∧
    AStarReached Real.sqrt init_rooms ROOM_GARAGE_ENTRANCE ROOM_SHOWROOM
      (showroom_pass4 Real.sqrt) ∧
    (showroom_pass4 Real.sqrt).open_set ROOM_WORKSHOP = true ∧
    (showroom_pass4 Real.sqrt).open_set ROOM_COMPUTER_LAB = true ∧
    (showroom_pass4 Real.sqrt).f_score ROOM_WORKSHOP =
      (showroom_pass4 Real.sqrt).f_score ROOM_COMPUTER_LAB ∧
    (astar_select (showroom_pass4 Real.sqrt)).2 = (ROOM_WORKSHOP : Int) ∧
    astar_expand Real.sqrt init_rooms ROOM_SHOWROOM ROOM_WORKSHOP (showroom_pass4 Real.sqrt) =
      showroom_pass5 Real.sqrt ∧
    (showroom_pass5 Real.sqrt).f_score ROOM_PAINT_BOOTH =
      (showroom_pass5 Real.sqrt).f_score ROOM_COMPUTER_LAB ∧
    (astar_select (showroom_pass5 Real.sqrt)).2 = (ROOM_PAINT_BOOTH : Int) ∧
    AStarReached Real.sqrt init_rooms ROOM_GARAGE_ENTRANCE ROOM_SHOWROOM
      (showroom_pass7 Real.sqrt) ∧
    (astar_select (showroom_pass7 Real.sqrt)).2 = (ROOM_SHOWROOM : Int) ∧
    (showroom_pass7 Real.sqrt).came_from ROOM_SHOWROOM = (ROOM_PAINT_BOOTH : Int) := by
  refine ⟨showroom_search fuel, showroom_route_lengths.1, ⟨rfl, rfl, ?_⟩,
    showroom_route_lengths.2, showroom_reached4, rfl, rfl, ?_, showroom_select4,
    showroom_expand4, ?_, showroom_select5, showroom_reached7, showroom_select7, rfl⟩
  · simp only [ROOM_GARAGE_ENTRANCE, ROOM_MAIN_GARAGE, ROOM_PARTS_STORAGE, ROOM_COMPUTER_LAB,
      ROOM_SHOWROOM, List.chain'_cons, List.chain'_singleton, and_true]
    decide
  · exact showroom_f4_2.trans showroom_f4_8.symm
  · exact showroom_f5_4.trans showroom_f5_8.symm

/-! ## The step count of `cmd_navigate` -/

theorem cmd_navigate_found {α : Type} [LinearOrderedField α] (fuel : Nat) (sqrt : α → α)
    (rooms : Nat → Room α) (current_room dest_id : RoomID) (steps : Int)
    (printed : List RoomID)
    (h : cmd_navigate fuel sqrt rooms current_room dest_id =
      some (NavigateReport.found steps printed)) :
    steps = -1 ∧ printed = [] := by
  unfold cmd_navigate at h
  split_ifs at h with h1 h2
  · cases h
  · cases h
  · cases hr : astar_pathfinding fuel sqrt rooms current_room dest_id with
    | none => rw [hr] at h; cases h
    | some r =>
      cases r with
      | none => rw [hr] at h; cases h
      | some path =>
        rw [hr] at h
        simp only [Option.some.injEq, NavigateReport.found.injEq] at h
        obtain ⟨h3, h4⟩ := h
        subst h3
        subst h4
        exact ⟨by decide, rfl⟩

/-- Claim C26 fails in the code: `cmd_navigate` passes its local `path_length`
(set to 0) to `astar_pathfinding` by value, so whenever a route is found the step
count it prints is `0 - 1 = -1` and `print_path` is handed the length 0 and
prints no room.  From the Garage Entrance to the Showroom the path computed has
five rooms, so the count should be 4, yet the report is `-1` steps and no room. -/
theorem navigate_step_count_lost (fuel : Nat) :
    astar_pathfinding (fuel + 8) Real.sqrt init_rooms ROOM_GARAGE_ENTRANCE ROOM_SHOWROOM =
      some (some [0, 1, 2, 4, 9]) ∧
    (([0, 1, 2, 4, 9] : List RoomID).length : Int) - 1 = 4 ∧
    cmd_navigate (fuel + 8) Real.sqrt init_rooms ROOM_GARAGE_ENTRANCE ROOM_SHOWROOM =
      some (NavigateReport.found (-1) []) ∧
    print_path [0, 1, 2, 4, 9] 5 = [0, 1, 2, 4, 9] ∧
    ∀ (n : Nat) (rooms : Nat → Room ℝ) (current_room dest_id : RoomID) (steps : Int)
      (printed : List RoomID),
      cmd_navigate n Real.sqrt rooms current_room dest_id =
        some (NavigateReport.found steps printed) → steps = -1 ∧ printed = [] := by
  refine ⟨showroom_search fuel, by decide, ?_, by decide, ?_⟩
  · have h := showroom_search fuel
    unfold cmd_navigate
    rw [if_neg (by decide), if_neg (by decide)]
    simp only [ROOM_GARAGE_ENTRANCE, ROOM_SHOWROOM, h]
    rfl
  · intro n rooms current_room dest_id steps printed h
    exact cmd_navigate_found n Real.sqrt rooms current_room dest_id steps printed h

/-! ## Rounding: five rooms on a diagonal -/

theorem diagonal_rooms_valid : valid_connections diagonal_rooms := by
  unfold valid_connections
  decide

theorem diagonal_rooms_route : is_route diagonal_rooms 0 4 [0, 3, 1, 4] := by
  refine ⟨rfl, rfl, ?_⟩
  simp only [List.chain'_cons, List.chain'_singleton, and_true]
  decide

set_option maxRecDepth 1000000 in
theorem diagonal_rooms_astar :
    astar_pathfinding 11 Binary64.sqrt diagonal_rooms 0 4 = some (some [0, 2, 1, 4]) := by
  decide

set_option maxRecDepth 1000000 in
theorem diagonal_rooms_lengths :
    route_length Binary64.sqrt diagonal_rooms [0, 2, 1, 4] = ⟨7961314590657216, -50⟩ ∧
    route_length Binary64.sqrt diagonal_rooms [0, 3, 1, 4] = ⟨7961314590657215, -50⟩ ∧
    edge_length Binary64.sqrt diagonal_rooms 0 2 + edge_length Binary64.sqrt diagonal_rooms 2 1 +
      edge_length Binary64.sqrt diagonal_rooms 1 4 = ⟨7961314590657216, -50⟩ ∧
    edge_length Binary64.sqrt diagonal_rooms 0 3 + edge_length Binary64.sqrt diagonal_rooms 3 1 +
      edge_length Binary64.sqrt diagonal_rooms 1 4 = ⟨7961314590657215, -50⟩ := by
  decide

set_option maxRecDepth 1000000 in
theorem diagonal_rooms_dijkstra :
    (dijkstra_shortest_path Binary64.sqrt diagonal_rooms 0 4).cost 4 =
      ⟨7961314590657215, -50⟩ := by
  decide

/-- Claim C2 fails as stated.  In binary64 arithmetic, on the map `diagonal_rooms`
(valid connections, rooms on the line `y = x`), `astar_pathfinding` from room 0 to
room 4 returns the path `[0, 2, 1, 4]`.  Its edge lengths sum to
`7961314590657216 * 2^-50` (`0x1.c48c6001f0acp+2`), added from either end, while
those of the route `[0, 3, 1, 4]` sum to `7961314590657215 * 2^-50`
(`0x1.c48c6001f0abfp+2`), which is less. -/
theorem astar_rounding_longer_path :
    valid_connections diagonal_rooms ∧
    astar_pathfinding 11 Binary64.sqrt diagonal_rooms 0 4 = some (some [0, 2, 1, 4]) ∧
    is_route diagonal_rooms 0 4 [0, 3, 1, 4] ∧
    route_length Binary64.sqrt diagonal_rooms [0, 2, 1, 4] = ⟨7961314590657216, -50⟩ ∧
    route_length Binary64.sqrt diagonal_rooms [0, 3, 1, 4] = ⟨7961314590657215, -50⟩ ∧
    edge_length Binary64.sqrt diagonal_rooms 0 2 + edge_length Binary64.sqrt diagonal_rooms 2 1 +
      edge_length Binary64.sqrt diagonal_rooms 1 4 = ⟨7961314590657216, -50⟩ ∧
    edge_length Binary64.sqrt diagonal_rooms 0 3 + edge_length Binary64.sqrt diagonal_rooms 3 1 +
      edge_length Binary64.sqrt diagonal_rooms 1 4 = ⟨7961314590657215, -50⟩ ∧
    route_length Binary64.sqrt diagonal_rooms [0, 3, 1, 4] <
      route_length Binary64.sqrt diagonal_rooms [0, 2, 1, 4] ∧
    ¬ (route_length Binary64.sqrt diagonal_rooms [0, 2, 1, 4] ≤
      route_length Binary64.sqrt diagonal_rooms [0, 3, 1, 4]) := by
  obtain ⟨h1, h2, h3, h4⟩ := diagonal_rooms_lengths
  refine ⟨diagonal_rooms_valid, diagonal_rooms_astar, diagonal_rooms_route, h1, h2, h3, h4,
    ?_, ?_⟩
  · rw [h1, h2]; decide
  · rw [h1, h2]; decide

/-- Claim C3 fails as stated.  In binary64 arithmetic, on the map `diagonal_rooms`
(valid connections), rooms 0 and 4 are connected and `astar_pathfinding` from 0 to
4 returns the path `[0, 2, 1, 4]`, whose edge lengths sum to
`7961314590657216 * 2^-50` added from either end, while
`dijkstra_shortest_path` for the same pair leaves `cost[4]` equal to
`7961314590657215 * 2^-50`, one unit in the last place less. -/
theorem astar_dijkstra_rounding_apart :
    valid_connections diagonal_rooms ∧
    is_route diagonal_rooms 0 4 [0, 3, 1, 4] ∧
    astar_pathfinding 11 Binary64.sqrt diagonal_rooms 0 4 = some (some [0, 2, 1, 4]) ∧
    route_length Binary64.sqrt diagonal_rooms [0, 2, 1, 4] = ⟨7961314590657216, -50⟩ ∧
    edge_length Binary64.sqrt diagonal_rooms 0 2 + edge_length Binary64.sqrt diagonal_rooms 2 1 +
      edge_length Binary64.sqrt diagonal_rooms 1 4 = ⟨7961314590657216, -50⟩ ∧
    (dijkstra_shortest_path Binary64.sqrt diagonal_rooms 0 4).cost 4 =
      ⟨7961314590657215, -50⟩ ∧
    route_length Binary64.sqrt diagonal_rooms [0, 2, 1, 4] ≠
      (dijkstra_shortest_path Binary64.sqrt diagonal_rooms 0 4).cost 4 ∧
    (dijkstra_shortest_path Binary64.sqrt diagonal_rooms 0 4).cost 4 <
      route_length Binary64.sqrt diagonal_rooms [0, 2, 1, 4] := by
  obtain ⟨h1, _, h3, _⟩ := diagonal_rooms_lengths
  refine ⟨diagonal_rooms_valid, diagonal_rooms_route, diagonal_rooms_astar, h1, h3,
    diagonal_rooms_dijkstra, ?_, ?_⟩
  · rw [h1, diagonal_rooms_dijkstra]; decide
  · rw [h1, diagonal_rooms_dijkstra]; decide

end GarageAdventure
